import Mathlib

/-!
# zyyp backend: feed ingestion (`pkg/rss/rss.go`) and article handlers

A shallow embedding of the ingestion pipeline of the zyyp backend.

Go strings are byte sequences, so `GoString` is a list of bytes (naturals below 256) and the
standard-library functions the code calls (`range` over a string, `strings.Builder.WriteRune`,
`strings.Fields`, `strings.Join`, `strings.TrimSpace`, `unicode.IsSpace`) are modelled at the
byte level, with Go's UTF-8 decoding rules (an invalid byte decodes to U+FFFD, one byte wide).
-/

namespace Zyyp

/-! ## Go strings and UTF-8 -/

/-- A Go string: a sequence of bytes (each below 256), not necessarily valid UTF-8. A rune (a
Unicode code point) is a natural number as well. -/
abbrev GoString := List Nat

/-- The constant `utf8.RuneError` (U+FFFD). -/
def RuneError : Nat := 0xFFFD

/-- Lower bound of the second byte accepted after the lead byte `s0` (`utf8.acceptRanges`). -/
def acceptLo (s0 : Nat) : Nat :=
  if s0 = 0xE0 then 0xA0 else if s0 = 0xF0 then 0x90 else 0x80

/-- Upper bound of the second byte accepted after the lead byte `s0` (`utf8.acceptRanges`). -/
def acceptHi (s0 : Nat) : Nat :=
  if s0 = 0xED then 0x9F else if s0 = 0xF4 then 0x8F else 0xBF

/-- The function `utf8.DecodeRuneInString`: the first rune of `s` and its width in bytes.
The empty string gives `(RuneError, 0)`, an invalid encoding gives `(RuneError, 1)`. -/
def decodeRune : GoString → Nat × Nat
  | [] => (RuneError, 0)
  | s0 :: t =>
    if s0 < 0x80 then (s0, 1)
    else if s0 < 0xC2 ∨ 0xF4 < s0 then (RuneError, 1)
    else
      match t with
      | [] => (RuneError, 1)
      | s1 :: t1 =>
        if s1 < acceptLo s0 ∨ acceptHi s0 < s1 then (RuneError, 1)
        else if s0 < 0xE0 then ((s0 % 32) * 64 + s1 % 64, 2)
        else
          match t1 with
          | [] => (RuneError, 1)
          | s2 :: t2 =>
            if s2 < 0x80 ∨ 0xBF < s2 then (RuneError, 1)
            else if s0 < 0xF0 then ((s0 % 16) * 4096 + (s1 % 64) * 64 + s2 % 64, 3)
            else
              match t2 with
              | [] => (RuneError, 1)
              | s3 :: _ =>
                if s3 < 0x80 ∨ 0xBF < s3 then (RuneError, 1)
                else ((s0 % 8) * 262144 + (s1 % 64) * 4096 + (s2 % 64) * 64 + s3 % 64, 4)

/-- The function `utf8.AppendRune` (what `strings.Builder.WriteRune` appends): the UTF-8
encoding of `r`; surrogates and values above U+10FFFF are written as U+FFFD. -/
def encodeRune (r : Nat) : GoString :=
  if r ≤ 0x7F then [r]
  else if r ≤ 0x7FF then [0xC0 + r / 64, 0x80 + r % 64]
  else if 0x10FFFF < r ∨ (0xD800 ≤ r ∧ r ≤ 0xDFFF) then [0xEF, 0xBF, 0xBD]
  else if r ≤ 0xFFFF then [0xE0 + r / 4096, 0x80 + r / 64 % 64, 0x80 + r % 64]
  else [0xF0 + r / 262144, 0x80 + r / 4096 % 64, 0x80 + r / 64 % 64, 0x80 + r % 64]

/-- The iteration `for i, r := range s` from a position that is `skip` bytes before the next
rune boundary: every decoded rune together with the bytes it was decoded from. -/
def rangeFrom : Nat → GoString → List (Nat × GoString)
  | _, [] => []
  | k + 1, _ :: t => rangeFrom k t
  | 0, b :: t =>
    ((decodeRune (b :: t)).1, (b :: t).take (decodeRune (b :: t)).2)
      :: rangeFrom ((decodeRune (b :: t)).2 - 1) t

/-- The runes `for _, r := range s` yields, in order. -/
def rangeRunes (s : GoString) : List Nat := (rangeFrom 0 s).map Prod.fst

/-- The function `unicode.IsSpace`: the Latin-1 cases and the `White_Space` table. -/
def isSpace (r : Nat) : Bool :=
  if r ≤ 0xFF then
    r = 0x09 || r = 0x0A || r = 0x0B || r = 0x0C || r = 0x0D || r = 0x20 || r = 0x85 || r = 0xA0
  else
    r = 0x1680 || (0x2000 ≤ r && r ≤ 0x200A) || r = 0x2028 || r = 0x2029 || r = 0x202F
      || r = 0x205F || r = 0x3000

/-- The span loop of `strings.FieldsFunc(s, unicode.IsSpace)` over the decoded runes: `cur` is the
field being read (empty when no field is open). -/
def fieldsLoop : List (Nat × GoString) → GoString → List GoString
  | [], cur => if cur = [] then [] else [cur]
  | c :: cs, cur =>
    if isSpace c.1 then
      if cur = [] then fieldsLoop cs [] else cur :: fieldsLoop cs []
    else fieldsLoop cs (cur ++ c.2)

/-- The function `strings.Fields`: the maximal substrings of `s` free of white space, as
`FieldsFunc(s, unicode.IsSpace)` computes them (the ASCII fast path of `Fields` returns the same
slices). -/
def Fields (s : GoString) : List GoString := fieldsLoop (rangeFrom 0 s) []

/-- The function `strings.Join`. -/
def Join : List GoString → GoString → GoString
  | [], _ => []
  | [a], _ => a
  | a :: b :: rest, sep => a ++ sep ++ Join (b :: rest) sep

/-- The function `strings.TrimSpace`: the substring of `s` left after its leading and its
trailing white-space runes (`unicode.IsSpace`) are removed. -/
def TrimSpace (s : GoString) : GoString :=
  ((((rangeFrom 0 s).dropWhile (fun c => isSpace c.1)).reverse.dropWhile
    (fun c => isSpace c.1)).reverse.map Prod.snd).flatten

/-- The bytes of a string literal (its UTF-8 encoding). -/
def lit (s : String) : GoString := (s.toList.map (fun c => encodeRune c.toNat)).flatten

/-! ## `stripHTML` -/

/-- The loop state of `stripHTML`: the flag `inTag` and the builder `result`. -/
structure StripState where
  inTag : Bool
  result : GoString
deriving DecidableEq, Repr

/-- One iteration of the loop of `stripHTML` (the `switch r`). -/
def stripStep (st : StripState) (r : Nat) : StripState :=
  if r = 60 then { st with inTag := true }
  else if r = 62 then { st with inTag := false }
  else if !st.inTag then { st with result := st.result ++ encodeRune r }
  else st

/-- The function `stripHTML` of `pkg/rss/rss.go`. -/
def stripHTML (s : GoString) : GoString :=
  let text := ((rangeRunes s).foldl stripStep { inTag := false, result := [] }).result
  TrimSpace (Join (Fields text) (lit " "))

/-! ## Feed entries and the fields `FetchSource` derives from them -/

/-- An error value (`error` in Go), identified by its message. -/
abbrev Error := String

/-- A point in time (`time.Time`), as a number of time units. -/
abbrev Time := Nat

/-- A `uuid.UUID`. -/
abbrev UUID := Nat

/-- The part of `gofeed.Image` the code reads. -/
structure Image where
  url : GoString
deriving DecidableEq, Repr

/-- The part of `gofeed.Enclosure` the code reads (`typ` is the field `Type`). -/
structure Enclosure where
  url : GoString
  typ : GoString
deriving DecidableEq, Repr

/-- The part of `gofeed.Person` the code reads. -/
structure Person where
  name : GoString
deriving DecidableEq, Repr

/-- The part of `gofeed.Item` the code reads. -/
structure Item where
  title : GoString
  description : GoString
  content : GoString
  link : GoString
  image : Option Image
  enclosures : List Enclosure
  authors : List Person
  author : Option Person
  publishedParsed : Option Time
  updatedParsed : Option Time
deriving DecidableEq, Repr

/-- The function `strings.HasPrefix`. -/
def HasPrefix (s pre : GoString) : Bool := pre.isPrefixOf s

/-- The local `description` of `FetchSource` before it is cleaned (lines 75-82): the entry's
description, or, when that is empty and there is content, the content cut to 500 bytes with
`"..."` appended when it is longer than 500 bytes (`len` and slicing count bytes). -/
def rawDescription (item : Item) : GoString :=
  if item.description = [] ∧ item.content ≠ [] then
    if item.content.length > 500 then item.content.take 500 ++ lit "..." else item.content
  else item.description

/-- The description `FetchSource` stores (line 85). -/
def description (item : Item) : GoString := stripHTML (rawDescription item)

/-- The enclosure loop of `FetchSource` (lines 94-99): the URL of the first enclosure whose type
has the prefix `"image/"`. -/
def enclosureImage : List Enclosure → Option GoString
  | [] => none
  | enclosure :: rest =>
    if HasPrefix enclosure.typ (lit "image/") then some enclosure.url else enclosureImage rest

/-- The image URL `FetchSource` stores (lines 88-100). -/
def imageURL (item : Item) : Option GoString :=
  let imageURL : Option GoString :=
    match item.image with
    | some img => if img.url ≠ [] then some img.url else none
    | none => none
  if imageURL = none ∧ item.enclosures.length > 0 then enclosureImage item.enclosures
  else imageURL

/-- The author `FetchSource` stores (lines 103-108). -/
def author (item : Item) : Option GoString :=
  match item.authors with
  | first :: _ => some first.name
  | [] =>
    match item.author with
    | some a => some a.name
    | none => none

/-- The publication time `FetchSource` stores (lines 111-116). -/
def publishedAt (item : Item) : Option Time :=
  match item.publishedParsed with
  | some t => some t
  | none => item.updatedParsed

/-- The expression `int(math.Max(1, float64(wordCount)/200))`: the quotient is taken in exact
rational arithmetic (the `float64` quotient has the same integer part for every word count a
string in memory can have), and `int` of a value that is at least 1 is its floor. -/
def minutes (wordCount : Nat) : Int := Int.floor (max (1 : ℚ) ((wordCount : ℚ) / 200))

/-- The local `wordCount` of `FetchSource` (lines 119-122): the words of the content, or of the
cleaned description when the content has none. -/
def wordCount (item : Item) : Nat :=
  if (Fields item.content).length = 0 then (Fields (description item)).length
  else (Fields item.content).length

/-- The reading time `FetchSource` stores (line 123). -/
def readingTime (item : Item) : Int := minutes (wordCount item)

/-- The reading time `CreateArticle` computes (`handlers/articles.go`, lines 261-266) from the
optional description of the request. -/
def createArticleReadingTime (description : Option GoString) : Int :=
  match description with
  | none => 5
  | some d => minutes (Fields d).length

/-! ## The store and `FetchSource` -/

/-- The columns of `articles` that `FetchSource` writes. -/
structure ArticleRow where
  title : GoString
  url : GoString
  description : GoString
  content : GoString
  author : Option GoString
  publishedAt : Option Time
  sourceID : UUID
  sourceName : GoString
  imageURL : Option GoString
  readingTimeMinutes : Int
deriving DecidableEq, Repr

/-- A row of `rss_sources`. -/
structure SourceRow where
  id : UUID
  name : GoString
  url : GoString
  faviconURL : Option GoString
  active : Bool
  lastFetchedAt : Option Time
deriving DecidableEq, Repr

/-- What the ingestion code does to the outside world, in the order it does it. -/
inductive Event where
  | listQuery
  | parseURL (url : GoString)
  | existsQuery (link : GoString)
  | insertExec (row : ArticleRow)
  | updateExec (sourceID : UUID)
  | logInsertError (title : GoString) (err : Error)
  | logFetchError (name : GoString) (err : Error)
deriving DecidableEq, Repr

/-- The state of the world: the two tables and the trace of effects so far. -/
structure World where
  articles : List ArticleRow
  sources : List SourceRow
  trace : List Event
deriving DecidableEq, Repr

/-- Append an effect to the trace. -/
def World.emit (w : World) (e : Event) : World := { w with trace := w.trace ++ [e] }

/-- What one call of `FetchSource` meets outside the program: the result of `ParseURL`, the
errors of the storage calls (per entry index; `none` is success) and the value of `NOW()`. -/
structure FetchEnv where
  feed : Except Error (List Item)
  existsErr : Nat → Option Error
  insertErr : Nat → Option Error
  updateErr : Option Error
  now : Time

/-- The query `SELECT EXISTS(SELECT 1 FROM articles WHERE url = $1)`. -/
def articleExists (articles : List ArticleRow) (url : GoString) : Bool :=
  articles.any (fun a => a.url = url)

/-- The statement `INSERT INTO articles ... ON CONFLICT (url) DO NOTHING`. -/
def insertArticle (articles : List ArticleRow) (row : ArticleRow) : List ArticleRow :=
  if articleExists articles row.url then articles else articles ++ [row]

/-- The article `FetchSource` builds from one entry (the arguments of the `INSERT`). -/
def articleOf (sourceID : UUID) (sourceName : GoString) (item : Item) : ArticleRow :=
  { title := item.title
    url := item.link
    description := description item
    content := item.content
    author := author item
    publishedAt := publishedAt item
    sourceID := sourceID
    sourceName := sourceName
    imageURL := imageURL item
    readingTimeMinutes := readingTime item }

/-- One iteration of the entry loop of `FetchSource` (lines 66-135) for the entry at index `i`. -/
def processItem (env : FetchEnv) (sourceID : UUID) (sourceName : GoString) (i : Nat)
    (item : Item) (w : World) : World :=
  let w := w.emit (Event.existsQuery item.link)
  match env.existsErr i with
  | some _ => w
  | none =>
    if articleExists w.articles item.link then w
    else
      let row := articleOf sourceID sourceName item
      let w := w.emit (Event.insertExec row)
      match env.insertErr i with
      | some err => w.emit (Event.logInsertError item.title err)
      | none => { w with articles := insertArticle w.articles row }

/-- The entry loop of `FetchSource`, from index `i` on. -/
def processItems (env : FetchEnv) (sourceID : UUID) (sourceName : GoString) :
    Nat → List Item → World → World
  | _, [], w => w
  | i, item :: rest, w =>
    processItems env sourceID sourceName (i + 1) rest (processItem env sourceID sourceName i item w)

/-- The statement `UPDATE rss_sources SET last_fetched_at = NOW() WHERE id = $1`. -/
def markFetched (sources : List SourceRow) (sourceID : UUID) (now : Time) : List SourceRow :=
  sources.map (fun s => if s.id = sourceID then { s with lastFetchedAt := some now } else s)

/-- The method `FetchSource` of `pkg/rss/rss.go`: the world it leaves and the error it returns. -/
def FetchSource (env : FetchEnv) (sourceID : UUID) (sourceName sourceURL : GoString)
    (_faviconURL : Option GoString) (w : World) : World × Option Error :=
  let w := w.emit (Event.parseURL sourceURL)
  match env.feed with
  | .error err => (w, some err)
  | .ok items =>
    let w := processItems env sourceID sourceName 0 items w
    let w := w.emit (Event.updateExec sourceID)
    match env.updateErr with
    | some err => (w, some err)
    | none => ({ w with sources := markFetched w.sources sourceID env.now }, none)

/-! ## `FetchAllSources` -/

/-- The local type `Source` of `FetchAllSources`. -/
structure Source where
  id : UUID
  name : GoString
  url : GoString
  faviconURL : Option GoString
deriving DecidableEq, Repr

/-- What one call of `FetchAllSources` meets outside the program: the error `Pool.Query` returns
for the listing query (`none` is success); the failure `rows.Next()` meets instead of row `i`
(the server reports it at Bind/Execute for `i = 0`, in mid-stream later), which pgx keeps for
`rows.Err()`; the rows whose `Scan` fails (by row index); and the environment of each
`FetchSource` call (by position in the slice `sources`). -/
structure AllEnv where
  queryErr : Option Error
  nextErr : Nat → Option Error
  scanErr : Nat → Option Error
  fetch : Nat → FetchEnv

/-- The rows of `SELECT id, name, url, favicon_url FROM rss_sources WHERE active = TRUE`. -/
def activeSources (sources : List SourceRow) : List Source :=
  (sources.filter (fun s => s.active)).map
    (fun s => { id := s.id, name := s.name, url := s.url, faviconURL := s.faviconURL })

/-- The scan loop of `FetchAllSources` (lines 42-48), from row index `i` on. The loop ends when
`rows.Next()` is false: after the last row, when the stream fails (the failure stays in
`rows.Err()`, which the code never reads), and after a `Scan` that fails, because pgx closes the
rows on a failed `Scan`; the row whose `Scan` fails is not appended to `sources`. -/
def scanRows (nextErr scanErr : Nat → Option Error) : Nat → List Source → List Source
  | _, [] => []
  | i, src :: rest =>
    match nextErr i with
    | some _ => []
    | none =>
      match scanErr i with
      | none => src :: scanRows nextErr scanErr (i + 1) rest
      | some _ => []

/-- The fetch loop of `FetchAllSources` (lines 50-54), from position `k` on. -/
def fetchLoop (fetch : Nat → FetchEnv) : Nat → List Source → World → World
  | _, [], w => w
  | k, src :: rest, w =>
    let r := FetchSource (fetch k) src.id src.name src.url src.faviconURL w
    match r.2 with
    | some err => fetchLoop fetch (k + 1) rest (r.1.emit (Event.logFetchError src.name err))
    | none => fetchLoop fetch (k + 1) rest r.1

/-- The method `FetchAllSources` of `pkg/rss/rss.go`: only the error `Pool.Query` returns is
returned; a failure met while the rows are read shortens `sources` and is not noticed. -/
def FetchAllSources (env : AllEnv) (w : World) : World × Option Error :=
  let w := w.emit Event.listQuery
  match env.queryErr with
  | some err => (w, some err)
  | none =>
    let sources := scanRows env.nextErr env.scanErr 0 (activeSources w.sources)
    (fetchLoop env.fetch 0 sources w, none)

/-- The rows the code has tried to insert so far (the `INSERT` statements in the trace). -/
def World.inserts (w : World) : List ArticleRow :=
  w.trace.filterMap (fun e => match e with
    | Event.insertExec row => some row
    | _ => none)

/-- The URLs of the stored articles, in table order. -/
def World.urls (w : World) : List GoString := w.articles.map (fun a => a.url)

/-- The feed URLs the code has fetched so far (the `ParseURL` calls in the trace), in order. -/
def World.parsed (w : World) : List GoString :=
  w.trace.filterMap (fun e => match e with
    | Event.parseURL url => some url
    | _ => none)

/-- The reading time of the specification, `max(1, round(w/200))`, with `round` rounding to the
nearest integer. -/
def specMinutes (w : Nat) : Int := max 1 (round ((w : ℚ) / 200))

/-! ## Strings as sequences of runes -/

/-- The function `utf8.ValidRune`: `r` is a Unicode scalar value (not a surrogate, at most
U+10FFFF). -/
def validRune (r : Nat) : Prop := r < 0xD800 ∨ (0xE000 ≤ r ∧ r ≤ 0x10FFFF)

instance (r : Nat) : Decidable (validRune r) := by unfold validRune; exact inferInstance

/-- The bytes written by `WriteRune` for each rune of `rs` in turn. -/
def encodeAll (rs : List Nat) : GoString := (rs.map encodeRune).flatten

/-- The function `utf8.ValidString`: no position of `s` decodes to an encoding error. -/
def ValidString (s : GoString) : Bool :=
  (rangeFrom 0 s).all (fun c => !(c.1 = RuneError && c.2.length = 1))

/-- The runes the loop of `stripHTML` writes to its builder when it reads the runes `rs`, starting
with the flag `inTag`. -/
def keepText : Bool → List Nat → List Nat
  | _, [] => []
  | inTag, r :: rs =>
    if r = 60 then keepText true rs
    else if r = 62 then keepText false rs
    else if inTag then keepText inTag rs
    else r :: keepText inTag rs

/-- The span loop of `strings.Fields` on a sequence of runes: `cur` is the word being read. -/
def wordsLoop : List Nat → List Nat → List (List Nat)
  | [], cur => if cur = [] then [] else [cur]
  | r :: rs, cur =>
    if isSpace r then
      if cur = [] then wordsLoop rs [] else cur :: wordsLoop rs []
    else wordsLoop rs (cur ++ [r])

/-- The maximal runs of runes of `rs` free of white space. -/
def words (rs : List Nat) : List (List Nat) := wordsLoop rs []

/-- A sequence of runes without its leading and trailing white space. -/
def trimRunes (rs : List Nat) : List Nat :=
  ((rs.dropWhile isSpace).reverse.dropWhile isSpace).reverse

/-! ## The normalizer as the specification words it -/

/-- Step (1) of the specified normalizer: delete every stretch from a `<` through the next `>`
(through the end when no `>` follows), and nothing else. -/
def specDeleteSpans : List Nat → List Nat
  | [] => []
  | r :: rs =>
    if r = 60 then specDeleteSpans ((rs.dropWhile (fun x => x ≠ 62)).drop 1)
    else r :: specDeleteSpans rs
termination_by rs => rs.length
decreasing_by
  · simp only [List.length_drop, List.length_cons]
    exact Nat.lt_succ_of_le (Nat.le_trans (Nat.sub_le _ _)
      (List.dropWhile_sublist _).length_le)
  · simp

/-- Step (2) of the specified normalizer: replace every run of white space by one space. -/
def specCollapse : List Nat → List Nat
  | [] => []
  | r :: rs =>
    if isSpace r then 32 :: specCollapse (rs.dropWhile isSpace)
    else r :: specCollapse rs
termination_by rs => rs.length
decreasing_by
  · simp only [List.length_cons]
    exact Nat.lt_succ_of_le (List.dropWhile_sublist _).length_le
  · simp

/-- The specified normalizer on the characters of `s`: delete the tag-delimited spans, collapse
the white space, trim (step (3)). -/
def specStripHTML (s : GoString) : GoString :=
  encodeAll (trimRunes (specCollapse (specDeleteSpans (rangeRunes s))))

/-- The description before cleaning as the specification words it: the entry's description when
non-empty, otherwise the content cut to its first 500 characters, with `"..."` appended when the
content has more than 500 characters. -/
def specRawDescription (item : Item) : GoString :=
  if item.description ≠ [] then item.description
  else if (rangeRunes item.content).length > 500 then
    encodeAll ((rangeRunes item.content).take 500) ++ lit "..."
  else item.content

/-- No two adjacent runes of `rs` are both white space. -/
def noAdjacentSpaces : List Nat → Bool
  | a :: b :: rest => !(isSpace a && isSpace b) && noAdjacentSpaces (b :: rest)
  | _ => true

/-! ## Concrete inputs -/

/-- The function `strings.Repeat`. -/
def Repeat (s : GoString) (count : Nat) : GoString := (List.replicate count s).flatten

/-- A feed entry with the given link, description and content and nothing else. -/
def entry (link description content : GoString) : Item :=
  { title := lit "title", description := description, content := content, link := link,
    image := none, enclosures := [], authors := [], author := none,
    publishedParsed := none, updatedParsed := none }

/-- A feed of three entries, two of them with the same link. -/
def demoFeed : List Item :=
  [entry (lit "a") (lit "<b>one</b>") [], entry (lit "b") [] (lit "two"),
    entry (lit "a") (lit "again") []]

/-- A run of `FetchSource` in which every call succeeds. -/
def demoEnv : FetchEnv :=
  { feed := .ok demoFeed, existsErr := fun _ => none, insertErr := fun _ => none,
    updateErr := none, now := 7 }

/-- A run of `FetchSource` in which the feed cannot be fetched. -/
def brokenFeedEnv : FetchEnv :=
  { feed := .error "unreachable", existsErr := fun _ => none, insertErr := fun _ => none,
    updateErr := none, now := 7 }

/-- A store with one active source, never fetched, and no article. -/
def demoWorld : World :=
  { articles := []
    sources := [{ id := 1, name := lit "src", url := lit "http://feed", faviconURL := none,
                  active := true, lastFetchedAt := none }]
    trace := [] }

/-! ## The image of an entry as the specification words it -/

/-- The URL of the first enclosure, in list order, whose type has the prefix `pre`. -/
def firstEnclosureWithPrefix (pre : GoString) (enclosures : List Enclosure) : Option GoString :=
  (enclosures.find? (fun e => HasPrefix e.typ pre)).map (fun e => e.url)

/-- The image URL of an entry with the enclosure test done on the prefix `pre`: the entry-level
image URL when there is one and it is not empty, otherwise the URL of the first enclosure whose
type has the prefix `pre`, otherwise none. -/
def imageURLWithPrefix (pre : GoString) (item : Item) : Option GoString :=
  match item.image with
  | some img =>
    if img.url ≠ [] then some img.url else firstEnclosureWithPrefix pre item.enclosures
  | none => firstEnclosureWithPrefix pre item.enclosures

/-- The image URL of the specification: the enclosure type has an `"image"` prefix. -/
def specImageURL (item : Item) : Option GoString := imageURLWithPrefix (lit "image") item

/-- The links the code has looked up so far (the existence queries in the trace), in order. -/
def World.queried (w : World) : List GoString :=
  w.trace.filterMap (fun e => match e with
    | Event.existsQuery link => some link
    | _ => none)

/-! ## Handlers: integers and query parameters -/

/-- The value of a Go `int` (64 bits, two's complement) that an arithmetic result `x` wraps to. -/
def wrap64 (x : Int) : Int := (x + 9223372036854775808) % 18446744073709551616 - 9223372036854775808

/-- The digit loop of `strconv.ParseUint(s, 10, 64)` with `n` read so far: `none` is a syntax
error (a byte that is not a decimal digit); on overflow the loop stops at once with the largest
`uint64` (a range error). -/
def parseUintLoop : GoString → Nat → Option Nat
  | [], n => some n
  | c :: cs, n =>
    if c < 48 ∨ 57 < c then none
    else if n ≥ 1844674407370955162 then some 18446744073709551615
    else if n * 10 + (c - 48) > 18446744073709551615 then some 18446744073709551615
    else parseUintLoop cs (n * 10 + (c - 48))

/-- The value `strconv.Atoi` returns (the handlers drop its error): `0` on a syntax error, the
nearest `int` on a range error, the number otherwise. An optional sign comes first. -/
def Atoi (s : GoString) : Int :=
  match s with
  | [] => 0
  | c :: rest =>
    let neg : Bool := c = 45
    let body : GoString := if c = 43 ∨ c = 45 then rest else s
    if body = [] then 0
    else
      match parseUintLoop body 0 with
      | none => 0
      | some un =>
        if neg = false ∧ un ≥ 9223372036854775808 then 9223372036854775807
        else if neg = true ∧ un > 9223372036854775808 then -9223372036854775808
        else if neg then -(un : Int) else (un : Int)

/-- The method `c.Query(key, defaultValue)` of fiber, given the value of the key in the query
string (empty when the key is absent). -/
def Query (value defaultValue : GoString) : GoString :=
  if value.length = 0 then defaultValue else value

/-- The page, page size and offset a listing handler works with. -/
structure Pagination where
  page : Int
  pageSize : Int
  offset : Int
deriving DecidableEq, Repr

/-- The pagination of `GetArticles` (`handlers/articles.go`, lines 24-32). -/
def getArticlesPagination (rawPage rawPageSize : GoString) : Pagination :=
  let page := Atoi (Query rawPage (lit "1"))
  let page := if page < 1 then 1 else page
  let pageSize := Atoi (Query rawPageSize (lit "20"))
  let pageSize := if pageSize < 1 ∨ pageSize > 50 then 20 else pageSize
  { page := page, pageSize := pageSize, offset := wrap64 ((page - 1) * pageSize) }

/-- The pagination of `GetBookmarks` (`handlers/bookmarks.go`, lines 27-35). -/
def getBookmarksPagination (rawPage rawPageSize : GoString) : Pagination :=
  let page := Atoi (Query rawPage (lit "1"))
  let page := if page < 1 then 1 else page
  let pageSize := Atoi (Query rawPageSize (lit "20"))
  let pageSize := if pageSize < 1 ∨ pageSize > 50 then 20 else pageSize
  { page := page, pageSize := pageSize, offset := wrap64 ((page - 1) * pageSize) }

/-! ## Handlers: the tables -/

/-- The type `models.Tag`, also a row of `tags`. -/
structure Tag where
  id : UUID
  name : GoString
  slug : GoString
  color : GoString
  createdAt : Time
deriving DecidableEq, Repr

/-- A row of `articles` as the handlers read it. Times are counted in seconds. -/
structure StoredArticle where
  id : UUID
  title : GoString
  url : GoString
  description : Option GoString
  content : Option GoString
  author : Option GoString
  publishedAt : Option Time
  sourceID : Option UUID
  sourceName : GoString
  imageURL : Option GoString
  readingTimeMinutes : Int
  upvotes : Int
  downvotes : Int
  createdAt : Time
  updatedAt : Time
deriving DecidableEq, Repr

/-- The type `models.Article`. -/
structure Article where
  id : UUID
  title : GoString
  url : GoString
  description : Option GoString
  content : Option GoString
  author : Option GoString
  publishedAt : Option Time
  sourceID : Option UUID
  sourceName : GoString
  imageURL : Option GoString
  readingTimeMinutes : Int
  upvotes : Int
  downvotes : Int
  createdAt : Time
  updatedAt : Time
  tags : List Tag
  isBookmarked : Bool
  userVote : Option GoString
deriving DecidableEq, Repr

/-- A row of `article_tags`. -/
structure ArticleTag where
  articleID : UUID
  tagID : UUID
deriving DecidableEq, Repr

/-- A row of `bookmarks`. -/
structure BookmarkRow where
  userID : UUID
  articleID : UUID
deriving DecidableEq, Repr

/-- A row of `votes`. -/
structure VoteRow where
  userID : UUID
  articleID : UUID
  voteType : GoString
deriving DecidableEq, Repr

/-- The tables the handlers read, and the case folding of characters the database uses for
`ILIKE`. Text values are sequences of characters. -/
structure Store where
  articles : List StoredArticle
  tags : List Tag
  articleTags : List ArticleTag
  bookmarks : List BookmarkRow
  votes : List VoteRow
  foldCase : Nat → Nat

/-! ## Handlers: the ranking -/

/-- The SQL expression `EXTRACT(EPOCH FROM NOW() - a.created_at) / 3600`: the hours since the
creation of the article (exact arithmetic). -/
def hoursSince (now created : Time) : ℚ := ((now : ℚ) - (created : ℚ)) / 3600

/-- The SQL expression `upvotes * 1.0 / (hours + 1)` of both trending queries (exact
arithmetic): the trending score of an article with `upvotes` upvotes created `hours` hours
ago. -/
def trendingScore (upvotes : Int) (hours : ℚ) : ℚ := (upvotes : ℚ) * 1.0 / (hours + 1)

/-- The trending score of a stored article at time `now`. -/
def StoredArticle.score (now : Time) (a : StoredArticle) : ℚ :=
  trendingScore a.upvotes (hoursSince now a.createdAt)

/-! ## Handlers: the queries and their execution -/

/-- An argument passed to a query (`interface{}`): a text or an integer. -/
inductive Arg where
  | text (s : GoString)
  | int (n : Int)
deriving DecidableEq, Repr

/-- A condition of a `WHERE` clause, with the numbers of its placeholders. -/
inductive Condition where
  /-- The text `t.slug IN ($i,...)`. -/
  | slugIn (placeholders : List Nat)
  /-- The text `(a.title ILIKE $i OR a.description ILIKE $j)`. -/
  | titleOrDescriptionILike (title description : Nat)
  /-- The text `created_at > NOW() - INTERVAL '7 days'`. -/
  | createdWithinWeek
deriving DecidableEq, Repr

/-- The `ORDER BY` clauses of the handlers. -/
inductive OrderBy where
  /-- The text `ORDER BY a.upvotes DESC, a.created_at DESC`. -/
  | popular
  /-- The text `ORDER BY (a.upvotes * 1.0 / (EXTRACT(EPOCH FROM NOW() - a.created_at) / 3600 + 1))
  DESC, a.created_at DESC`. -/
  | trending
  /-- The text `ORDER BY a.published_at DESC NULLS LAST, a.created_at DESC`. -/
  | newest
  /-- The text `ORDER BY (upvotes * 1.0 / (EXTRACT(EPOCH FROM NOW() - created_at) / 3600 + 1))
  DESC` of `GetTrendingArticles`. -/
  | score
deriving DecidableEq, Repr

/-- A query for article rows: `SELECT [DISTINCT] <columns of a> FROM articles a [JOIN article_tags
at ... JOIN tags t ...] [WHERE c1 AND c2 ...] ORDER BY ... LIMIT $limit [OFFSET $offset]`. -/
structure SelectArticles where
  distinct : Bool
  joinTags : Bool
  conditions : List Condition
  orderBy : OrderBy
  limit : Nat
  offset : Option Nat
deriving DecidableEq, Repr

/-- The query `SELECT COUNT(DISTINCT a.id) FROM articles a [JOIN ...] [WHERE ...]`. -/
structure CountArticles where
  joinTags : Bool
  conditions : List Condition
deriving DecidableEq, Repr

/-- The argument bound to the placeholder `$n` (placeholders count from 1). -/
def param (args : List Arg) (n : Nat) : Option Arg :=
  if n = 0 then none else args[n - 1]?

/-- The text bound to the placeholder `$n`, when there is one. -/
def textParam (args : List Arg) (n : Nat) : Option GoString :=
  match param args n with
  | some (Arg.text s) => some s
  | _ => none

/-- The integer bound to the placeholder `$n`, when there is one. -/
def intParam (args : List Arg) (n : Nat) : Option Int :=
  match param args n with
  | some (Arg.int k) => some k
  | _ => none

/-- The operator `text ILIKE pattern` of PostgreSQL: in the pattern `%` stands for any sequence of
characters, `_` for any one character, a backslash makes the next character literal, and every
other character stands for itself up to the case folding `fold`. -/
def likeMatch (fold : Nat → Nat) : GoString → GoString → Bool
  | [], text => text.isEmpty
  | c :: pattern, text =>
    if c = 37 then text.tails.any (fun rest => likeMatch fold pattern rest)
    else if c = 95 then
      match text with
      | [] => false
      | _ :: rest => likeMatch fold pattern rest
    else if c = 92 then
      match pattern with
      | [] => false
      | e :: pattern' =>
        match text with
        | [] => false
        | x :: rest => decide (fold e = fold x) && likeMatch fold pattern' rest
    else
      match text with
      | [] => false
      | x :: rest => decide (fold c = fold x) && likeMatch fold pattern rest

/-- A condition with its arguments bound. -/
inductive Predicate where
  | slugIn (slugs : List GoString)
  | ilike (titlePattern descriptionPattern : GoString)
  | createdWithinWeek
deriving DecidableEq, Repr

/-- Bind the placeholders of a condition; `none` when a placeholder has no text argument. -/
def Condition.bind (args : List Arg) : Condition → Option Predicate
  | Condition.slugIn placeholders =>
    if placeholders.all (fun n => (textParam args n).isSome) then
      some (Predicate.slugIn (placeholders.filterMap (textParam args)))
    else none
  | Condition.titleOrDescriptionILike title description =>
    match textParam args title, textParam args description with
    | some p, some q => some (Predicate.ilike p q)
    | _, _ => none
  | Condition.createdWithinWeek => some Predicate.createdWithinWeek

/-- Bind the placeholders of the conditions of a `WHERE` clause, in order. -/
def bindConditions (args : List Arg) : List Condition → Option (List Predicate)
  | [] => some []
  | c :: rest =>
    match c.bind args, bindConditions args rest with
    | some p, some ps => some (p :: ps)
    | _, _ => none

/-- Whether a row of the `FROM` clause (an article, with a tag of it when the tags are joined)
satisfies a bound condition. A null description matches no pattern. Seven days are 604800
seconds. -/
def Predicate.holds (fold : Nat → Nat) (now : Time) (a : StoredArticle) (t : Option Tag) :
    Predicate → Bool
  | Predicate.slugIn slugs =>
    match t with
    | some tag => decide (tag.slug ∈ slugs)
    | none => false
  | Predicate.ilike titlePattern descriptionPattern =>
    likeMatch fold titlePattern a.title ||
      (match a.description with
        | some d => likeMatch fold descriptionPattern d
        | none => false)
  | Predicate.createdWithinWeek => decide (now < a.createdAt + 604800)

/-- The rows of `FROM articles a`, joined with `article_tags at ON a.id = at.article_id` and
`tags t ON at.tag_id = t.id` when `joinTags` is set. -/
def fromRows (store : Store) (joinTags : Bool) : List (StoredArticle × Option Tag) :=
  if joinTags then
    store.articles.flatMap (fun a =>
      (store.articleTags.filter (fun link => link.articleID = a.id)).flatMap (fun link =>
        (store.tags.filter (fun t => t.id = link.tagID)).map (fun t => (a, some t))))
  else store.articles.map (fun a => (a, none))

/-- The rows of the `FROM` clause that satisfy every condition of the `WHERE` clause; `none`
when a placeholder cannot be bound. -/
def matchingRows (store : Store) (now : Time) (joinTags : Bool) (conditions : List Condition)
    (args : List Arg) : Option (List (StoredArticle × Option Tag)) :=
  (bindConditions args conditions).map (fun predicates =>
    (fromRows store joinTags).filter (fun row =>
      predicates.all (fun p => p.holds store.foldCase now row.1 row.2)))

/-- The select list of the listing queries: every column of `articles` but `content`. -/
def StoredArticle.listed (a : StoredArticle) : StoredArticle := { a with content := none }

/-- Insert a row into a list ordered by `before`, ahead of the first row it may precede. -/
def insertOrdered (before : StoredArticle → StoredArticle → Bool) (a : StoredArticle) :
    List StoredArticle → List StoredArticle
  | [] => [a]
  | b :: rest => if before a b then a :: b :: rest else b :: insertOrdered before a rest

/-- Order rows by `before`; rows that tie come out in the order they came in, an order SQL does
not fix. -/
def sortRows (before : StoredArticle → StoredArticle → Bool) :
    List StoredArticle → List StoredArticle
  | [] => []
  | a :: rest => insertOrdered before a (sortRows before rest)

/-- Whether `a` may come before `b` under an `ORDER BY` clause at time `now`. -/
def OrderBy.before (now : Time) : OrderBy → StoredArticle → StoredArticle → Bool
  | OrderBy.popular, a, b =>
    decide (b.upvotes < a.upvotes) ||
      (decide (a.upvotes = b.upvotes) && decide (b.createdAt ≤ a.createdAt))
  | OrderBy.trending, a, b =>
    decide (b.score now < a.score now) ||
      (decide (a.score now = b.score now) && decide (b.createdAt ≤ a.createdAt))
  | OrderBy.newest, a, b =>
    match a.publishedAt, b.publishedAt with
    | some x, some y => decide (y < x) || (decide (x = y) && decide (b.createdAt ≤ a.createdAt))
    | some _, none => true
    | none, some _ => false
    | none, none => decide (b.createdAt ≤ a.createdAt)
  | OrderBy.score, a, b => decide (b.score now ≤ a.score now)

/-- Whether every expression of an `ORDER BY` clause is a column of the select list. -/
def OrderBy.inSelectList : OrderBy → Bool
  | OrderBy.popular => true
  | OrderBy.newest => true
  | OrderBy.trending => false
  | OrderBy.score => false

/-- The failure of a query for rows, by the moment it is found. A statement is `refused` before
it runs, when it is prepared or its arguments are encoded: `Pool.Query` returns the error. It is
`aborted` while it runs: `Pool.Query` returns no error, `rows.Next()` is false at once and the
error is kept for `rows.Err()`. -/
inductive QueryError where
  | refused (err : Error)
  | aborted (err : Error)
deriving DecidableEq, Repr

/-- Run a query for article rows on PostgreSQL. The statement is refused when it is a `SELECT
DISTINCT` whose `ORDER BY` has an expression that is not in the select list (error 42P10) and
when a placeholder cannot be bound; it is aborted when `LIMIT` or `OFFSET` is negative, which
the server finds when it executes the statement; otherwise the result is the matching rows,
without duplicates under `DISTINCT`, ordered, from `OFFSET` on, at most `LIMIT` of them. -/
def runSelect (store : Store) (now : Time) (q : SelectArticles) (args : List Arg) :
    Except QueryError (List StoredArticle) :=
  if q.distinct = true ∧ q.orderBy.inSelectList = false then
    .error (QueryError.refused
      "for SELECT DISTINCT, ORDER BY expressions must appear in select list")
  else
    match matchingRows store now q.joinTags q.conditions args, intParam args q.limit,
      (match q.offset with
        | some n => intParam args n
        | none => some 0) with
    | some rows, some limit, some offset =>
      if limit < 0 then .error (QueryError.aborted "LIMIT must not be negative")
      else if offset < 0 then .error (QueryError.aborted "OFFSET must not be negative")
      else
        let selected := rows.map (fun row => row.1.listed)
        let selected := if q.distinct then selected.dedup else selected
        .ok (((sortRows (q.orderBy.before now) selected).drop offset.toNat).take limit.toNat)
    | _, _, _ => .error (QueryError.refused "could not bind the parameters")

/-- What a handler gets from `rows, err := database.Pool.Query(...)` followed by the loop
`for rows.Next()`: the error `Pool.Query` returns when the statement is refused, the rows
otherwise; a statement that is aborted gives no error and no row, since the handlers never read
`rows.Err()`. -/
def queryRows (result : Except QueryError (List StoredArticle)) :
    Except Error (List StoredArticle) :=
  match result with
  | .ok rows => .ok rows
  | .error (QueryError.refused err) => .error err
  | .error (QueryError.aborted _) => .ok []

/-- Run a count query, as `QueryRow(...).Scan` reports it (every failure is an error of the
`Scan`): the number of distinct ids of the matching rows. -/
def runCount (store : Store) (now : Time) (q : CountArticles) (args : List Arg) :
    Except Error Int :=
  match matchingRows store now q.joinTags q.conditions args with
  | some rows => .ok ((rows.map (fun row => row.1.id)).dedup.length : Int)
  | none => .error "could not bind the parameters"

/-! ## Handlers: `GetArticles` and `GetTrendingArticles` -/

/-- What one request meets outside the handler: the time `NOW()`, the errors the store calls
return (`none` is success) and, for each row loop, the rows at which reading fails (by row
index): the `Scan` of the row fails, or `rows.Next()` fails instead of delivering it (a failure
kept in `rows.Err()`, which the handlers never read); either way the loop ends there. -/
structure ListEnv where
  now : Time
  countErr : Option Error
  rowsErr : Option Error
  rowScanErr : Nat → Option Error
  tagsErr : UUID → Option Error
  tagScanErr : UUID → Nat → Option Error
  bookmarksErr : Option Error
  bookmarkScanErr : Nat → Option Error
  votesErr : Option Error
  voteScanErr : Nat → Option Error

/-- A loop `for rows.Next()` whose body uses the row when its `Scan` succeeds, from row index
`i` on: the rows the body uses. A failed `Scan` makes pgx close the rows, so the row is not used
and `rows.Next()` is false from then on; the loop ends in the same way when `rows.Next()` itself
fails. -/
def keepScanned {α : Type} (scanErr : Nat → Option Error) : Nat → List α → List α
  | _, [] => []
  | i, row :: rest =>
    match scanErr i with
    | none => row :: keepScanned scanErr (i + 1) rest
    | some _ => []

/-- The function `getArticleTags`: the tags joined to the article, nil when the query fails. -/
def getArticleTags (store : Store) (env : ListEnv) (articleID : UUID) : List Tag :=
  match env.tagsErr articleID with
  | some _ => []
  | none =>
    keepScanned (env.tagScanErr articleID) 0
      (store.tags.flatMap (fun t =>
        (store.articleTags.filter (fun link => t.id = link.tagID ∧ link.articleID = articleID)).map
          (fun _ => t)))

/-- The `Scan` of a listing row into a `models.Article`: the fields that are not selected keep
their zero values. -/
def scanArticle (row : StoredArticle) : Article :=
  { id := row.id, title := row.title, url := row.url, description := row.description,
    content := none, author := row.author, publishedAt := row.publishedAt,
    sourceID := row.sourceID, sourceName := row.sourceName, imageURL := row.imageURL,
    readingTimeMinutes := row.readingTimeMinutes, upvotes := row.upvotes,
    downvotes := row.downvotes, createdAt := row.createdAt, updatedAt := row.updatedAt,
    tags := [], isBookmarked := false, userVote := none }

/-- The row loop of the listing handlers: scan each row and fetch its tags, up to the first row
that fails to scan. -/
def scanArticles (store : Store) (env : ListEnv) (rows : List StoredArticle) : List Article :=
  (keepScanned env.rowScanErr 0 rows).map (fun row =>
    { scanArticle row with tags := getArticleTags store env row.id })

/-- The loop that fills `articleMap` in `enrichArticlesWithUserData`, from index `i` on: a later
article with the same id replaces the index of an earlier one. -/
def buildArticleMap : List Article → Nat → (UUID → Option Nat) → (UUID → Option Nat)
  | [], _, m => m
  | a :: rest, i, m => buildArticleMap rest (i + 1) (fun id => if id = a.id then some i else m id)

/-- The assignment `articles[idx].field = value`: apply `f` to the element at `idx`. -/
def modifyAt {α : Type} (f : α → α) : Nat → List α → List α
  | _, [] => []
  | 0, a :: rest => f a :: rest
  | idx + 1, a :: rest => a :: modifyAt f idx rest

/-- The rows of `SELECT article_id FROM bookmarks WHERE user_id = $1 AND article_id = ANY($2)`. -/
def bookmarkedIDs (store : Store) (userID : UUID) (articleIDs : List UUID) : List UUID :=
  (store.bookmarks.filter (fun b => b.userID = userID ∧ b.articleID ∈ articleIDs)).map
    (fun b => b.articleID)

/-- The rows of `SELECT article_id, vote_type FROM votes WHERE user_id = $1 AND article_id =
ANY($2)`. -/
def voteRows (store : Store) (userID : UUID) (articleIDs : List UUID) : List (UUID × GoString) :=
  (store.votes.filter (fun v => v.userID = userID ∧ v.articleID ∈ articleIDs)).map
    (fun v => (v.articleID, v.voteType))

/-- The statement `if idx, ok := articleMap[articleID]; ok { articles[idx] = f(articles[idx]) }`
of both loops of `enrichArticlesWithUserData`. -/
def assignAt (articleMap : UUID → Option Nat) (f : Article → Article) (articleID : UUID)
    (articles : List Article) : List Article :=
  match articleMap articleID with
  | some idx => modifyAt f idx articles
  | none => articles

/-- The assignment `a.IsBookmarked = true`. -/
def Article.bookmarked (a : Article) : Article := { a with isBookmarked := true }

/-- The assignment `a.UserVote = &voteType`. -/
def Article.voted (voteType : GoString) (a : Article) : Article :=
  { a with userVote := some voteType }

/-- The bookmark loop of `enrichArticlesWithUserData` over the scanned rows. -/
def markBookmarks (articleMap : UUID → Option Nat) (rows : List UUID)
    (articles : List Article) : List Article :=
  rows.foldl (fun articles articleID =>
    assignAt articleMap Article.bookmarked articleID articles) articles

/-- The vote loop of `enrichArticlesWithUserData` over the scanned rows. -/
def markVotes (articleMap : UUID → Option Nat) (rows : List (UUID × GoString))
    (articles : List Article) : List Article :=
  rows.foldl (fun articles row =>
    assignAt articleMap (Article.voted row.2) row.1 articles) articles

/-- The function `enrichArticlesWithUserData` (`handlers/articles.go`, lines 320-367). -/
def enrichArticlesWithUserData (store : Store) (env : ListEnv) (articles : List Article)
    (userID : UUID) : List Article :=
  if articles.length = 0 then articles
  else
    let articleIDs := articles.map (fun a => a.id)
    let articleMap := buildArticleMap articles 0 (fun _ => none)
    let articles :=
      match env.bookmarksErr with
      | none =>
        markBookmarks articleMap
          (keepScanned env.bookmarkScanErr 0 (bookmarkedIDs store userID articleIDs)) articles
      | some _ => articles
    let articles :=
      match env.votesErr with
      | none =>
        markVotes articleMap
          (keepScanned env.voteScanErr 0 (voteRows store userID articleIDs)) articles
      | some _ => articles
    articles

/-- The query values and the authenticated user of a request (a value is empty when the key is
absent from the query string). -/
structure Request where
  page : GoString
  pageSize : GoString
  sortBy : GoString
  search : GoString
  tags : GoString
  limit : GoString
  userID : Option UUID
deriving DecidableEq, Repr

/-- The type `models.ArticlesResponse`. -/
structure ArticlesResponse where
  articles : List Article
  totalCount : Int
  page : Int
  pageSize : Int
  hasMore : Bool
deriving DecidableEq, Repr

/-- What a handler answers: a listing, a plain list of articles, or an error with its HTTP
status, its text and (when the handler sends it) the message of the store. -/
inductive Response where
  | listing (body : ArticlesResponse)
  | articles (body : List Article)
  | failed (status : Nat) (error : GoString) (message : Option Error)
deriving DecidableEq, Repr

/-- The function `strings.Split(s, ",")`. -/
def splitCommas (s : GoString) : List GoString := s.splitOn 44

/-- The two queries `GetArticles` assembles and the arguments of the row query. -/
structure Assembled where
  baseQuery : SelectArticles
  countQuery : CountArticles
  args : List Arg
deriving DecidableEq, Repr

/-- The assembly of the queries of `GetArticles` (lines 43-98): the tag filter takes the
placeholders from `$1` on, the search pattern the next one, `LIMIT` and `OFFSET` the two after
it. -/
def assembleQueries (tags : List GoString) (search sortBy : GoString) (pageSize offset : Int) :
    Assembled :=
  let argIndex := 1
  -- Join for tag filtering
  let joinTags : Bool := decide (tags.length > 0)
  let whereConditions : List Condition :=
    if tags.length > 0 then [Condition.slugIn (List.range' argIndex tags.length)] else []
  let args : List Arg := if tags.length > 0 then tags.map Arg.text else []
  let argIndex := if tags.length > 0 then argIndex + tags.length else argIndex
  -- Search filter
  let whereConditions :=
    if search ≠ [] then whereConditions ++ [Condition.titleOrDescriptionILike argIndex argIndex]
    else whereConditions
  let args := if search ≠ [] then args ++ [Arg.text (lit "%" ++ search ++ lit "%")] else args
  let argIndex := if search ≠ [] then argIndex + 1 else argIndex
  -- Order by
  let orderBy :=
    if sortBy = lit "popular" then OrderBy.popular
    else if sortBy = lit "trending" then OrderBy.trending
    else OrderBy.newest
  -- Pagination
  { baseQuery :=
      { distinct := true, joinTags := joinTags, conditions := whereConditions,
        orderBy := orderBy, limit := argIndex, offset := some (argIndex + 1) }
    countQuery := { joinTags := joinTags, conditions := whereConditions }
    args := args ++ [Arg.int pageSize, Arg.int offset] }

/-- The handler `GetArticles` (`handlers/articles.go`, lines 19-149). -/
def GetArticles (store : Store) (env : ListEnv) (req : Request) : Response :=
  let p := getArticlesPagination req.page req.pageSize
  let sortBy := Query req.sortBy (lit "newest")
  let search := Query req.search []
  let tagsParam := Query req.tags []
  let tags : List GoString := if tagsParam ≠ [] then splitCommas tagsParam else []
  let q := assembleQueries tags search sortBy p.pageSize p.offset
  -- Get total count
  let countArgs := q.args.take (q.args.length - 2)
  match (match env.countErr with
    | some err => Except.error err
    | none => runCount store env.now q.countQuery countArgs) with
  | .error _ => Response.failed 500 (lit "Failed to count articles") none
  | .ok totalCount =>
    -- Get articles
    match (match env.rowsErr with
      | some err => Except.error err
      | none => queryRows (runSelect store env.now q.baseQuery q.args)) with
    | .error err => Response.failed 500 (lit "Failed to fetch articles") (some err)
    | .ok rows =>
      let articles := scanArticles store env rows
      let articles :=
        match req.userID with
        | some userID => enrichArticlesWithUserData store env articles userID
        | none => articles
      let hasMore : Bool := decide (totalCount > wrap64 (p.page * p.pageSize))
      Response.listing
        { articles := articles, totalCount := totalCount, page := p.page,
          pageSize := p.pageSize, hasMore := hasMore }

/-- The query of `GetTrendingArticles` (lines 205-213). -/
def trendingQuery : SelectArticles :=
  { distinct := false, joinTags := false, conditions := [Condition.createdWithinWeek],
    orderBy := OrderBy.score, limit := 1, offset := none }

/-- The handler `GetTrendingArticles` (`handlers/articles.go`, lines 195-240). -/
def GetTrendingArticles (store : Store) (env : ListEnv) (req : Request) : Response :=
  let limit := Atoi (Query req.limit (lit "10"))
  let limit := if limit < 1 ∨ limit > 50 then 10 else limit
  match (match env.rowsErr with
    | some err => Except.error err
    | none => queryRows (runSelect store env.now trendingQuery [Arg.int limit])) with
  | .error _ => Response.failed 500 (lit "Failed to fetch trending articles") none
  | .ok rows =>
    let articles := scanArticles store env rows
    let articles :=
      match req.userID with
      | some userID => enrichArticlesWithUserData store env articles userID
      | none => articles
    Response.articles articles

/-! ## Handlers: concrete inputs -/

/-- An article row with the given id, title, upvotes and times, and nothing else. -/
def storedArticle (id : UUID) (title : GoString) (upvotes : Int) (publishedAt : Option Time)
    (createdAt : Time) : StoredArticle :=
  { id := id, title := title, url := lit "http://a", description := none, content := none,
    author := none, publishedAt := publishedAt, sourceID := none, sourceName := lit "src",
    imageURL := none, readingTimeMinutes := 1, upvotes := upvotes, downvotes := 0,
    createdAt := createdAt, updatedAt := createdAt }

/-- A request environment at time `now` in which every store call succeeds. -/
def calmEnv (now : Time) : ListEnv :=
  { now := now, countErr := none, rowsErr := none, rowScanErr := fun _ => none,
    tagsErr := fun _ => none, tagScanErr := fun _ _ => none, bookmarksErr := none,
    bookmarkScanErr := fun _ => none, votesErr := none, voteScanErr := fun _ => none }

/-- A request without query values from an anonymous caller. -/
def plainRequest : Request :=
  { page := [], pageSize := [], sortBy := [], search := [], tags := [], limit := [],
    userID := none }

/-- A store with the given articles and nothing else; characters fold to themselves. -/
def storeOf (articles : List StoredArticle) : Store :=
  { articles := articles, tags := [], articleTags := [], bookmarks := [], votes := [],
    foldCase := id }

/-- The position of the first occurrence of `id` in a list of ids. -/
def firstIndex (id : UUID) : List UUID → Option Nat
  | [] => none
  | x :: rest => if x = id then some 0 else (firstIndex id rest).map (fun k => k + 1)

/-- The overlay of the specification on one article: bookmarked when the user has a bookmark for
it, voted as the user's vote for it says (absent without a vote). -/
def annotate (store : Store) (userID : UUID) (a : Article) : Article :=
  { a with
    isBookmarked := store.bookmarks.any (fun b => b.userID = userID ∧ b.articleID = a.id)
    userVote := (store.votes.find? (fun v => v.userID = userID ∧ v.articleID = a.id)).map
      (fun v => v.voteType) }

/-- The bookmark half of the overlay on one article: bookmarked when the user has a bookmark for
it, otherwise as it was. -/
def withBookmark (store : Store) (userID : UUID) (a : Article) : Article :=
  if store.bookmarks.any (fun b => b.userID = userID ∧ b.articleID = a.id) then a.bookmarked
  else a

/-- The vote half of the overlay on one article: voted as the user's vote for it says, as it was
without a vote. -/
def withVote (store : Store) (userID : UUID) (a : Article) : Article :=
  match store.votes.find? (fun v => v.userID = userID ∧ v.articleID = a.id) with
  | some v => a.voted v.voteType
  | none => a

/-- A store with two articles, a bookmark of user 7 for the first and an upvote of user 7 for
the second. -/
def overlayStore : Store :=
  { articles := [storedArticle 1 (lit "one") 3 none 1000, storedArticle 2 (lit "two") 5 none 2000]
    tags := [], articleTags := []
    bookmarks := [{ userID := 7, articleID := 1 }, { userID := 8, articleID := 2 }]
    votes := [{ userID := 7, articleID := 2, voteType := lit "up" }]
    foldCase := id }

/-- A request environment in which both overlay queries fail and everything else succeeds. -/
def noOverlayEnv (now : Time) : ListEnv :=
  { calmEnv now with bookmarksErr := some "timeout", votesErr := some "timeout" }

/-- A request environment in which the bookmarks query fails and everything else succeeds. -/
def noBookmarksEnv (now : Time) : ListEnv := { calmEnv now with bookmarksErr := some "timeout" }

/-- A request environment in which the votes query fails and everything else succeeds. -/
def noVotesEnv (now : Time) : ListEnv := { calmEnv now with votesErr := some "timeout" }

/-! ## The filter as the specification words it -/

/-- Whether `text` contains `term` as a substring up to the case folding `fold`. -/
def containsFold (fold : Nat → Nat) (term text : GoString) : Bool :=
  decide (term.map fold <:+: text.map fold)

/-- Whether an article is associated with at least one tag whose slug is among `slugs`. -/
def taggedWith (store : Store) (slugs : List GoString) (a : StoredArticle) : Bool :=
  store.articleTags.any (fun link =>
    decide (link.articleID = a.id) &&
      store.tags.any (fun t => decide (t.id = link.tagID) && decide (t.slug ∈ slugs)))

/-- The filter of the specification: tagged with one of the slugs, and the title or the
description contains the search term, case-insensitively. -/
def specSelects (store : Store) (slugs : List GoString) (search : GoString)
    (a : StoredArticle) : Bool :=
  taggedWith store slugs a &&
    (containsFold store.foldCase search a.title ||
      (match a.description with
        | some d => containsFold store.foldCase search d
        | none => false))

/-- A store with one article, titled `"abc"` and tagged `go`. -/
def taggedStore : Store :=
  { articles := [storedArticle 1 (lit "abc") 0 none 1000]
    tags := [{ id := 5, name := lit "Go", slug := lit "go", color := lit "#fff", createdAt := 0 }]
    articleTags := [{ articleID := 1, tagID := 5 }]
    bookmarks := [], votes := [], foldCase := id }

/-! ## The ingestion run as a sequence of steps -/

/-- The error of a storage call made with a context whose deadline has passed. -/
def deadlineExceeded : Error := "context deadline exceeded"

/-- What a call of `FetchSource` meets when the deadline of `ctx` has passed: every storage call
takes `ctx` and fails with the error of the context; `ParseURL` takes no context, so the feed is
fetched as it would be otherwise. -/
def FetchEnv.pastDeadline (env : FetchEnv) : FetchEnv :=
  { env with
    existsErr := fun _ => some deadlineExceeded
    insertErr := fun _ => some deadlineExceeded
    updateErr := some deadlineExceeded }

/-- The state of a run of `FetchAllSources` between two iterations of its fetch loop (lines
50-54): the sources still to fetch, the position of the next one in the slice `sources`, whether
the deadline of `ctx` has passed, and the world. -/
structure Run where
  pending : List Source
  position : Nat
  deadlinePassed : Bool
  world : World
deriving DecidableEq, Repr

/-- The state in which `FetchAllSources` enters its fetch loop after the listing query has
succeeded, the deadline not yet passed. -/
def Run.start (env : AllEnv) (w : World) : Run :=
  { pending := scanRows env.nextErr env.scanErr 0 (activeSources w.sources), position := 0,
    deadlinePassed := false, world := w.emit Event.listQuery }

/-- The step of the environment: the deadline of `ctx` passes. -/
def Run.expire (r : Run) : Run := { r with deadlinePassed := true }

/-- The step of the program: one iteration of the fetch loop. The loop does not test `ctx`, so
the next source is fetched whether or not the deadline has passed; after the deadline the
storage calls of `FetchSource` fail. -/
def Run.iterate (fetch : Nat → FetchEnv) (r : Run) : Run :=
  match r.pending with
  | [] => r
  | src :: rest =>
    let env := if r.deadlinePassed then (fetch r.position).pastDeadline else fetch r.position
    let out := FetchSource env src.id src.name src.url src.faviconURL r.world
    { pending := rest, position := r.position + 1, deadlinePassed := r.deadlinePassed,
      world :=
        match out.2 with
        | some err => out.1.emit (Event.logFetchError src.name err)
        | none => out.1 }

/-- The steps of a run. -/
inductive RunStep where
  | expire
  | iterate
deriving DecidableEq, Repr

/-- A run: the steps taken in order. -/
def Run.steps (fetch : Nat → FetchEnv) : List RunStep → Run → Run
  | [], r => r
  | RunStep.expire :: rest, r => Run.steps fetch rest r.expire
  | RunStep.iterate :: rest, r => Run.steps fetch rest (r.iterate fetch)

/-- The step the specification asks for: once the deadline has passed no further source is
started. -/
def Run.specIterate (fetch : Nat → FetchEnv) (r : Run) : Run :=
  if r.deadlinePassed then r else r.iterate fetch

/-- A store with two active sources, never fetched, and no article. -/
def twoSourcesWorld : World :=
  { articles := []
    sources := [{ id := 1, name := lit "one", url := lit "http://one", faviconURL := none,
                  active := true, lastFetchedAt := none },
                { id := 2, name := lit "two", url := lit "http://two", faviconURL := none,
                  active := true, lastFetchedAt := none }]
    trace := [] }

/-- A run of `FetchSource` on a feed of one entry in which every call succeeds. -/
def oneEntryEnv : FetchEnv :=
  { feed := .ok [entry (lit "a") (lit "text") []], existsErr := fun _ => none,
    insertErr := fun _ => none, updateErr := none, now := 7 }

/-- A run of `FetchAllSources` in which the listing query fails when the server executes it:
`Pool.Query` returns no error and `rows.Next()` is false at once. -/
def abortedListingEnv : AllEnv :=
  { queryErr := none
    nextErr := fun i => if i = 0 then some "canceling statement due to statement timeout" else none
    scanErr := fun _ => none, fetch := fun _ => oneEntryEnv }

/-- A run of `FetchAllSources` in which the `Scan` of the first row of the listing fails. -/
def failedScanEnv : AllEnv :=
  { queryErr := none, nextErr := fun _ => none
    scanErr := fun i => if i = 0 then some "cannot scan NULL into *string" else none
    fetch := fun _ => oneEntryEnv }

/-- A run of `FetchAllSources` in which every call succeeds. -/
def calmAllEnv : AllEnv :=
  { queryErr := none, nextErr := fun _ => none, scanErr := fun _ => none,
    fetch := fun _ => oneEntryEnv }

/-! ## The placeholders of a query -/

/-- The numbers of the placeholders in the text of a condition. -/
def Condition.placeholders : Condition → List Nat
  | Condition.slugIn placeholders => placeholders
  | Condition.titleOrDescriptionILike title description => [title, description]
  | Condition.createdWithinWeek => []

/-- The numbers of the placeholders in the text of a query for article rows. -/
def SelectArticles.placeholders (q : SelectArticles) : List Nat :=
  q.conditions.flatMap Condition.placeholders ++ [q.limit] ++
    (match q.offset with
      | some n => [n]
      | none => [])

/-- The numbers of the placeholders in the text of a count query. -/
def CountArticles.placeholders (q : CountArticles) : List Nat :=
  q.conditions.flatMap Condition.placeholders

/-- The product `page * pageSize` of `hasMore := totalCount > (page * pageSize)` in `GetArticles`
(`articles.go`, line 140) and in `GetBookmarks` (`bookmarks.go`, line 86), as a Go `int`. -/
def Pagination.product (p : Pagination) : Int := wrap64 (p.page * p.pageSize)

/-! ## Idempotent ingestion -/

theorem emit_articles (w : World) (e : Event) : (w.emit e).articles = w.articles := rfl

theorem emit_sources (w : World) (e : Event) : (w.emit e).sources = w.sources := rfl

theorem emit_trace (w : World) (e : Event) : (w.emit e).trace = w.trace ++ [e] := rfl

theorem articleExists_iff (articles : List ArticleRow) (url : GoString) :
    articleExists articles url = true ↔ url ∈ articles.map (fun a => a.url) := by
  unfold articleExists
  rw [List.any_eq_true, List.mem_map]
  constructor
  · rintro ⟨a, ha, h⟩
    exact ⟨a, ha, by simpa using h⟩
  · rintro ⟨a, ha, h⟩
    exact ⟨a, ha, by simpa using h⟩

theorem processItem_articles (env : FetchEnv) (sourceID : UUID) (sourceName : GoString) (i : Nat)
    (item : Item) (w : World) :
    (processItem env sourceID sourceName i item w).articles =
      if env.existsErr i = none ∧ articleExists w.articles item.link = false
          ∧ env.insertErr i = none
      then w.articles ++ [articleOf sourceID sourceName item] else w.articles := by
  unfold processItem
  cases h1 : env.existsErr i with
  | some e => simp [emit_articles]
  | none =>
    cases h2 : articleExists w.articles item.link with
    | true => simp [emit_articles, h2]
    | false =>
      cases h3 : env.insertErr i with
      | some e => simp [emit_articles, h2]
      | none => simp [emit_articles, h2, insertArticle, articleOf]

theorem processItem_inserts_of_exists (env : FetchEnv) (sourceID : UUID) (sourceName : GoString)
    (i : Nat) (item : Item) (w : World) (h : articleExists w.articles item.link = true) :
    (processItem env sourceID sourceName i item w).inserts = w.inserts ∧
      (processItem env sourceID sourceName i item w).articles = w.articles := by
  unfold processItem
  cases h1 : env.existsErr i with
  | some e => simp [World.inserts, emit_trace, emit_articles, List.filterMap_append]
  | none => simp [World.inserts, emit_trace, emit_articles, h, List.filterMap_append]
theorem processItem_urls (env : FetchEnv) (sourceID : UUID) (sourceName : GoString) (i : Nat)
    (item : Item) (w : World) :
    (processItem env sourceID sourceName i item w).urls =
      if env.existsErr i = none ∧ articleExists w.articles item.link = false
          ∧ env.insertErr i = none
      then w.urls ++ [item.link] else w.urls := by
  unfold World.urls
  rw [processItem_articles]
  split <;> simp [articleOf]

theorem processItem_urls_nodup (env : FetchEnv) (sourceID : UUID) (sourceName : GoString)
    (i : Nat) (item : Item) (w : World) (h : w.urls.Nodup) :
    (processItem env sourceID sourceName i item w).urls.Nodup := by
  rw [processItem_urls]
  split
  · rename_i hc
    have hnot : item.link ∉ w.urls := by
      intro hmem
      have := (articleExists_iff w.articles item.link).mpr hmem
      rw [hc.2.1] at this
      exact Bool.noConfusion this
    rw [List.nodup_append]
    refine ⟨h, List.nodup_singleton _, ?_⟩
    intro a ha hb
    rw [List.mem_singleton] at hb
    exact hnot (hb ▸ ha)
  · exact h

theorem processItem_urls_mono (env : FetchEnv) (sourceID : UUID) (sourceName : GoString)
    (i : Nat) (item : Item) (w : World) (u : GoString) (h : u ∈ w.urls) :
    u ∈ (processItem env sourceID sourceName i item w).urls := by
  rw [processItem_urls]
  split
  · exact List.mem_append_left _ h
  · exact h

theorem processItem_link_mem (env : FetchEnv) (sourceID : UUID) (sourceName : GoString)
    (i : Nat) (item : Item) (w : World) (h1 : env.existsErr i = none)
    (h2 : env.insertErr i = none) :
    item.link ∈ (processItem env sourceID sourceName i item w).urls := by
  rw [processItem_urls]
  cases h : articleExists w.articles item.link with
  | true =>
    rw [if_neg (by simp)]
    exact (articleExists_iff w.articles item.link).mp h
  | false => simp [h1, h2]

theorem processItems_urls_nodup (env : FetchEnv) (sourceID : UUID) (sourceName : GoString)
    (items : List Item) :
    ∀ (i : Nat) (w : World), w.urls.Nodup →
      (processItems env sourceID sourceName i items w).urls.Nodup := by
  induction items with
  | nil => intro i w h; exact h
  | cons item rest ih =>
    intro i w h
    exact ih (i + 1) _ (processItem_urls_nodup env sourceID sourceName i item w h)

theorem processItems_urls_mono (env : FetchEnv) (sourceID : UUID) (sourceName : GoString)
    (items : List Item) (u : GoString) :
    ∀ (i : Nat) (w : World), u ∈ w.urls →
      u ∈ (processItems env sourceID sourceName i items w).urls := by
  induction items with
  | nil => intro i w h; exact h
  | cons item rest ih =>
    intro i w h
    exact ih (i + 1) _ (processItem_urls_mono env sourceID sourceName i item w u h)

theorem processItems_links_mem (env : FetchEnv) (sourceID : UUID) (sourceName : GoString)
    (h1 : ∀ i, env.existsErr i = none) (h2 : ∀ i, env.insertErr i = none) (items : List Item) :
    ∀ (i : Nat) (w : World), ∀ item ∈ items,
      item.link ∈ (processItems env sourceID sourceName i items w).urls := by
  induction items with
  | nil => intro i w item h; cases h
  | cons first rest ih =>
    intro i w item h
    rcases List.mem_cons.mp h with rfl | h
    · exact processItems_urls_mono env sourceID sourceName rest _ (i + 1) _
        (processItem_link_mem env sourceID sourceName i item w (h1 i) (h2 i))
    · exact ih (i + 1) _ item h

theorem processItems_of_all_exist (env : FetchEnv) (sourceID : UUID) (sourceName : GoString)
    (items : List Item) :
    ∀ (i : Nat) (w : World), (∀ item ∈ items, item.link ∈ w.urls) →
      (processItems env sourceID sourceName i items w).articles = w.articles ∧
        (processItems env sourceID sourceName i items w).inserts = w.inserts := by
  induction items with
  | nil => intro i w _; exact ⟨rfl, rfl⟩
  | cons first rest ih =>
    intro i w h
    have hfirst : articleExists w.articles first.link = true :=
      (articleExists_iff w.articles first.link).mpr (h first (List.mem_cons_self _ _))
    obtain ⟨hi, ha⟩ := processItem_inserts_of_exists env sourceID sourceName i first w hfirst
    have hrest : ∀ item ∈ rest,
        item.link ∈ (processItem env sourceID sourceName i first w).urls := by
      intro item hmem
      unfold World.urls
      rw [ha]
      exact h item (List.mem_cons_of_mem _ hmem)
    obtain ⟨h3, h4⟩ := ih (i + 1) _ hrest
    show (processItems env sourceID sourceName (i + 1) rest _).articles = _ ∧
      (processItems env sourceID sourceName (i + 1) rest _).inserts = _
    rw [h3, h4, ha, hi]
    exact ⟨rfl, rfl⟩

theorem FetchSource_ok_articles (env : FetchEnv) (sourceID : UUID)
    (sourceName sourceURL : GoString) (faviconURL : Option GoString) (w : World)
    (items : List Item) (h : env.feed = .ok items) :
    (FetchSource env sourceID sourceName sourceURL faviconURL w).1.articles =
        (processItems env sourceID sourceName 0 items
          (w.emit (Event.parseURL sourceURL))).articles ∧
      (FetchSource env sourceID sourceName sourceURL faviconURL w).1.inserts =
        (processItems env sourceID sourceName 0 items
          (w.emit (Event.parseURL sourceURL))).inserts := by
  unfold FetchSource
  simp only [h]
  cases env.updateErr <;>
    simp [World.inserts, emit_trace, emit_articles, List.filterMap_append]

/-- C1: with the article table keyed by URL (no two rows share a URL) and the storage calls of
the first run succeeding, one run of `FetchSource` over a feed leaves a table that still has no
two rows with the same URL and holds an article for every link of the feed, and a second
run over the same feed issues no `INSERT` and leaves the article table exactly as the first run
left it (whatever the storage calls of the second run do). -/
theorem FetchSource_idempotent (env1 env2 : FetchEnv) (sourceID : UUID)
    (sourceName sourceURL : GoString) (faviconURL : Option GoString) (w : World)
    (items : List Item) (hfeed1 : env1.feed = .ok items) (hfeed2 : env2.feed = .ok items)
    (hexists : ∀ i, env1.existsErr i = none) (hinsert : ∀ i, env1.insertErr i = none)
    (hkey : w.urls.Nodup) :
    (FetchSource env1 sourceID sourceName sourceURL faviconURL w).1.urls.Nodup ∧
    (∀ item ∈ items,
      item.link ∈ (FetchSource env1 sourceID sourceName sourceURL faviconURL w).1.urls) ∧
    (FetchSource env2 sourceID sourceName sourceURL faviconURL
        (FetchSource env1 sourceID sourceName sourceURL faviconURL w).1).1.articles =
      (FetchSource env1 sourceID sourceName sourceURL faviconURL w).1.articles ∧
    (FetchSource env2 sourceID sourceName sourceURL faviconURL
        (FetchSource env1 sourceID sourceName sourceURL faviconURL w).1).1.inserts =
      (FetchSource env1 sourceID sourceName sourceURL faviconURL w).1.inserts := by
  obtain ⟨ha1, _⟩ := FetchSource_ok_articles env1 sourceID sourceName sourceURL faviconURL w
    items hfeed1
  have hurls1 : (FetchSource env1 sourceID sourceName sourceURL faviconURL w).1.urls =
      (processItems env1 sourceID sourceName 0 items (w.emit (Event.parseURL sourceURL))).urls := by
    unfold World.urls; rw [ha1]
  have hnodup : (FetchSource env1 sourceID sourceName sourceURL faviconURL w).1.urls.Nodup := by
    rw [hurls1]
    exact processItems_urls_nodup env1 sourceID sourceName items 0 _ hkey
  have hmem : ∀ item ∈ items,
      item.link ∈ (FetchSource env1 sourceID sourceName sourceURL faviconURL w).1.urls := by
    intro item h
    rw [hurls1]
    exact processItems_links_mem env1 sourceID sourceName hexists hinsert items 0 _ item h
  obtain ⟨ha2, hi2⟩ := FetchSource_ok_articles env2 sourceID sourceName sourceURL faviconURL
    (FetchSource env1 sourceID sourceName sourceURL faviconURL w).1 items hfeed2
  obtain ⟨h3, h4⟩ := processItems_of_all_exist env2 sourceID sourceName items 0
    ((FetchSource env1 sourceID sourceName sourceURL faviconURL w).1.emit
      (Event.parseURL sourceURL)) hmem
  refine ⟨hnodup, hmem, ?_, ?_⟩
  · rw [ha2, h3]; rfl
  · rw [hi2, h4]
    simp [World.inserts, emit_trace, List.filterMap_append]

/-! ## `FetchAllSources`: failure isolation per source -/

theorem parsed_emit (w : World) (e : Event) :
    (w.emit e).parsed = w.parsed ++ (match e with
      | Event.parseURL url => [url]
      | _ => []) := by
  unfold World.parsed World.emit
  cases e <;> simp [List.filterMap_append]

theorem processItem_parsed (env : FetchEnv) (sourceID : UUID) (sourceName : GoString) (i : Nat)
    (item : Item) (w : World) :
    (processItem env sourceID sourceName i item w).parsed = w.parsed := by
  have hset : ∀ (v : World) (l : List ArticleRow), ({ v with articles := l } : World).parsed
      = v.parsed := fun _ _ => rfl
  unfold processItem
  cases env.existsErr i with
  | some e => simp [parsed_emit]
  | none =>
    cases h : articleExists w.articles item.link with
    | true => simp [parsed_emit, emit_articles, h]
    | false =>
      cases env.insertErr i with
      | some e => simp [parsed_emit, emit_articles, h]
      | none =>
        simp only [emit_articles, h, Bool.false_eq_true, if_false]
        rw [hset]
        simp [parsed_emit]

theorem processItems_parsed (env : FetchEnv) (sourceID : UUID) (sourceName : GoString)
    (items : List Item) :
    ∀ (i : Nat) (w : World), (processItems env sourceID sourceName i items w).parsed = w.parsed := by
  induction items with
  | nil => intro i w; rfl
  | cons item rest ih =>
    intro i w
    show (processItems env sourceID sourceName (i + 1) rest _).parsed = _
    rw [ih, processItem_parsed]

theorem FetchSource_parsed (env : FetchEnv) (sourceID : UUID) (sourceName sourceURL : GoString)
    (faviconURL : Option GoString) (w : World) :
    (FetchSource env sourceID sourceName sourceURL faviconURL w).1.parsed
      = w.parsed ++ [sourceURL] := by
  have hset : ∀ (v : World) (l : List SourceRow), ({ v with sources := l } : World).parsed
      = v.parsed := fun _ _ => rfl
  unfold FetchSource
  cases env.feed with
  | error err => simp [parsed_emit]
  | ok items =>
    cases env.updateErr with
    | some err => simp [parsed_emit, processItems_parsed]
    | none => simp [parsed_emit, processItems_parsed, hset]

theorem fetchLoop_parsed (fetch : Nat → FetchEnv) (sources : List Source) :
    ∀ (k : Nat) (w : World),
      (fetchLoop fetch k sources w).parsed = w.parsed ++ sources.map (fun src => src.url) := by
  induction sources with
  | nil => intro k w; simp [fetchLoop]
  | cons src rest ih =>
    intro k w
    unfold fetchLoop
    cases h : (FetchSource (fetch k) src.id src.name src.url src.faviconURL w).2 with
    | some err => simp [h, ih, parsed_emit, FetchSource_parsed]
    | none => simp [h, ih, FetchSource_parsed]

/-- The scan loop keeps the rows before the first row at which reading fails. -/
theorem scanRows_take (nextErr scanErr : Nat → Option Error) (rows : List Source) :
    ∀ (i k : Nat), k ≤ rows.length →
      (∀ j, j < k → nextErr (i + j) = none ∧ scanErr (i + j) = none) →
      (k < rows.length → nextErr (i + k) ≠ none ∨ scanErr (i + k) ≠ none) →
      scanRows nextErr scanErr i rows = rows.take k := by
  induction rows with
  | nil => intro i k _ _ _; simp [scanRows]
  | cons src rest ih =>
    intro i k hk hbefore hat
    cases k with
    | zero =>
      have h0 := hat (by simp)
      rw [Nat.add_zero] at h0
      unfold scanRows
      cases hn : nextErr i with
      | some e => rfl
      | none =>
        cases hs : scanErr i with
        | some e => rfl
        | none =>
          rcases h0 with h | h
          · exact absurd hn h
          · exact absurd hs h
    | succ k =>
      have h0 := hbefore 0 (Nat.succ_pos k)
      rw [Nat.add_zero] at h0
      unfold scanRows
      rw [h0.1, h0.2, List.take_succ_cons]
      show src :: scanRows nextErr scanErr (i + 1) rest = _
      congr 1
      apply ih (i + 1) k (Nat.le_of_succ_le_succ hk)
      · intro j hj
        have := hbefore (j + 1) (Nat.succ_lt_succ hj)
        rwa [Nat.add_assoc, Nat.add_comm 1 j]
      · intro hlt
        have := hat (Nat.succ_lt_succ hlt)
        rwa [Nat.add_assoc, Nat.add_comm 1 k]

theorem scanRows_ok (nextErr scanErr : Nat → Option Error) (rows : List Source)
    (h : ∀ j, j < rows.length → nextErr j = none ∧ scanErr j = none) :
    scanRows nextErr scanErr 0 rows = rows := by
  have := scanRows_take nextErr scanErr rows 0 rows.length (Nat.le_refl _)
    (fun j hj => by rw [Nat.zero_add]; exact h j hj) (fun hlt => absurd hlt (Nat.lt_irrefl _))
  rwa [List.take_length] at this

/-- C2 (as stated, refuted): a listing query that fails when the server executes it, so that
`Pool.Query` returns no error and the failure is only in `rows.Err()`, makes `FetchAllSources`
return nil without fetching any of the two active sources; and when the `Scan` of the first of
two rows fails, the loop ends and the second source is not fetched either. -/
theorem FetchAllSources_misses_listing_failure :
    FetchAllSources abortedListingEnv twoSourcesWorld
        = (twoSourcesWorld.emit Event.listQuery, none) ∧
      (FetchAllSources abortedListingEnv twoSourcesWorld).1.parsed = [] ∧
      (activeSources twoSourcesWorld.sources).map (fun src => src.url)
        = [lit "http://one", lit "http://two"] ∧
      (FetchAllSources failedScanEnv twoSourcesWorld).2 = none ∧
      (FetchAllSources failedScanEnv twoSourcesWorld).1.parsed = [] := by
  refine ⟨by decide, by decide, by decide, by decide, by decide⟩

/-- C2 (amended): for every environment, `FetchAllSources` returns exactly the error
`Pool.Query` returns for the listing query (nil when it returns none); in that case nothing is
fetched; otherwise the feed of every source read from the listing is fetched exactly once, in
listing order, whatever the individual `FetchSource` calls meet (failed fetches, failed storage
calls). The sources read are the rows before the first row at which `rows.Next()` or the
`Scan` fails: every active source when no row fails. -/
theorem FetchAllSources_fetches_every_source (env : AllEnv) (w : World) :
    (FetchAllSources env w).2 = env.queryErr ∧
    (FetchAllSources env w).1.parsed = w.parsed ++
      (match env.queryErr with
        | some _ => []
        | none =>
          (scanRows env.nextErr env.scanErr 0 (activeSources w.sources)).map
            (fun src => src.url)) ∧
    (∀ k, k ≤ (activeSources w.sources).length →
      (∀ j, j < k → env.nextErr j = none ∧ env.scanErr j = none) →
      (k < (activeSources w.sources).length → env.nextErr k ≠ none ∨ env.scanErr k ≠ none) →
      scanRows env.nextErr env.scanErr 0 (activeSources w.sources)
        = (activeSources w.sources).take k) ∧
    ((∀ j, j < (activeSources w.sources).length → env.nextErr j = none ∧ env.scanErr j = none) →
      scanRows env.nextErr env.scanErr 0 (activeSources w.sources) = activeSources w.sources) := by
  refine ⟨?_, ?_, ?_, fun h => scanRows_ok env.nextErr env.scanErr _ h⟩
  · unfold FetchAllSources
    cases env.queryErr <;> rfl
  · unfold FetchAllSources
    cases env.queryErr with
    | some err => simp [parsed_emit]
    | none => simp [fetchLoop_parsed, parsed_emit, emit_sources]
  · intro k hk hbefore hat
    exact scanRows_take env.nextErr env.scanErr _ 0 k hk
      (fun j hj => by rw [Nat.zero_add]; exact hbefore j hj)
      (fun hlt => by rw [Nat.zero_add]; exact hat hlt)

/-! ## UTF-8: decoding what was encoded, and encoding what was decoded -/

theorem decodeRune_ascii (b : Nat) (t : GoString) (h : b < 0x80) :
    decodeRune (b :: t) = (b, 1) := by
  simp [decodeRune, h]

theorem decodeRune_two (s0 s1 : Nat) (t : GoString) (h0 : 0xC2 ≤ s0) (h0' : s0 ≤ 0xDF)
    (h1 : 0x80 ≤ s1) (h1' : s1 ≤ 0xBF) :
    decodeRune (s0 :: s1 :: t) = ((s0 % 32) * 64 + s1 % 64, 2) := by
  have a1 : ¬ (s0 < 0x80) := by omega
  have a2 : ¬ (s0 < 0xC2 ∨ 0xF4 < s0) := by omega
  have a3 : ¬ (s1 < acceptLo s0 ∨ acceptHi s0 < s1) := by
    unfold acceptLo acceptHi
    split_ifs <;> omega
  have a4 : s0 < 0xE0 := by omega
  simp only [decodeRune, a1, a2, a3, a4, if_true, if_false]

theorem decodeRune_three (s0 s1 s2 : Nat) (t : GoString) (h0 : 0xE0 ≤ s0) (h0' : s0 ≤ 0xEF)
    (h1 : acceptLo s0 ≤ s1) (h1' : s1 ≤ acceptHi s0) (h2 : 0x80 ≤ s2) (h2' : s2 ≤ 0xBF) :
    decodeRune (s0 :: s1 :: s2 :: t) = ((s0 % 16) * 4096 + (s1 % 64) * 64 + s2 % 64, 3) := by
  have a1 : ¬ (s0 < 0x80) := by omega
  have a2 : ¬ (s0 < 0xC2 ∨ 0xF4 < s0) := by omega
  have a3 : ¬ (s1 < acceptLo s0 ∨ acceptHi s0 < s1) := by omega
  have a4 : ¬ (s0 < 0xE0) := by omega
  have a5 : ¬ (s2 < 0x80 ∨ 0xBF < s2) := by omega
  have a6 : s0 < 0xF0 := by omega
  simp only [decodeRune, a1, a2, a3, a4, a5, a6, if_true, if_false]

theorem decodeRune_four (s0 s1 s2 s3 : Nat) (t : GoString) (h0 : 0xF0 ≤ s0) (h0' : s0 ≤ 0xF4)
    (h1 : acceptLo s0 ≤ s1) (h1' : s1 ≤ acceptHi s0) (h2 : 0x80 ≤ s2) (h2' : s2 ≤ 0xBF)
    (h3 : 0x80 ≤ s3) (h3' : s3 ≤ 0xBF) :
    decodeRune (s0 :: s1 :: s2 :: s3 :: t) =
      ((s0 % 8) * 262144 + (s1 % 64) * 4096 + (s2 % 64) * 64 + s3 % 64, 4) := by
  have a1 : ¬ (s0 < 0x80) := by omega
  have a2 : ¬ (s0 < 0xC2 ∨ 0xF4 < s0) := by omega
  have a3 : ¬ (s1 < acceptLo s0 ∨ acceptHi s0 < s1) := by omega
  have a4 : ¬ (s0 < 0xE0) := by omega
  have a5 : ¬ (s2 < 0x80 ∨ 0xBF < s2) := by omega
  have a6 : ¬ (s0 < 0xF0) := by omega
  have a7 : ¬ (s3 < 0x80 ∨ 0xBF < s3) := by omega
  simp only [decodeRune, a1, a2, a3, a4, a5, a6, a7, if_true, if_false]

theorem decodeRune_encodeRune (r : Nat) (t : GoString) (h : validRune r) :
    decodeRune (encodeRune r ++ t) = (r, (encodeRune r).length) := by
  unfold validRune at h
  unfold encodeRune
  by_cases h1 : r ≤ 0x7F
  · simp only [h1, if_true, List.singleton_append, List.length_singleton]
    exact decodeRune_ascii r t (by omega)
  by_cases h2 : r ≤ 0x7FF
  · simp only [h1, h2, if_true, if_false, List.cons_append, List.nil_append]
    rw [decodeRune_two _ _ _ (by omega) (by omega) (by omega) (by omega)]
    refine Prod.ext ?_ rfl
    show (0xC0 + r / 64) % 32 * 64 + (0x80 + r % 64) % 64 = r
    omega
  have h3 : ¬ (0x10FFFF < r ∨ (0xD800 ≤ r ∧ r ≤ 0xDFFF)) := by omega
  by_cases h4 : r ≤ 0xFFFF
  · simp only [h1, h2, h3, h4, if_true, if_false, List.cons_append, List.nil_append]
    rw [decodeRune_three _ _ _ _ (by omega) (by omega)
      (by unfold acceptLo; split_ifs <;> omega) (by unfold acceptHi; split_ifs <;> omega)
      (by omega) (by omega)]
    refine Prod.ext ?_ rfl
    show (0xE0 + r / 4096) % 16 * 4096 + (0x80 + r / 64 % 64) % 64 * 64 + (0x80 + r % 64) % 64 = r
    omega
  · simp only [h1, h2, h3, h4, if_true, if_false, List.cons_append, List.nil_append]
    rw [decodeRune_four _ _ _ _ _ (by omega) (by omega)
      (by unfold acceptLo; split_ifs <;> omega) (by unfold acceptHi; split_ifs <;> omega)
      (by omega) (by omega) (by omega) (by omega)]
    refine Prod.ext ?_ rfl
    show (0xF0 + r / 262144) % 8 * 262144 + (0x80 + r / 4096 % 64) % 64 * 4096
      + (0x80 + r / 64 % 64) % 64 * 64 + (0x80 + r % 64) % 64 = r
    omega
theorem decodeRune_spec (s0 : Nat) (t : GoString) :
    decodeRune (s0 :: t) = (RuneError, 1) ∨
      (validRune (decodeRune (s0 :: t)).1 ∧
        encodeRune (decodeRune (s0 :: t)).1 = (s0 :: t).take (decodeRune (s0 :: t)).2 ∧
        1 ≤ (decodeRune (s0 :: t)).2 ∧ (decodeRune (s0 :: t)).2 ≤ (s0 :: t).length) := by
  by_cases a1 : s0 < 0x80
  · right
    rw [decodeRune_ascii s0 t a1]
    refine ⟨Or.inl (by show s0 < 0xD800; omega), ?_, le_refl _, by simp⟩
    have : s0 ≤ 0x7F := by omega
    simp [encodeRune, this]
  by_cases a2 : s0 < 0xC2 ∨ 0xF4 < s0
  · left; simp [decodeRune, a1, a2]
  cases t with
  | nil => left; simp [decodeRune, a1, a2]
  | cons s1 t1 =>
    by_cases a3 : s1 < acceptLo s0 ∨ acceptHi s0 < s1
    · left; simp [decodeRune, a1, a2, a3]
    have hlo : 0x80 ≤ acceptLo s0 := by unfold acceptLo; split_ifs <;> omega
    have hhi : acceptHi s0 ≤ 0xBF := by unfold acceptHi; split_ifs <;> omega
    by_cases a4 : s0 < 0xE0
    · right
      rw [decodeRune_two s0 s1 t1 (by omega) (by omega) (by omega) (by omega)]
      refine ⟨Or.inl (by show s0 % 32 * 64 + s1 % 64 < 0xD800; omega), ?_, by simp, by simp⟩
      have e1 : ¬ (s0 % 32 * 64 + s1 % 64 ≤ 0x7F) := by omega
      have e2 : s0 % 32 * 64 + s1 % 64 ≤ 0x7FF := by omega
      have e3 : 0xC0 + (s0 % 32 * 64 + s1 % 64) / 64 = s0 := by omega
      have e4 : 0x80 + (s0 % 32 * 64 + s1 % 64) % 64 = s1 := by omega
      simp only [encodeRune, e1, e2, e3, e4, if_true, if_false]
      simp
    cases t1 with
    | nil => left; simp [decodeRune, a1, a2, a3, a4]
    | cons s2 t2 =>
      by_cases a5 : s2 < 0x80 ∨ 0xBF < s2
      · left; simp [decodeRune, a1, a2, a3, a4, a5]
      by_cases a6 : s0 < 0xF0
      · right
        rw [decodeRune_three s0 s1 s2 t2 (by omega) (by omega) (by omega) (by omega) (by omega)
          (by omega)]
        have b1 : s0 = 0xE0 → 0xA0 ≤ s1 := by
          intro h; rw [h] at a3; simp [acceptLo] at a3; omega
        have b2 : s0 = 0xED → s1 ≤ 0x9F := by
          intro h; rw [h] at a3; simp [acceptHi] at a3; omega
        have e1 : ¬ (s0 % 16 * 4096 + s1 % 64 * 64 + s2 % 64 ≤ 0x7F) := by omega
        have e2 : ¬ (s0 % 16 * 4096 + s1 % 64 * 64 + s2 % 64 ≤ 0x7FF) := by omega
        have e3 : ¬ (0x10FFFF < s0 % 16 * 4096 + s1 % 64 * 64 + s2 % 64 ∨
            (0xD800 ≤ s0 % 16 * 4096 + s1 % 64 * 64 + s2 % 64 ∧
              s0 % 16 * 4096 + s1 % 64 * 64 + s2 % 64 ≤ 0xDFFF)) := by omega
        have e4 : s0 % 16 * 4096 + s1 % 64 * 64 + s2 % 64 ≤ 0xFFFF := by omega
        have e5 : 0xE0 + (s0 % 16 * 4096 + s1 % 64 * 64 + s2 % 64) / 4096 = s0 := by omega
        have e6 : 0x80 + (s0 % 16 * 4096 + s1 % 64 * 64 + s2 % 64) / 64 % 64 = s1 := by omega
        have e7 : 0x80 + (s0 % 16 * 4096 + s1 % 64 * 64 + s2 % 64) % 64 = s2 := by omega
        refine ⟨?_, ?_, by simp, by simp⟩
        · show _ < 0xD800 ∨ (0xE000 ≤ _ ∧ _ ≤ 0x10FFFF)
          omega
        · simp only [encodeRune, e1, e2, e3, e4, e5, e6, e7, if_true, if_false]
          simp
      cases t2 with
      | nil => left; simp [decodeRune, a1, a2, a3, a4, a5, a6]
      | cons s3 t3 =>
        by_cases a7 : s3 < 0x80 ∨ 0xBF < s3
        · left; simp [decodeRune, a1, a2, a3, a4, a5, a6, a7]
        right
        rw [decodeRune_four s0 s1 s2 s3 t3 (by omega) (by omega) (by omega) (by omega) (by omega)
          (by omega) (by omega) (by omega)]
        have b1 : s0 = 0xF0 → 0x90 ≤ s1 := by
          intro h; rw [h] at a3; simp [acceptLo] at a3; omega
        have b2 : s0 = 0xF4 → s1 ≤ 0x8F := by
          intro h; rw [h] at a3; simp [acceptHi] at a3; omega
        generalize hr : s0 % 8 * 262144 + s1 % 64 * 4096 + s2 % 64 * 64 + s3 % 64 = r
        have e1 : ¬ (r ≤ 0x7F) := by omega
        have e2 : ¬ (r ≤ 0x7FF) := by omega
        have e3 : ¬ (0x10FFFF < r ∨ (0xD800 ≤ r ∧ r ≤ 0xDFFF)) := by omega
        have e4 : ¬ (r ≤ 0xFFFF) := by omega
        have e5 : 0xF0 + r / 262144 = s0 := by omega
        have e6 : 0x80 + r / 4096 % 64 = s1 := by omega
        have e7 : 0x80 + r / 64 % 64 = s2 := by omega
        have e8 : 0x80 + r % 64 = s3 := by omega
        refine ⟨?_, ?_, by simp, by simp⟩
        · show r < 0xD800 ∨ (0xE000 ≤ r ∧ r ≤ 0x10FFFF)
          omega
        · simp only [encodeRune, e1, e2, e3, e4, e5, e6, e7, e8, if_true, if_false]
          simp

/-! ## The `range` loop over a string -/

theorem rangeFrom_skip (s : GoString) : ∀ k : Nat, rangeFrom k s = rangeFrom 0 (s.drop k) := by
  induction s with
  | nil => intro k; cases k <;> simp [rangeFrom]
  | cons b t ih =>
    intro k
    cases k with
    | zero => rfl
    | succ k => simp only [rangeFrom, List.drop_succ_cons]; exact ih k

theorem decodeRune_width (b : Nat) (t : GoString) :
    1 ≤ (decodeRune (b :: t)).2 ∧ (decodeRune (b :: t)).2 ≤ (b :: t).length := by
  rcases decodeRune_spec b t with h | ⟨_, _, h1, h2⟩
  · rw [h]; simp
  · exact ⟨h1, h2⟩

theorem rangeFrom_cons (b : Nat) (t : GoString) :
    rangeFrom 0 (b :: t) =
      ((decodeRune (b :: t)).1, (b :: t).take (decodeRune (b :: t)).2)
        :: rangeFrom 0 ((b :: t).drop (decodeRune (b :: t)).2) := by
  obtain ⟨h1, _⟩ := decodeRune_width b t
  obtain ⟨n, hn⟩ : ∃ n, (decodeRune (b :: t)).2 = n + 1 := ⟨_, (Nat.sub_add_cancel h1).symm⟩
  show _ :: rangeFrom ((decodeRune (b :: t)).2 - 1) t = _
  rw [rangeFrom_skip, hn]
  simp

theorem range_induction {P : GoString → Prop} (nil : P [])
    (step : ∀ (b : Nat) (t : GoString), P ((b :: t).drop (decodeRune (b :: t)).2) → P (b :: t)) :
    ∀ s, P s := by
  have key : ∀ (n : Nat) (s : GoString), s.length ≤ n → P s := by
    intro n
    induction n with
    | zero =>
      intro s hs
      cases s with
      | nil => exact nil
      | cons b t => simp at hs
    | succ n ih =>
      intro s hs
      cases s with
      | nil => exact nil
      | cons b t =>
        apply step
        obtain ⟨h1, _⟩ := decodeRune_width b t
        apply ih
        rw [List.length_drop]
        simp only [List.length_cons] at hs ⊢
        omega
  exact fun s => key s.length s (le_refl _)

theorem encodeRune_ne_nil (r : Nat) : encodeRune r ≠ [] := by
  unfold encodeRune
  split_ifs <;> simp

theorem encodeRune_length_pos (r : Nat) : 1 ≤ (encodeRune r).length := by
  unfold encodeRune
  split_ifs <;> simp

theorem encodeRune_length_le (r : Nat) : (encodeRune r).length ≤ 4 := by
  unfold encodeRune
  split_ifs <;> simp

theorem rangeFrom_encodeRune (r : Nat) (t : GoString) (h : validRune r) :
    rangeFrom 0 (encodeRune r ++ t) = (r, encodeRune r) :: rangeFrom 0 t := by
  cases he : encodeRune r with
  | nil => exact absurd he (encodeRune_ne_nil r)
  | cons b u =>
    have hd := decodeRune_encodeRune r t h
    rw [he] at hd
    rw [List.cons_append] at hd ⊢
    rw [rangeFrom_cons, hd]
    simp only [← List.cons_append]
    rw [List.take_left, List.drop_left]

theorem encodeAll_nil : encodeAll [] = [] := rfl

theorem encodeAll_cons (r : Nat) (rs : List Nat) :
    encodeAll (r :: rs) = encodeRune r ++ encodeAll rs := rfl

theorem encodeAll_append (a b : List Nat) : encodeAll (a ++ b) = encodeAll a ++ encodeAll b := by
  simp [encodeAll]

theorem encodeAll_eq_nil (rs : List Nat) : encodeAll rs = [] ↔ rs = [] := by
  cases rs with
  | nil => simp [encodeAll_nil]
  | cons r rs =>
    simp only [encodeAll_cons, List.append_eq_nil, reduceCtorEq, iff_false, not_and]
    intro h
    exact absurd h (encodeRune_ne_nil r)

theorem rangeFrom_encodeAll (rs : List Nat) (t : GoString) (h : ∀ r ∈ rs, validRune r) :
    rangeFrom 0 (encodeAll rs ++ t) = rs.map (fun r => (r, encodeRune r)) ++ rangeFrom 0 t := by
  induction rs with
  | nil => rfl
  | cons r rs ih =>
    rw [encodeAll_cons, List.append_assoc,
      rangeFrom_encodeRune r _ (h r (List.mem_cons_self _ _)),
      ih (fun x hx => h x (List.mem_cons_of_mem _ hx))]
    rfl

theorem rangeRunes_encodeAll (rs : List Nat) (h : ∀ r ∈ rs, validRune r) :
    rangeRunes (encodeAll rs) = rs := by
  have := rangeFrom_encodeAll rs [] h
  rw [List.append_nil] at this
  unfold rangeRunes
  rw [this]
  simp [rangeFrom, Function.comp_def]

theorem validRune_RuneError : validRune RuneError := by
  unfold validRune RuneError; omega

theorem rangeFrom_valid (s : GoString) : ∀ c ∈ rangeFrom 0 s, validRune c.1 := by
  induction s using range_induction with
  | nil => intro c h; simp [rangeFrom] at h
  | step b t ih =>
    intro c h
    rw [rangeFrom_cons] at h
    rcases List.mem_cons.mp h with rfl | h
    · rcases decodeRune_spec b t with h | ⟨h, _⟩
      · show validRune (decodeRune (b :: t)).1
        rw [h]; exact validRune_RuneError
      · exact h
    · exact ih c h

theorem rangeRunes_valid (s : GoString) : ∀ r ∈ rangeRunes s, validRune r := by
  intro r h
  unfold rangeRunes at h
  obtain ⟨c, hc, rfl⟩ := List.mem_map.mp h
  exact rangeFrom_valid s c hc

theorem rangeFrom_bytes (s : GoString) : ((rangeFrom 0 s).map Prod.snd).flatten = s := by
  induction s using range_induction with
  | nil => rfl
  | step b t ih =>
    rw [rangeFrom_cons, List.map_cons, List.flatten_cons, ih]
    exact List.take_append_drop _ _

theorem encodeAll_rangeRunes (s : GoString) (h : ValidString s = true) :
    encodeAll (rangeRunes s) = s := by
  induction s using range_induction with
  | nil => rfl
  | step b t ih =>
    unfold ValidString at h
    rw [rangeFrom_cons, List.all_cons, Bool.and_eq_true] at h
    obtain ⟨h1, h2⟩ := h
    unfold rangeRunes
    rw [rangeFrom_cons, List.map_cons, encodeAll_cons]
    have ih' := ih h2
    unfold rangeRunes at ih'
    rw [ih']
    rcases decodeRune_spec b t with hd | ⟨_, hd, _⟩
    · rw [hd] at h1
      simp at h1
    · rw [hd]
      exact List.take_append_drop _ _

/-! ## `stripHTML` on runes -/

theorem lit_space : lit " " = [32] := by decide

theorem foldl_stripStep (rs : List Nat) :
    ∀ st : StripState,
      (rs.foldl stripStep st).result = st.result ++ encodeAll (keepText st.inTag rs) := by
  induction rs with
  | nil => intro st; simp [keepText, encodeAll_nil]
  | cons r rs ih =>
    intro st
    rw [List.foldl_cons, ih]
    unfold stripStep
    by_cases h1 : r = 60
    · simp [h1, keepText]
    by_cases h2 : r = 62
    · simp [h1, h2, keepText]
    cases hin : st.inTag with
    | true => simp [h1, h2, hin, keepText]
    | false => simp [h1, h2, hin, keepText, encodeAll_cons]

theorem keepText_mem (rs : List Nat) :
    ∀ (inTag : Bool), ∀ r ∈ keepText inTag rs, r ∈ rs ∧ r ≠ 60 ∧ r ≠ 62 := by
  induction rs with
  | nil => intro inTag r h; simp [keepText] at h
  | cons a rs ih =>
    intro inTag r h
    unfold keepText at h
    by_cases h1 : a = 60
    · rw [if_pos h1] at h
      obtain ⟨h3, h4⟩ := ih true r h
      exact ⟨List.mem_cons_of_mem _ h3, h4⟩
    rw [if_neg h1] at h
    by_cases h2 : a = 62
    · rw [if_pos h2] at h
      obtain ⟨h3, h4⟩ := ih false r h
      exact ⟨List.mem_cons_of_mem _ h3, h4⟩
    rw [if_neg h2] at h
    cases inTag with
    | true =>
      simp only [if_true] at h
      obtain ⟨h3, h4⟩ := ih true r h
      exact ⟨List.mem_cons_of_mem _ h3, h4⟩
    | false =>
      simp only [Bool.false_eq_true, if_false] at h
      rcases List.mem_cons.mp h with rfl | h
      · exact ⟨List.mem_cons_self _ _, h1, h2⟩
      · obtain ⟨h3, h4⟩ := ih false r h
        exact ⟨List.mem_cons_of_mem _ h3, h4⟩

theorem keepText_of_plain (rs : List Nat) (h : ∀ r ∈ rs, r ≠ 60 ∧ r ≠ 62) :
    keepText false rs = rs := by
  induction rs with
  | nil => rfl
  | cons a rs ih =>
    obtain ⟨h1, h2⟩ := h a (List.mem_cons_self _ _)
    simp [keepText, h1, h2, ih (fun r hr => h r (List.mem_cons_of_mem _ hr))]

theorem fieldsLoop_map (rs : List Nat) :
    ∀ cur : List Nat,
      fieldsLoop (rs.map (fun r => (r, encodeRune r))) (encodeAll cur)
        = (wordsLoop rs cur).map encodeAll := by
  induction rs with
  | nil =>
    intro cur
    simp only [List.map_nil, fieldsLoop, wordsLoop, encodeAll_eq_nil]
    split <;> simp
  | cons r rs ih =>
    intro cur
    simp only [List.map_cons, fieldsLoop, wordsLoop, encodeAll_eq_nil]
    cases hsp : isSpace r with
    | true =>
      simp only [if_true]
      by_cases hc : cur = []
      · simp only [hc, if_true]
        exact ih []
      · simp only [hc, if_false, List.map_cons]
        rw [← ih []]
        rfl
    | false =>
      simp only [Bool.false_eq_true, if_false]
      rw [← ih, encodeAll_append]
      simp [encodeAll]

theorem Fields_encodeAll (rs : List Nat) (h : ∀ r ∈ rs, validRune r) :
    Fields (encodeAll rs) = (words rs).map encodeAll := by
  unfold Fields words
  have := rangeFrom_encodeAll rs [] h
  rw [List.append_nil] at this
  rw [this]
  simpa [rangeFrom, encodeAll_nil] using fieldsLoop_map rs []

theorem encodeRune_space : encodeRune 32 = [32] := by decide

theorem Join_encodeAll (ws : List (List Nat)) :
    Join (ws.map encodeAll) [32] = encodeAll (Join ws [32]) := by
  induction ws with
  | nil => rfl
  | cons w ws ih =>
    cases ws with
    | nil => rfl
    | cons v vs =>
      simp only [List.map_cons, Join] at ih ⊢
      rw [ih, encodeAll_append, encodeAll_append]
      rfl

theorem TrimSpace_encodeAll (rs : List Nat) (h : ∀ r ∈ rs, validRune r) :
    TrimSpace (encodeAll rs) = encodeAll (trimRunes rs) := by
  unfold TrimSpace trimRunes encodeAll
  have := rangeFrom_encodeAll rs [] h
  rw [List.append_nil] at this
  unfold encodeAll at this
  rw [this]
  simp only [rangeFrom, List.append_nil]
  rw [List.dropWhile_map, ← List.map_reverse, List.dropWhile_map, ← List.map_reverse,
    List.map_map]
  rfl

theorem wordsLoop_mem (rs : List Nat) :
    ∀ (cur : List Nat), ∀ w ∈ wordsLoop rs cur,
      w ≠ [] ∧ ∀ r ∈ w, r ∈ cur ∨ (r ∈ rs ∧ isSpace r = false) := by
  induction rs with
  | nil =>
    intro cur w h
    unfold wordsLoop at h
    by_cases hc : cur = []
    · simp [hc] at h
    · simp only [hc, if_false, List.mem_singleton] at h
      subst h
      exact ⟨hc, fun r hr => Or.inl hr⟩
  | cons a rs ih =>
    intro cur w h
    unfold wordsLoop at h
    cases hsp : isSpace a with
    | true =>
      simp only [hsp, if_true] at h
      have hrest : w ∈ wordsLoop rs [] → w ≠ [] ∧ ∀ r ∈ w, r ∈ cur ∨ (r ∈ a :: rs ∧ isSpace r = false) := by
        intro hw
        obtain ⟨h1, h2⟩ := ih [] w hw
        refine ⟨h1, fun r hr => ?_⟩
        rcases h2 r hr with h3 | ⟨h3, h4⟩
        · simp at h3
        · exact Or.inr ⟨List.mem_cons_of_mem _ h3, h4⟩
      by_cases hc : cur = []
      · simp only [hc, if_true] at h
        exact hrest h
      · simp only [hc, if_false] at h
        rcases List.mem_cons.mp h with rfl | h
        · exact ⟨hc, fun r hr => Or.inl hr⟩
        · exact hrest h
    | false =>
      simp only [hsp, Bool.false_eq_true, if_false] at h
      obtain ⟨h1, h2⟩ := ih (cur ++ [a]) w h
      refine ⟨h1, fun r hr => ?_⟩
      rcases h2 r hr with h3 | ⟨h3, h4⟩
      · rcases List.mem_append.mp h3 with h5 | h5
        · exact Or.inl h5
        · rw [List.mem_singleton] at h5
          subst h5
          exact Or.inr ⟨List.mem_cons_self _ _, hsp⟩
      · exact Or.inr ⟨List.mem_cons_of_mem _ h3, h4⟩

theorem words_mem (rs : List Nat) :
    ∀ w ∈ words rs, w ≠ [] ∧ ∀ r ∈ w, r ∈ rs ∧ isSpace r = false := by
  intro w h
  obtain ⟨h1, h2⟩ := wordsLoop_mem rs [] w h
  refine ⟨h1, fun r hr => ?_⟩
  rcases h2 r hr with h3 | h3
  · simp at h3
  · exact h3

theorem Join_mem (sep : List Nat) (ws : List (List Nat)) :
    ∀ r ∈ Join ws sep, r ∈ sep ∨ ∃ w ∈ ws, r ∈ w := by
  induction ws with
  | nil => intro r h; simp [Join] at h
  | cons w ws ih =>
    cases ws with
    | nil =>
      intro r h
      exact Or.inr ⟨w, List.mem_cons_self _ _, h⟩
    | cons v vs =>
      intro r h
      simp only [Join, List.mem_append] at h
      rcases h with (h | h) | h
      · exact Or.inr ⟨w, List.mem_cons_self _ _, h⟩
      · exact Or.inl h
      · rcases ih r h with h | ⟨u, hu, hr⟩
        · exact Or.inl h
        · exact Or.inr ⟨u, List.mem_cons_of_mem _ hu, hr⟩

theorem dropWhile_of_head (p : Nat → Bool) (l : List Nat) (h : ∀ a ∈ l.head?, p a = false) :
    l.dropWhile p = l := by
  cases l with
  | nil => rfl
  | cons a t =>
    have := h a (by simp)
    simp [List.dropWhile, this]

theorem trimRunes_of_tight (l : List Nat) (h1 : ∀ a ∈ l.head?, isSpace a = false)
    (h2 : ∀ b ∈ l.getLast?, isSpace b = false) : trimRunes l = l := by
  unfold trimRunes
  rw [dropWhile_of_head isSpace l h1, dropWhile_of_head isSpace l.reverse, List.reverse_reverse]
  intro a ha
  rw [List.head?_reverse] at ha
  exact h2 a ha

theorem Join_tight (ws : List (List Nat))
    (h : ∀ w ∈ ws, w ≠ [] ∧ ∀ r ∈ w, isSpace r = false) :
    (∀ a ∈ (Join ws [32]).head?, isSpace a = false) ∧
      (∀ b ∈ (Join ws [32]).getLast?, isSpace b = false) ∧ (ws ≠ [] → Join ws [32] ≠ []) := by
  induction ws with
  | nil => simp [Join]
  | cons w ws ih =>
    obtain ⟨hw1, hw2⟩ := h w (List.mem_cons_self _ _)
    cases ws with
    | nil =>
      simp only [Join]
      refine ⟨fun a ha => hw2 a (List.mem_of_mem_head? ha),
        fun b hb => hw2 b (List.mem_of_mem_getLast? hb), fun _ => hw1⟩
    | cons v vs =>
      obtain ⟨_, ih2, ih3⟩ := ih (fun u hu => h u (List.mem_cons_of_mem _ hu))
      have hne : Join (v :: vs) [32] ≠ [] := ih3 (by simp)
      simp only [Join]
      refine ⟨fun a ha => ?_, fun b hb => ?_, fun _ => by simp [hw1]⟩
      · rw [List.append_assoc, List.head?_append_of_ne_nil _ hw1] at ha
        exact hw2 a (List.mem_of_mem_head? ha)
      · rw [List.getLast?_append_of_ne_nil _ hne] at hb
        exact ih2 b hb

theorem trimRunes_Join_words (rs : List Nat) :
    trimRunes (Join (words rs) [32]) = Join (words rs) [32] := by
  obtain ⟨h1, h2, _⟩ := Join_tight (words rs) (fun w hw =>
    ⟨(words_mem rs w hw).1, fun r hr => ((words_mem rs w hw).2 r hr).2⟩)
  exact trimRunes_of_tight _ h1 h2

theorem validRune_space : validRune 32 := by decide

theorem Join_words_valid (rs : List Nat) (h : ∀ r ∈ rs, validRune r) :
    ∀ r ∈ Join (words rs) [32], validRune r := by
  intro r hr
  rcases Join_mem [32] (words rs) r hr with h1 | ⟨w, hw, hrw⟩
  · rw [List.mem_singleton] at h1
    subst h1
    exact validRune_space
  · exact h r (((words_mem rs w hw).2 r hrw).1)

/-- The runes `stripHTML` writes are Unicode scalar values. -/
theorem keepText_valid (s : GoString) (inTag : Bool) :
    ∀ r ∈ keepText inTag (rangeRunes s), validRune r :=
  fun r hr => rangeRunes_valid s r (keepText_mem _ inTag r hr).1

theorem stripHTML_eq (s : GoString) :
    stripHTML s = encodeAll (Join (words (keepText false (rangeRunes s))) [32]) := by
  unfold stripHTML
  simp only [foldl_stripStep, List.nil_append, lit_space]
  rw [Fields_encodeAll _ (keepText_valid s false), Join_encodeAll,
    TrimSpace_encodeAll _ (Join_words_valid _ (keepText_valid s false)), trimRunes_Join_words]

/-! ## The loop of `stripHTML` against the specified normalizer -/

theorem keepText_true_eq (rs : List Nat) :
    keepText true rs = keepText false ((rs.dropWhile (fun x => x ≠ 62)).drop 1) := by
  induction rs with
  | nil => rfl
  | cons r rs ih =>
    by_cases h2 : r = 62
    · subst h2
      simp [keepText, List.dropWhile]
    · by_cases h1 : r = 60
      · subst h1
        simp [keepText, List.dropWhile, ih]
      · simp [keepText, List.dropWhile, h1, h2, ih]

theorem specDeleteSpans_cons (r : Nat) (rs : List Nat) :
    specDeleteSpans (r :: rs) =
      if r = 60 then specDeleteSpans ((rs.dropWhile (fun x => x ≠ 62)).drop 1)
      else r :: specDeleteSpans rs := by
  rw [specDeleteSpans]

theorem specCollapse_cons (r : Nat) (rs : List Nat) :
    specCollapse (r :: rs) =
      if isSpace r then 32 :: specCollapse (rs.dropWhile isSpace)
      else r :: specCollapse rs := by
  rw [specCollapse]

theorem specDeleteSpans_nil : specDeleteSpans [] = [] := by
  rw [specDeleteSpans]

theorem specCollapse_nil : specCollapse [] = [] := by
  rw [specCollapse]

theorem keepText_eq_spec (rs : List Nat) :
    keepText false rs = (specDeleteSpans rs).filter (fun r => r ≠ 62) := by
  have key : ∀ (n : Nat) (rs : List Nat), rs.length ≤ n →
      keepText false rs = (specDeleteSpans rs).filter (fun r => r ≠ 62) := by
    intro n
    induction n with
    | zero =>
      intro rs h
      cases rs with
      | nil => simp [keepText, specDeleteSpans_nil]
      | cons r rs => simp at h
    | succ n ih =>
      intro rs h
      cases rs with
      | nil => simp [keepText, specDeleteSpans_nil]
      | cons r rs =>
        have hlen : rs.length ≤ n := by simpa using h
        rw [specDeleteSpans_cons]
        by_cases h1 : r = 60
        · rw [if_pos h1]
          have hle : ((rs.dropWhile (fun x => x ≠ 62)).drop 1).length ≤ n := by
            rw [List.length_drop]
            exact Nat.le_trans (Nat.sub_le _ _)
              (Nat.le_trans (List.dropWhile_sublist _).length_le hlen)
          rw [← ih _ hle, ← keepText_true_eq]
          simp [keepText, h1]
        · rw [if_neg h1]
          by_cases h2 : r = 62
          · rw [h2, List.filter_cons_of_neg (by simp), ← ih rs hlen]
            simp [keepText]
          · rw [List.filter_cons_of_pos (by simp [h2]), ← ih rs hlen]
            simp [keepText, h1, h2]
  exact key rs.length rs (le_refl _)

theorem rdropWhile_append_of_mem (p : Nat → Bool) (x : List Nat) :
    ∀ y : List Nat, (∃ b ∈ y, p b = false) →
      List.rdropWhile p (x ++ y) = x ++ List.rdropWhile p y := by
  intro y
  induction y using List.reverseRecOn with
  | nil => rintro ⟨b, hb, _⟩; simp at hb
  | append_singleton y b ih =>
    intro h
    cases hp : p b with
    | true =>
      rw [← List.append_assoc, List.rdropWhile_concat_pos _ _ _ hp,
        List.rdropWhile_concat_pos _ _ _ hp]
      apply ih
      obtain ⟨c, hc, hpc⟩ := h
      rcases List.mem_append.mp hc with hc | hc
      · exact ⟨c, hc, hpc⟩
      · rw [List.mem_singleton] at hc
        rw [hc, hp] at hpc
        exact Bool.noConfusion hpc
    | false =>
      have hn : ¬ p b = true := by simp [hp]
      rw [← List.append_assoc, List.rdropWhile_concat_neg _ _ _ hn,
        List.rdropWhile_concat_neg _ _ _ hn, List.append_assoc]

theorem rdropWhile_of_no_space (cur : List Nat) (h : ∀ r ∈ cur, isSpace r = false) :
    List.rdropWhile isSpace cur = cur := by
  rcases List.eq_nil_or_concat cur with rfl | ⟨l, b, rfl⟩
  · rfl
  · have hb : isSpace b = false := h b (by simp)
    rw [List.concat_eq_append]
    exact List.rdropWhile_concat_neg _ _ _ (by simp [hb])

theorem wordsLoop_dropWhile (rs : List Nat) :
    wordsLoop rs [] = wordsLoop (rs.dropWhile isSpace) [] := by
  induction rs with
  | nil => rfl
  | cons r rs ih =>
    cases h : isSpace r with
    | true => simp [wordsLoop, List.dropWhile, h, ih]
    | false => simp [List.dropWhile, h]

theorem wordsLoop_ne_nil (rs : List Nat) :
    ∀ cur : List Nat, cur ≠ [] → wordsLoop rs cur ≠ [] := by
  induction rs with
  | nil => intro cur h; simp [wordsLoop, h]
  | cons r rs ih =>
    intro cur h
    unfold wordsLoop
    cases isSpace r with
    | true => simp [h]
    | false => simpa using ih (cur ++ [r]) (by simp)

theorem Join_cons_of_ne_nil (c sep : List Nat) (ws : List (List Nat)) (h : ws ≠ []) :
    Join (c :: ws) sep = c ++ sep ++ Join ws sep := by
  cases ws with
  | nil => exact absurd rfl h
  | cons w ws => rfl

theorem dropWhile_head_not (p : Nat → Bool) (rs : List Nat) (a : Nat) (t : List Nat)
    (h : rs.dropWhile p = a :: t) : p a = false := by
  have := List.head_dropWhile_not p rs (by rw [h]; simp)
  simpa [h] using this

theorem isSpace_space : isSpace 32 = true := by decide

theorem collapse_words_aux :
    ∀ (n : Nat) (rs cur : List Nat), rs.length ≤ n → cur ≠ [] →
      (∀ r ∈ cur, isSpace r = false) →
      List.rdropWhile isSpace (cur ++ specCollapse rs) = Join (wordsLoop rs cur) [32] := by
  intro n
  induction n with
  | zero =>
    intro rs cur hlen hne hcur
    cases rs with
    | nil =>
      simp only [specCollapse_nil, List.append_nil, wordsLoop, hne, if_false, Join]
      exact rdropWhile_of_no_space cur hcur
    | cons r rs => simp at hlen
  | succ n ih =>
    intro rs cur hlen hne hcur
    cases rs with
    | nil =>
      simp only [specCollapse_nil, List.append_nil, wordsLoop, hne, if_false, Join]
      exact rdropWhile_of_no_space cur hcur
    | cons r rs =>
      have hlen' : rs.length ≤ n := by simpa using hlen
      rw [specCollapse_cons]
      cases hsp : isSpace r with
      | false =>
        simp only [Bool.false_eq_true, if_false, wordsLoop, hsp]
        have := ih rs (cur ++ [r]) hlen' (by simp) (by
          intro x hx
          rcases List.mem_append.mp hx with hx | hx
          · exact hcur x hx
          · rw [List.mem_singleton] at hx; rw [hx]; exact hsp)
        rw [← this]
        simp
      | true =>
        simp only [if_true, wordsLoop, hsp, hne, if_false]
        rw [wordsLoop_dropWhile]
        cases hd : rs.dropWhile isSpace with
        | nil =>
          simp only [specCollapse_nil, wordsLoop, if_true, Join]
          rw [List.rdropWhile_concat_pos _ _ _ isSpace_space]
          exact rdropWhile_of_no_space cur hcur
        | cons a t =>
          have ha : isSpace a = false := dropWhile_head_not isSpace rs a t hd
          have hlt : t.length ≤ n := by
            have h1 := (List.dropWhile_sublist isSpace (l := rs)).length_le
            rw [hd] at h1
            simp only [List.length_cons] at h1
            omega
          rw [specCollapse_cons]
          simp only [ha, Bool.false_eq_true, if_false, wordsLoop, List.nil_append]
          rw [Join_cons_of_ne_nil _ _ _ (wordsLoop_ne_nil t [a] (by simp))]
          have := ih t [a] hlt (by simp) (by
            intro x hx
            rw [List.mem_singleton] at hx; rw [hx]; exact ha)
          rw [← this]
          have hsplit : cur ++ 32 :: a :: specCollapse t
              = (cur ++ [32]) ++ ([a] ++ specCollapse t) := by simp
          rw [hsplit, rdropWhile_append_of_mem isSpace _ _ ⟨a, by simp, ha⟩]

theorem trimRunes_specCollapse (rs : List Nat) :
    trimRunes (specCollapse rs) = Join (words rs) [32] := by
  have htrim : ∀ l : List Nat,
      trimRunes l = List.rdropWhile isSpace (l.dropWhile isSpace) := fun _ => rfl
  have hdrop : (specCollapse rs).dropWhile isSpace = specCollapse (rs.dropWhile isSpace) := by
    have hY : ∀ Y : List Nat, (∀ a t, Y = a :: t → isSpace a = false) →
        (specCollapse Y).dropWhile isSpace = specCollapse Y := by
      intro Y hY
      cases Y with
      | nil => simp [specCollapse_nil]
      | cons a t =>
        have := hY a t rfl
        rw [specCollapse_cons]
        simp [this, List.dropWhile]
    cases rs with
    | nil => simp [specCollapse_nil]
    | cons r rs =>
      rw [specCollapse_cons]
      cases hsp : isSpace r with
      | true =>
        simp only [if_true, List.dropWhile, isSpace_space, hsp]
        exact hY _ (fun a t h => dropWhile_head_not isSpace rs a t h)
      | false =>
        simp only [Bool.false_eq_true, if_false, List.dropWhile, hsp]
        rw [specCollapse_cons]
        simp [hsp]
  rw [htrim, hdrop]
  unfold words
  rw [wordsLoop_dropWhile]
  cases hd : rs.dropWhile isSpace with
  | nil => simp [specCollapse_nil, wordsLoop, Join, List.rdropWhile]
  | cons a t =>
    have ha : isSpace a = false := dropWhile_head_not isSpace rs a t hd
    rw [specCollapse_cons]
    simp only [ha, Bool.false_eq_true, if_false, wordsLoop, List.nil_append]
    have := collapse_words_aux t.length t [a] (le_refl _) (by simp) (by
      intro x hx
      rw [List.mem_singleton] at hx; rw [hx]; exact ha)
    rw [← this]
    rfl

/-! ## An ASCII byte ends every rune before it -/

theorem decodeRune_append_ascii (b : Nat) (t : GoString) (c : Nat) (q : GoString)
    (hc : c < 0x80) : decodeRune ((b :: t) ++ c :: q) = decodeRune (b :: t) := by
  by_cases a1 : b < 0x80
  · rw [List.cons_append, decodeRune_ascii b _ a1, decodeRune_ascii b _ a1]
  by_cases a2 : b < 0xC2 ∨ 0xF4 < b
  · simp [decodeRune, a1, a2]
  have hlo : 0x80 ≤ acceptLo b := by unfold acceptLo; split_ifs <;> omega
  have hcont : c < 0x80 ∨ 0xBF < c := Or.inl hc
  cases t with
  | nil =>
    have a3 : c < acceptLo b ∨ acceptHi b < c := Or.inl (by omega)
    simp [decodeRune, a1, a2, a3]
  | cons s1 t1 =>
    by_cases a3 : s1 < acceptLo b ∨ acceptHi b < s1
    · simp [decodeRune, a1, a2, a3]
    by_cases a4 : b < 0xE0
    · simp [decodeRune, a1, a2, a3, a4]
    cases t1 with
    | nil => simp [decodeRune, a1, a2, a3, a4, hcont]
    | cons s2 t2 =>
      by_cases a5 : s2 < 0x80 ∨ 0xBF < s2
      · simp [decodeRune, a1, a2, a3, a4, a5]
      by_cases a6 : b < 0xF0
      · simp [decodeRune, a1, a2, a3, a4, a5, a6]
      cases t2 with
      | nil => simp [decodeRune, a1, a2, a3, a4, a5, a6, hcont]
      | cons s3 t3 => simp [decodeRune, a1, a2, a3, a4, a5, a6]

theorem rangeFrom_append_ascii (c : Nat) (q : GoString) (hc : c < 0x80) (p : GoString) :
    rangeFrom 0 (p ++ c :: q) = rangeFrom 0 p ++ rangeFrom 0 (c :: q) := by
  induction p using range_induction with
  | nil => rfl
  | step b t ih =>
    obtain ⟨_, hle⟩ := decodeRune_width b t
    have hstep : rangeFrom 0 ((b :: t) ++ c :: q) =
        ((decodeRune ((b :: t) ++ c :: q)).1,
            ((b :: t) ++ c :: q).take (decodeRune ((b :: t) ++ c :: q)).2)
          :: rangeFrom 0 (((b :: t) ++ c :: q).drop (decodeRune ((b :: t) ++ c :: q)).2) :=
      rangeFrom_cons b (t ++ c :: q)
    rw [hstep, rangeFrom_cons b t, decodeRune_append_ascii b t c q hc,
      List.take_append_of_le_length hle, List.drop_append_of_le_length hle, ih]
    rfl

theorem rangeRunes_append_ascii (c : Nat) (q : GoString) (hc : c < 0x80) (p : GoString) :
    rangeRunes (p ++ c :: q) = rangeRunes p ++ c :: rangeRunes q := by
  unfold rangeRunes
  rw [rangeFrom_append_ascii c q hc p, List.map_append, rangeFrom_cons, decodeRune_ascii c q hc]
  rfl

theorem rangeRunes_ascii_mem (s : GoString) : ∀ r ∈ rangeRunes s, r < 0x80 → r ∈ s := by
  induction s using range_induction with
  | nil => intro r h; simp [rangeRunes, rangeFrom] at h
  | step b t ih =>
    intro r h hr
    unfold rangeRunes at h
    rw [rangeFrom_cons, List.map_cons] at h
    rcases List.mem_cons.mp h with h | h
    · rcases decodeRune_spec b t with hd | ⟨_, hd, _⟩
      · rw [hd] at h
        simp only [RuneError] at h
        omega
      · have hmem : r ∈ encodeRune r := by
          have : r ≤ 0x7F := by omega
          simp [encodeRune, this]
        have hr1 : r = (decodeRune (b :: t)).1 := h
        rw [hr1, hd, ← hr1] at hmem
        exact List.mem_of_mem_take hmem
    · exact List.mem_of_mem_drop (ih r h hr)

theorem keepText_true_of_no_gt (rs : List Nat) (h : 62 ∉ rs) : keepText true rs = [] := by
  induction rs with
  | nil => rfl
  | cons r rs ih =>
    have h2 : r ≠ 62 := fun e => h (by simp [e])
    have ih' := ih (fun hm => h (List.mem_cons_of_mem _ hm))
    by_cases h1 : r = 60
    · simp [keepText, h1, ih']
    · simp [keepText, h1, h2, ih']

theorem keepText_append_open (b : List Nat) (h : 62 ∉ b) (a : List Nat) :
    ∀ inTag : Bool, keepText inTag (a ++ 60 :: b) = keepText inTag a := by
  induction a with
  | nil =>
    intro inTag
    simp [keepText, keepText_true_of_no_gt b h]
  | cons r rs ih =>
    intro inTag
    by_cases h1 : r = 60
    · simp [keepText, h1, ih]
    by_cases h2 : r = 62
    · simp [keepText, h2, ih]
    cases inTag <;> simp [keepText, h1, h2, ih]

/-! ## Strings without markup and white space; lengths -/

theorem wordsLoop_of_no_space (rs : List Nat) (h : ∀ r ∈ rs, isSpace r = false) :
    ∀ cur : List Nat, wordsLoop rs cur = if cur ++ rs = [] then [] else [cur ++ rs] := by
  induction rs with
  | nil => intro cur; simp [wordsLoop]
  | cons r rs ih =>
    intro cur
    have hr := h r (List.mem_cons_self _ _)
    simp only [wordsLoop, hr, Bool.false_eq_true, if_false]
    rw [ih (fun x hx => h x (List.mem_cons_of_mem _ hx))]
    simp

theorem Join_words_of_no_space (rs : List Nat) (h : ∀ r ∈ rs, isSpace r = false) :
    Join (words rs) [32] = rs := by
  unfold words
  rw [wordsLoop_of_no_space rs h]
  cases rs <;> simp [Join]

theorem stripHTML_of_solid (s : GoString)
    (h : ∀ r ∈ rangeRunes s, isSpace r = false ∧ r ≠ 60 ∧ r ≠ 62) :
    stripHTML s = encodeAll (rangeRunes s) := by
  rw [stripHTML_eq, keepText_of_plain _ (fun r hr => (h r hr).2),
    Join_words_of_no_space _ (fun r hr => (h r hr).1)]

theorem encodeAll_ascii (rs : List Nat) (h : ∀ r ∈ rs, r < 0x80) : encodeAll rs = rs := by
  induction rs with
  | nil => rfl
  | cons r rs ih =>
    have hr : r ≤ 0x7F := by have := h r (List.mem_cons_self _ _); omega
    rw [encodeAll_cons, ih (fun x hx => h x (List.mem_cons_of_mem _ hx))]
    simp [encodeRune, hr]

theorem validRune_ascii (r : Nat) (h : r < 0x80) : validRune r := by
  unfold validRune; omega

theorem rangeRunes_ascii (s : GoString) (h : ∀ b ∈ s, b < 0x80) : rangeRunes s = s := by
  have := rangeRunes_encodeAll s (fun r hr => validRune_ascii r (h r hr))
  rwa [encodeAll_ascii s h] at this

theorem encodeAll_replicate_length (n r : Nat) :
    (encodeAll (List.replicate n r)).length = n * (encodeRune r).length := by
  induction n with
  | zero => simp [encodeAll]
  | succ n ih =>
    rw [List.replicate_succ, encodeAll_cons, List.length_append, ih]
    ring

theorem encodeAll_length_le (rs : List Nat) : (encodeAll rs).length ≤ 4 * rs.length := by
  induction rs with
  | nil => simp [encodeAll]
  | cons r rs ih =>
    rw [encodeAll_cons, List.length_append, List.length_cons]
    have := encodeRune_length_le r
    omega

theorem rangeRunes_length_le (s : GoString) : (rangeRunes s).length ≤ s.length := by
  induction s using range_induction with
  | nil => simp [rangeRunes, rangeFrom]
  | step b t ih =>
    obtain ⟨h1, h2⟩ := decodeRune_width b t
    unfold rangeRunes at ih ⊢
    rw [rangeFrom_cons, List.map_cons, List.length_cons]
    rw [List.length_drop] at ih
    omega

theorem keepText_length_le (rs : List Nat) :
    ∀ inTag : Bool, (keepText inTag rs).length ≤ rs.length := by
  induction rs with
  | nil => intro inTag; simp [keepText]
  | cons r rs ih =>
    intro inTag
    unfold keepText
    have h1 := ih true
    have h2 := ih false
    have h3 := ih inTag
    split_ifs <;> simp only [List.length_cons] <;> omega

theorem Join_wordsLoop_length_le (rs : List Nat) :
    ∀ cur : List Nat, (Join (wordsLoop rs cur) [32]).length ≤ cur.length + rs.length := by
  induction rs with
  | nil =>
    intro cur
    unfold wordsLoop
    split_ifs <;> simp [Join]
  | cons r rs ih =>
    intro cur
    unfold wordsLoop
    cases isSpace r with
    | false =>
      have := ih (cur ++ [r])
      simp only [Bool.false_eq_true, if_false, List.length_cons]
      simp only [List.length_append, List.length_singleton] at this
      omega
    | true =>
      have h0 := ih []
      simp only [List.length_nil, Nat.zero_add] at h0
      simp only [if_true, List.length_cons]
      split_ifs
      · omega
      · cases hw : wordsLoop rs [] with
        | nil => simp [Join]
        | cons w ws =>
          rw [hw] at h0
          simp only [Join, List.length_append, List.length_singleton]
          omega

theorem stripHTML_runes_le (s : GoString) :
    (rangeRunes (stripHTML s)).length ≤ s.length ∧ (stripHTML s).length ≤ 4 * s.length := by
  have hJ : (Join (words (keepText false (rangeRunes s))) [32]).length ≤ s.length := by
    have h1 := Join_wordsLoop_length_le (keepText false (rangeRunes s)) []
    have h2 := keepText_length_le (rangeRunes s) false
    have h3 := rangeRunes_length_le s
    unfold words
    simp only [List.length_nil, Nat.zero_add] at h1
    omega
  rw [stripHTML_eq]
  constructor
  · rw [rangeRunes_encodeAll _ (Join_words_valid _ (keepText_valid s false))]
    exact hJ
  · have := encodeAll_length_le (Join (words (keepText false (rangeRunes s))) [32])
    omega
theorem minutes_eq (w : Nat) : minutes w = max 1 ((w / 200 : Nat) : Int) := by
  unfold minutes
  have hmono : Monotone (Int.floor : ℚ → ℤ) := Int.floor_mono
  rw [hmono.map_max, Int.floor_one]
  congr 1
  have := Rat.floor_intCast_div_natCast (w : ℤ) 200
  simpa using this

theorem minutes_pos (w : Nat) : 1 ≤ minutes w := by
  rw [minutes_eq]
  exact le_max_left _ _

/-! ## C6: the normalizer and its specification -/

/-- C6 (as stated, refuted): on `"a>b"` the specified normalizer deletes nothing, since there is
no `<`, but `stripHTML` drops the `>`. -/
theorem stripHTML_drops_stray_gt :
    stripHTML (lit "a>b") = lit "ab" ∧ specStripHTML (lit "a>b") = lit "a>b" ∧
      stripHTML (lit "a>b") ≠ specStripHTML (lit "a>b") := by
  have h1 : stripHTML (lit "a>b") = lit "ab" := by decide
  have hr : rangeRunes (lit "a>b") = [97, 62, 98] := by decide
  have h2 : specStripHTML (lit "a>b") = lit "a>b" := by
    have hd : specDeleteSpans [97, 62, 98] = [97, 62, 98] := by
      simp [specDeleteSpans_cons, specDeleteSpans_nil]
    have hc : specCollapse [97, 62, 98] = [97, 62, 98] := by
      simp [specCollapse_cons, specCollapse_nil, isSpace]
    unfold specStripHTML
    rw [hr, hd, hc]
    decide
  refine ⟨h1, h2, ?_⟩
  rw [h1, h2]
  decide

/-- C6 (amended): for every string `s`, read as Go reads it (a sequence of runes, an invalid byte
being U+FFFD), `stripHTML s` is the result of (1) deleting every stretch from a `<` through the
next `>` (through the end when no `>` follows) and every `>` left outside such a stretch, (2)
replacing every run of white space by one space, (3) trimming white space at both ends. -/
theorem stripHTML_eq_spec (s : GoString) :
    stripHTML s = encodeAll (trimRunes (specCollapse
      ((specDeleteSpans (rangeRunes s)).filter (fun r => r ≠ 62)))) := by
  rw [stripHTML_eq, keepText_eq_spec, trimRunes_specCollapse]

/-! ## C7, C8: plain text and unterminated tags -/

theorem Join_words_clean (rs : List Nat) :
    (∀ r ∈ rs, isSpace r = true → r = 32) →
    noAdjacentSpaces rs = true →
    (∀ b ∈ rs.getLast?, isSpace b = false) →
    (∀ cur : List Nat, cur ≠ [] → Join (wordsLoop rs cur) [32] = cur ++ rs) ∧
      ((∀ a ∈ rs.head?, isSpace a = false) →
        Join (wordsLoop rs []) [32] = rs ∧ (rs ≠ [] → wordsLoop rs [] ≠ [])) := by
  induction rs with
  | nil =>
    intro _ _ _
    refine ⟨fun cur hc => by simp [wordsLoop, hc, Join], fun _ => by simp [wordsLoop, Join]⟩
  | cons r rs ih =>
    intro h32 hch hlast
    have hlast' : ∀ b ∈ rs.getLast?, isSpace b = false := by
      intro b hb
      cases rs with
      | nil => simp at hb
      | cons a t =>
        apply hlast b
        rw [List.getLast?_cons_cons]
        exact hb
    have hch' : noAdjacentSpaces rs = true := by
      cases rs with
      | nil => rfl
      | cons a t =>
        simp only [noAdjacentSpaces, Bool.and_eq_true] at hch
        exact hch.2
    obtain ⟨ihA, ihB⟩ := ih (fun x hx => h32 x (List.mem_cons_of_mem _ hx)) hch' hlast'
    constructor
    · intro cur hc
      cases hsp : isSpace r with
      | false =>
        simp only [wordsLoop, hsp, Bool.false_eq_true, if_false]
        rw [ihA (cur ++ [r]) (by simp)]
        simp
      | true =>
        have hr : r = 32 := h32 r (List.mem_cons_self _ _) hsp
        simp only [wordsLoop, hsp, if_true, hc, if_false]
        cases rs with
        | nil =>
          have := hlast r (by simp)
          rw [hsp] at this
          exact Bool.noConfusion this
        | cons a t =>
          have ha : isSpace a = false := by
            simp only [noAdjacentSpaces, Bool.and_eq_true, hsp, Bool.true_and,
              Bool.not_eq_true'] at hch
            exact hch.1
          obtain ⟨hj, hne⟩ := ihB (fun x hx => by
            simp only [List.head?_cons, Option.mem_def, Option.some.injEq] at hx
            rw [← hx]; exact ha)
          rw [Join_cons_of_ne_nil _ _ _ (hne (by simp)), hj, hr]
          simp
    · intro hhead
      have hr : isSpace r = false := hhead r (by simp)
      simp only [wordsLoop, hr, Bool.false_eq_true, if_false, List.nil_append]
      exact ⟨by rw [ihA [r] (by simp)]; rfl, fun _ => wordsLoop_ne_nil rs [r] (by simp)⟩

theorem rangeRunes_plain (s : GoString) (hlt : 60 ∉ s) (hgt : 62 ∉ s) :
    ∀ r ∈ rangeRunes s, r ≠ 60 ∧ r ≠ 62 := by
  intro r hr
  constructor
  · intro h
    exact hlt (h ▸ rangeRunes_ascii_mem s r hr (by omega))
  · intro h
    exact hgt (h ▸ rangeRunes_ascii_mem s r hr (by omega))

/-- C7 (as stated, refuted): the one-byte string `0xFF` has no `<`, no `>` and no white space,
and `strings.Fields` and `strings.Join` return it as it is, but `stripHTML` returns the three
bytes of U+FFFD: the loop `for _, r := range s` reads a byte that is not part of a valid UTF-8
encoding as U+FFFD and `WriteRune` writes that. -/
theorem stripHTML_rewrites_invalid :
    stripHTML [0xFF] = [0xEF, 0xBF, 0xBD] ∧
      Join (Fields [0xFF]) (lit " ") = [0xFF] ∧
      60 ∉ [0xFF] ∧ 62 ∉ [0xFF] ∧
      (∀ r ∈ rangeRunes [0xFF], isSpace r = false) ∧
      stripHTML [0xFF] ≠ [0xFF] ∧
      ValidString [0xFF] = false := by
  refine ⟨by decide, by decide, by decide, by decide, by decide, by decide, by decide⟩

/-- C7 (amended): for every valid UTF-8 text `s` with no `<` and no `>`, `stripHTML s` is the
words of `s` (`strings.Fields`) joined by single spaces; and when the only white space of `s` is
single plain spaces between words (every white-space character is U+0020, no two are adjacent,
none is first or last), `stripHTML s = s`. -/
theorem stripHTML_plain (s : GoString) (hvalid : ValidString s = true) (hlt : 60 ∉ s)
    (hgt : 62 ∉ s) :
    stripHTML s = Join (Fields s) (lit " ") ∧
    ((∀ r ∈ rangeRunes s, isSpace r = true → r = 32) →
      noAdjacentSpaces (rangeRunes s) = true →
      (∀ a ∈ (rangeRunes s).head?, isSpace a = false) →
      (∀ b ∈ (rangeRunes s).getLast?, isSpace b = false) →
      stripHTML s = s) := by
  have hkeep : keepText false (rangeRunes s) = rangeRunes s :=
    keepText_of_plain _ (rangeRunes_plain s hlt hgt)
  have henc := encodeAll_rangeRunes s hvalid
  have hs : stripHTML s = encodeAll (Join (words (rangeRunes s)) [32]) := by
    rw [stripHTML_eq, hkeep]
  constructor
  · rw [hs, ← Join_encodeAll, ← Fields_encodeAll _ (rangeRunes_valid s), henc, lit_space]
  · intro h32 hch hhead hlast
    rw [hs]
    unfold words
    rw [((Join_words_clean (rangeRunes s) h32 hch hlast).2 hhead).1, henc]

/-- C7 at a concrete text: `"héllo wörld x"` is returned unchanged. -/
theorem stripHTML_plain_witness :
    stripHTML (lit "héllo wörld x") = lit "héllo wörld x" :=
  (stripHTML_plain (lit "héllo wörld x") (by decide) (by decide) (by decide)).2
    (by decide) (by decide) (by decide) (by decide)

/-- C8: `stripHTML` is a total function, and everything after an opening `<` that is never
closed is dropped: when `q` has no `>`, `stripHTML (p ++ "<" ++ q) = stripHTML p`. -/
theorem stripHTML_unterminated (p q : GoString) (hq : 62 ∉ q) :
    (∃ out, stripHTML (p ++ lit "<" ++ q) = out) ∧
      stripHTML (p ++ lit "<" ++ q) = stripHTML p := by
  refine ⟨⟨_, rfl⟩, ?_⟩
  have hl : lit "<" = [60] := by decide
  have hrq : 62 ∉ rangeRunes q := fun h => hq (rangeRunes_ascii_mem q 62 h (by omega))
  rw [stripHTML_eq, stripHTML_eq, hl, List.append_assoc, List.singleton_append,
    rangeRunes_append_ascii 60 q (by omega) p, keepText_append_open _ hrq]

/-- C8 at a concrete input, with broken UTF-8 before the unterminated tag. -/
theorem stripHTML_unterminated_witness :
    stripHTML ([97, 32, 0xE2, 0x82] ++ lit "<" ++ lit "b <i c") = stripHTML [97, 32, 0xE2, 0x82] :=
  (stripHTML_unterminated [97, 32, 0xE2, 0x82] (lit "b <i c") (by decide)).2

/-- C1 at a concrete feed with a repeated link: the second run leaves the articles alone. -/
theorem FetchSource_idempotent_witness :
    (FetchSource demoEnv 1 (lit "src") (lit "http://feed") none
        (FetchSource demoEnv 1 (lit "src") (lit "http://feed") none demoWorld).1).1.articles =
      (FetchSource demoEnv 1 (lit "src") (lit "http://feed") none demoWorld).1.articles :=
  (FetchSource_idempotent demoEnv demoEnv 1 (lit "src") (lit "http://feed") none demoWorld
    demoFeed rfl rfl (fun _ => rfl) (fun _ => rfl) (by decide)).2.2.1

/-! ## C3: the last-fetch timestamp -/

theorem processItem_sources (env : FetchEnv) (sourceID : UUID) (sourceName : GoString) (i : Nat)
    (item : Item) (w : World) :
    (processItem env sourceID sourceName i item w).sources = w.sources := by
  unfold processItem
  cases env.existsErr i with
  | some e => rfl
  | none =>
    cases h : articleExists w.articles item.link with
    | true => simp [emit_articles, emit_sources, h]
    | false =>
      cases env.insertErr i with
      | some e => simp [emit_articles, emit_sources, h]
      | none => simp [emit_articles, emit_sources, h]

theorem processItems_sources (env : FetchEnv) (sourceID : UUID) (sourceName : GoString)
    (items : List Item) :
    ∀ (i : Nat) (w : World), (processItems env sourceID sourceName i items w).sources = w.sources := by
  induction items with
  | nil => intro i w; rfl
  | cons item rest ih =>
    intro i w
    show (processItems env sourceID sourceName (i + 1) rest _).sources = _
    rw [ih, processItem_sources]

/-- C3 (as stated, refuted): when the feed cannot be fetched, `FetchSource` returns the error
and the source is left as it was, never fetched; no `UPDATE` is issued. -/
theorem FetchSource_broken_feed_not_marked :
    (FetchSource brokenFeedEnv 1 (lit "src") (lit "http://feed") none demoWorld).2
        = some "unreachable" ∧
      (FetchSource brokenFeedEnv 1 (lit "src") (lit "http://feed") none demoWorld).1.sources
        = demoWorld.sources ∧
      Event.updateExec 1 ∉
        (FetchSource brokenFeedEnv 1 (lit "src") (lit "http://feed") none demoWorld).1.trace := by
  refine ⟨rfl, rfl, ?_⟩
  decide

/-- C3 (amended): when the feed is fetched and parsed, whatever the existence checks and inserts
of its entries do, the last thing `FetchSource` does is to issue the `UPDATE` of the source's
`last_fetched_at`, and when that statement succeeds the source rows are those of before with
`last_fetched_at = NOW()` on the rows of this source; when the feed cannot be fetched or parsed,
`FetchSource` returns that error and issues nothing after `ParseURL`. -/
theorem FetchSource_marks_fetched (env : FetchEnv) (sourceID : UUID)
    (sourceName sourceURL : GoString) (faviconURL : Option GoString) (w : World) :
    (∀ items, env.feed = .ok items →
      (FetchSource env sourceID sourceName sourceURL faviconURL w).1.trace.getLast?
          = some (Event.updateExec sourceID) ∧
        (FetchSource env sourceID sourceName sourceURL faviconURL w).2 = env.updateErr ∧
        (env.updateErr = none →
          (FetchSource env sourceID sourceName sourceURL faviconURL w).1.sources
            = markFetched w.sources sourceID env.now)) ∧
    (∀ err, env.feed = .error err →
      FetchSource env sourceID sourceName sourceURL faviconURL w
        = (w.emit (Event.parseURL sourceURL), some err)) := by
  constructor
  · intro items h
    unfold FetchSource
    simp only [h]
    cases hu : env.updateErr with
    | some err => simp [emit_trace]
    | none => simp [emit_trace, emit_sources, processItems_sources]
  · intro err h
    unfold FetchSource
    simp only [h]

/-- C3 (amended) at a concrete run: the source of the demo store is marked at time 7. -/
theorem FetchSource_marks_fetched_witness :
    (FetchSource demoEnv 1 (lit "src") (lit "http://feed") none demoWorld).1.sources
      = markFetched demoWorld.sources 1 7 :=
  ((FetchSource_marks_fetched demoEnv 1 (lit "src") (lit "http://feed") none demoWorld).1
    demoFeed rfl).2.2 rfl

/-! ## C4, C5: the reading time -/

theorem words_Repeat (n : Nat) :
    words (Repeat [119, 32] n) = List.replicate n [119] := by
  have key : ∀ rs : List Nat, wordsLoop ([119, 32] ++ rs) [] = [119] :: wordsLoop rs [] := by
    intro rs
    simp [wordsLoop, isSpace]
  induction n with
  | zero => rfl
  | succ n ih =>
    unfold words Repeat at ih ⊢
    rw [List.replicate_succ, List.flatten_cons, key, ih]
    rfl

theorem Repeat_ascii (s : GoString) (h : ∀ b ∈ s, b < 0x80) (n : Nat) :
    ∀ b ∈ Repeat s n, b < 0x80 := by
  intro b hb
  unfold Repeat at hb
  obtain ⟨l, hl, hbl⟩ := List.mem_flatten.mp hb
  rw [List.eq_of_mem_replicate hl] at hbl
  exact h b hbl

theorem Fields_ascii (s : GoString) (h : ∀ b ∈ s, b < 0x80) :
    Fields s = words s := by
  have h1 := Fields_encodeAll s (fun r hr => validRune_ascii r (h r hr))
  rw [encodeAll_ascii s h] at h1
  rw [h1]
  have hw : ∀ w ∈ words s, encodeAll w = w := by
    intro w hw
    exact encodeAll_ascii w (fun r hr => h r ((words_mem s w hw).2 r hr).1)
  rw [List.map_congr_left hw, List.map_id']

theorem wordCount_Repeat (link : GoString) (n : Nat) (hn : n ≠ 0) :
    wordCount (entry link [] (Repeat (lit "w ") n)) = n := by
  have hl : lit "w " = [119, 32] := by decide
  have hf : (Fields (Repeat [119, 32] n)).length = n := by
    rw [Fields_ascii _ (Repeat_ascii [119, 32] (by decide) n), words_Repeat]
    simp
  unfold wordCount entry
  simp only [hl, hf, hn, if_false]

/-- C4 (as stated, refuted): an entry whose content has 300 words is stored with a reading time
of 1 minute, while `max(1, round(300/200))` is 2. -/
theorem readingTime_truncates :
    wordCount (entry (lit "a") [] (Repeat (lit "w ") 300)) = 300 ∧
      (articleOf 1 (lit "src") (entry (lit "a") [] (Repeat (lit "w ") 300))).readingTimeMinutes
        = 1 ∧
      specMinutes 300 = 2 := by
  have hw := wordCount_Repeat (lit "a") 300 (by decide)
  refine ⟨hw, ?_, ?_⟩
  · show minutes (wordCount _) = 1
    rw [hw, minutes_eq]
    decide
  · unfold specMinutes
    have h : round ((300 : ℕ) / 200 : ℚ) = 2 := by
      rw [round_eq]
      norm_num [Int.floor_eq_iff]
    rw [h]
    rfl

/-- C4 (amended): for every feed entry, with `w` the number of words counted (those of the
content, or of the cleaned description when the content has none), the reading time
`FetchSource` stores is `max(1, floor(w/200))`: the quotient is truncated, not rounded to the
nearest integer. -/
theorem readingTime_eq_floor (sourceID : UUID) (sourceName : GoString) (item : Item) :
    (articleOf sourceID sourceName item).readingTimeMinutes
      = max 1 ((wordCount item / 200 : Nat) : Int) :=
  minutes_eq (wordCount item)

/-- C5: the reading time `FetchSource` stores for an entry and the reading time `CreateArticle`
computes for a request (with or without a description) are integers that are at least 1. -/
theorem readingTime_pos (sourceID : UUID) (sourceName : GoString) (item : Item)
    (requestDescription : Option GoString) :
    1 ≤ (articleOf sourceID sourceName item).readingTimeMinutes ∧
      1 ≤ createArticleReadingTime requestDescription := by
  constructor
  · exact minutes_pos (wordCount item)
  · cases requestDescription with
    | none => decide
    | some d => exact minutes_pos _

/-! ## C9, C10: the stored description -/

theorem Repeat_euro (n : Nat) :
    Repeat (lit "€") n = encodeAll (List.replicate n 0x20AC) := by
  have hl : lit "€" = [0xE2, 0x82, 0xAC] := by decide
  induction n with
  | zero => rfl
  | succ n ih =>
    unfold Repeat at ih ⊢
    rw [List.replicate_succ, List.flatten_cons, ih, List.replicate_succ, encodeAll_cons, hl]
    rfl

theorem euro_content :
    Repeat (lit "€") 167 = encodeAll (List.replicate 166 0x20AC) ++ [0xE2, 0x82, 0xAC] := by
  have h2 : List.replicate 167 0x20AC = List.replicate 166 0x20AC ++ [0x20AC] :=
    List.replicate_succ' 166 0x20AC
  rw [Repeat_euro 167, h2, encodeAll_append]
  rfl

/-- C9 (the code at the failing input): for an entry without description whose content is 167
times `"€"` (167 characters, 501 bytes), `FetchSource` cuts the content after 500 bytes, in the
middle of the last character, and stores 166 times `"€"`, two U+FFFD and `"..."`; the description
of the specification is the content itself, which has fewer than 500 characters. -/
theorem description_cuts_bytes :
    description (entry (lit "a") [] (Repeat (lit "€") 167))
        = Repeat (lit "€") 166 ++ lit "��..." ∧
      stripHTML (specRawDescription (entry (lit "a") [] (Repeat (lit "€") 167)))
        = Repeat (lit "€") 167 ∧
      description (entry (lit "a") [] (Repeat (lit "€") 167))
        ≠ stripHTML (specRawDescription (entry (lit "a") [] (Repeat (lit "€") 167))) := by
  have hvalid : ∀ n, ∀ r ∈ List.replicate n 0x20AC, validRune r := by
    intro n r hr
    rw [List.eq_of_mem_replicate hr]
    decide
  have hlen : (encodeAll (List.replicate 166 0x20AC)).length = 498 := by
    rw [encodeAll_replicate_length]
    rfl
  have hdots : lit "..." = [46, 46, 46] := by decide
  have htail : lit "��..." = encodeAll [0xFFFD, 0xFFFD, 46, 46, 46] := by decide
  have h166 := Repeat_euro 166
  -- what the code stores
  have hraw : rawDescription (entry (lit "a") [] (Repeat (lit "€") 167))
      = encodeAll (List.replicate 166 0x20AC) ++ [0xE2, 0x82, 46, 46, 46] := by
    unfold rawDescription entry
    simp only [euro_content, hdots]
    have hne : encodeAll (List.replicate 166 0x20AC) ++ [0xE2, 0x82, 0xAC] ≠ [] := by simp
    have hgt : (encodeAll (List.replicate 166 0x20AC) ++ [0xE2, 0x82, 0xAC]).length > 500 := by
      rw [List.length_append, hlen]
      decide
    rw [if_pos ⟨trivial, hne⟩, if_pos hgt]
    have h500 : 500 = (encodeAll (List.replicate 166 0x20AC)).length + 2 := by rw [hlen]
    rw [h500, List.take_append]
    simp
  have hrunes : rangeRunes (encodeAll (List.replicate 166 0x20AC) ++ [0xE2, 0x82, 46, 46, 46])
      = List.replicate 166 0x20AC ++ [0xFFFD, 0xFFFD, 46, 46, 46] := by
    unfold rangeRunes
    rw [rangeFrom_encodeAll _ _ (hvalid 166), List.map_append, List.map_map]
    have h1 : List.map (Prod.fst ∘ fun r => (r, encodeRune r)) (List.replicate 166 0x20AC)
        = List.replicate 166 0x20AC := by
      rw [List.map_replicate]
      rfl
    have h2 : List.map Prod.fst (rangeFrom 0 [0xE2, 0x82, 46, 46, 46])
        = [0xFFFD, 0xFFFD, 46, 46, 46] := by decide
    rw [h1, h2]
  have hcode : description (entry (lit "a") [] (Repeat (lit "€") 167))
      = Repeat (lit "€") 166 ++ lit "��..." := by
    unfold description
    rw [hraw, stripHTML_of_solid, hrunes, encodeAll_append, h166, htail]
    rw [hrunes]
    intro r hr
    rcases List.mem_append.mp hr with h | h
    · rw [List.eq_of_mem_replicate h]
      decide
    · have hall : ∀ x ∈ [0xFFFD, 0xFFFD, 46, 46, 46],
          isSpace x = false ∧ x ≠ 60 ∧ x ≠ 62 := by decide
      exact hall r h
  -- what the specification describes
  have hrunes2 : rangeRunes (Repeat (lit "€") 167) = List.replicate 167 0x20AC := by
    have h2 : List.replicate 167 0x20AC = List.replicate 166 0x20AC ++ [0x20AC] :=
      List.replicate_succ' 166 0x20AC
    have h3 : encodeAll (List.replicate 166 0x20AC) ++ [0xE2, 0x82, 0xAC]
        = encodeAll (List.replicate 167 0x20AC) := by
      rw [h2, encodeAll_append]
      rfl
    rw [euro_content, h3, rangeRunes_encodeAll _ (hvalid 167)]
  have hspec : stripHTML (specRawDescription (entry (lit "a") [] (Repeat (lit "€") 167)))
      = Repeat (lit "€") 167 := by
    have hsraw : specRawDescription (entry (lit "a") [] (Repeat (lit "€") 167))
        = Repeat (lit "€") 167 := by
      unfold specRawDescription entry
      simp only [hrunes2, List.length_replicate]
      simp
    rw [hsraw, stripHTML_of_solid, hrunes2]
    · have h2 : List.replicate 167 0x20AC = List.replicate 166 0x20AC ++ [0x20AC] :=
        List.replicate_succ' 166 0x20AC
      rw [euro_content, h2, encodeAll_append]
      rfl
    · rw [hrunes2]
      intro r hr
      rw [List.eq_of_mem_replicate hr]
      decide
  refine ⟨hcode, hspec, ?_⟩
  rw [hcode, hspec]
  intro h
  have hl := congrArg List.length h
  rw [h166, euro_content, List.length_append, List.length_append, hlen] at hl
  revert hl
  decide

theorem stripHTML_Repeat_a (n : Nat) : stripHTML (Repeat [97] n) = Repeat [97] n := by
  have hascii : ∀ b ∈ Repeat [97] n, b < 0x80 := Repeat_ascii [97] (by decide) n
  have hr := rangeRunes_ascii _ hascii
  rw [stripHTML_of_solid, hr, encodeAll_ascii _ hascii]
  rw [hr]
  intro r h
  unfold Repeat at h
  obtain ⟨l, hl, hrl⟩ := List.mem_flatten.mp h
  rw [List.eq_of_mem_replicate hl, List.mem_singleton] at hrl
  rw [hrl]
  decide

/-- C10 (as stated, refuted): no bound holds for every entry, since an entry whose description
is `n` times `"a"` is stored with that description, `n` bytes long. -/
theorem description_unbounded :
    ¬ ∃ B : Nat, ∀ item : Item, (description item).length ≤ B := by
  rintro ⟨B, h⟩
  have hB := h (entry (lit "a") (Repeat [97] (B + 1)) [])
  have hraw : rawDescription (entry (lit "a") (Repeat [97] (B + 1)) []) = Repeat [97] (B + 1) := by
    unfold rawDescription entry
    simp
  unfold description at hB
  rw [hraw, stripHTML_Repeat_a] at hB
  simp [Repeat] at hB

/-- C10 (amended): when the entry has no description, the description `FetchSource` stores (the
cleaned content, cut to 500 bytes plus `"..."`) has at most 503 characters and at most 2012
bytes; a description the entry brings itself is stored cleaned but is not cut. -/
theorem description_bounded_of_fallback (item : Item) (h : item.description = []) :
    (rangeRunes (description item)).length ≤ 503 ∧ (description item).length ≤ 2012 := by
  have hdots : (lit "...").length = 3 := by decide
  have hraw : (rawDescription item).length ≤ 503 := by
    unfold rawDescription
    split_ifs with h1 h2
    · rw [List.length_append, List.length_take, hdots]
      omega
    · omega
    · rw [h]; simp
  obtain ⟨h1, h2⟩ := stripHTML_runes_le (rawDescription item)
  unfold description
  constructor <;> omega

/-- C10 (amended) at a concrete entry: a content of 1000 letters and no description. -/
theorem description_bounded_of_fallback_witness :
    (rangeRunes (description (entry (lit "a") [] (Repeat [97] 1000)))).length ≤ 503 ∧
      (description (entry (lit "a") [] (Repeat [97] 1000))).length ≤ 2012 :=
  description_bounded_of_fallback (entry (lit "a") [] (Repeat [97] 1000)) rfl

/-! ## C11: the image of an entry -/

theorem enclosureImage_eq_find (enclosures : List Enclosure) :
    enclosureImage enclosures = firstEnclosureWithPrefix (lit "image/") enclosures := by
  induction enclosures with
  | nil => rfl
  | cons e rest ih =>
    unfold enclosureImage firstEnclosureWithPrefix
    cases h : HasPrefix e.typ (lit "image/") with
    | true => simp [List.find?, h]
    | false =>
      simp only [Bool.false_eq_true, if_false, List.find?, h]
      exact ih

/-- C11 (as stated, refuted): an entry without image whose only enclosure has the type `"image"`
(no subtype) is stored without image URL, although that type has the prefix `"image"`. -/
theorem imageURL_needs_slash :
    imageURL { entry (lit "a") [] [] with
        enclosures := [{ url := lit "http://img", typ := lit "image" }] } = none ∧
      specImageURL { entry (lit "a") [] [] with
        enclosures := [{ url := lit "http://img", typ := lit "image" }] }
        = some (lit "http://img") := by
  constructor <;> decide

/-- C11 (amended): for every feed entry, the image URL `FetchSource` stores is the entry-level
image URL when the entry has an image with a non-empty URL; otherwise the URL of the first
enclosure, in list order, whose declared type starts with the prefix `"image/"` (with the
slash); otherwise none. -/
theorem imageURL_eq (sourceID : UUID) (sourceName : GoString) (item : Item) :
    (articleOf sourceID sourceName item).imageURL = imageURLWithPrefix (lit "image/") item := by
  show imageURL item = _
  unfold imageURL imageURLWithPrefix
  cases himg : item.image with
  | none =>
    cases henc : item.enclosures with
    | nil => rfl
    | cons e rest => simp [enclosureImage_eq_find]
  | some img =>
    by_cases hurl : img.url = []
    · cases henc : item.enclosures with
      | nil => simp [hurl, firstEnclosureWithPrefix]
      | cons e rest => simp [hurl, enclosureImage_eq_find]
    · simp [hurl]

/-! ## C12: every entry of a feed is visited -/

theorem queried_emit (w : World) (e : Event) :
    (w.emit e).queried = w.queried ++ (match e with
      | Event.existsQuery link => [link]
      | _ => []) := by
  unfold World.queried World.emit
  cases e <;> simp [List.filterMap_append]

theorem processItem_queried (env : FetchEnv) (sourceID : UUID) (sourceName : GoString) (i : Nat)
    (item : Item) (w : World) :
    (processItem env sourceID sourceName i item w).queried = w.queried ++ [item.link] := by
  have hset : ∀ (v : World) (l : List ArticleRow), ({ v with articles := l } : World).queried
      = v.queried := fun _ _ => rfl
  unfold processItem
  cases env.existsErr i with
  | some e => simp [queried_emit]
  | none =>
    cases h : articleExists w.articles item.link with
    | true => simp [queried_emit, emit_articles, h]
    | false =>
      cases env.insertErr i with
      | some e => simp [queried_emit, emit_articles, h]
      | none =>
        simp only [emit_articles, h, Bool.false_eq_true, if_false]
        rw [hset]
        simp [queried_emit]

theorem processItems_queried (env : FetchEnv) (sourceID : UUID) (sourceName : GoString)
    (items : List Item) :
    ∀ (i : Nat) (w : World),
      (processItems env sourceID sourceName i items w).queried
        = w.queried ++ items.map (fun item => item.link) := by
  induction items with
  | nil => intro i w; simp [processItems]
  | cons item rest ih =>
    intro i w
    show (processItems env sourceID sourceName (i + 1) rest _).queried = _
    rw [ih, processItem_queried]
    simp

/-- C12: when the feed is fetched, `FetchSource` looks up every entry, in feed order, whatever
the checks and inserts of the earlier entries did, and the error it returns is that of the
`last_fetched_at` update (nil when the update succeeds), never one of an entry; when the feed
cannot be fetched it returns that error. For one entry: when the existence check fails or finds
the URL, nothing but the check happens (no insert, no log line); when the insert fails, the
error is logged with the title and the store is left as it was. -/
theorem FetchSource_visits_every_entry (env : FetchEnv) (sourceID : UUID)
    (sourceName sourceURL : GoString) (faviconURL : Option GoString) (w : World) :
    (∀ items, env.feed = .ok items →
      (FetchSource env sourceID sourceName sourceURL faviconURL w).1.queried
          = w.queried ++ items.map (fun item => item.link) ∧
        (FetchSource env sourceID sourceName sourceURL faviconURL w).2 = env.updateErr) ∧
    (∀ err, env.feed = .error err →
      (FetchSource env sourceID sourceName sourceURL faviconURL w).2 = some err) ∧
    (∀ (i : Nat) (item : Item) (v : World),
      (env.existsErr i ≠ none ∨ articleExists v.articles item.link = true) →
      processItem env sourceID sourceName i item v = v.emit (Event.existsQuery item.link)) ∧
    (∀ (i : Nat) (item : Item) (v : World) (err : Error),
      env.existsErr i = none → articleExists v.articles item.link = false →
      env.insertErr i = some err →
      processItem env sourceID sourceName i item v =
        ((v.emit (Event.existsQuery item.link)).emit
          (Event.insertExec (articleOf sourceID sourceName item))).emit
            (Event.logInsertError item.title err)) := by
  have hset : ∀ (v : World) (l : List SourceRow), ({ v with sources := l } : World).queried
      = v.queried := fun _ _ => rfl
  refine ⟨?_, ?_, ?_, ?_⟩
  · intro items h
    unfold FetchSource
    simp only [h]
    cases hu : env.updateErr with
    | some err => simp [queried_emit, processItems_queried]
    | none => simp [queried_emit, processItems_queried, hset]
  · intro err h
    unfold FetchSource
    simp only [h]
  · intro i item v h
    unfold processItem
    cases he : env.existsErr i with
    | some e => rfl
    | none =>
      rcases h with h | h
      · exact absurd he h
      · simp [emit_articles, h]
  · intro i item v err h1 h2 h3
    unfold processItem
    simp [h1, h2, h3, emit_articles]

/-! ## C13: pagination parameters -/

theorem wrap64_of_range (x : Int) (h1 : -9223372036854775808 ≤ x) (h2 : x < 9223372036854775808) :
    wrap64 x = x := by
  unfold wrap64
  omega

/-- The pagination both listing handlers compute, for every pair of raw query values: the same
at both call sites, the page and page size clamped as specified, and the offset the product
`(page - 1) * page_size` in 64-bit arithmetic, which is the product itself as long as that is
below `2^63`. -/
theorem pagination_clamped (rawPage rawPageSize : GoString) :
    getBookmarksPagination rawPage rawPageSize = getArticlesPagination rawPage rawPageSize ∧
    (getArticlesPagination rawPage rawPageSize).page
      = (if Atoi (Query rawPage (lit "1")) < 1 then 1 else Atoi (Query rawPage (lit "1"))) ∧
    (getArticlesPagination rawPage rawPageSize).pageSize
      = (if Atoi (Query rawPageSize (lit "20")) < 1 ∨ Atoi (Query rawPageSize (lit "20")) > 50
          then 20 else Atoi (Query rawPageSize (lit "20"))) ∧
    1 ≤ (getArticlesPagination rawPage rawPageSize).page ∧
    1 ≤ (getArticlesPagination rawPage rawPageSize).pageSize ∧
    (getArticlesPagination rawPage rawPageSize).pageSize ≤ 50 ∧
    (getArticlesPagination rawPage rawPageSize).offset
      = wrap64 (((getArticlesPagination rawPage rawPageSize).page - 1)
          * (getArticlesPagination rawPage rawPageSize).pageSize) ∧
    (((getArticlesPagination rawPage rawPageSize).page - 1)
        * (getArticlesPagination rawPage rawPageSize).pageSize < 9223372036854775808 →
      (getArticlesPagination rawPage rawPageSize).offset
        = ((getArticlesPagination rawPage rawPageSize).page - 1)
          * (getArticlesPagination rawPage rawPageSize).pageSize) := by
  have hp : 1 ≤ (getArticlesPagination rawPage rawPageSize).page := by
    show 1 ≤ (if Atoi (Query rawPage (lit "1")) < 1 then 1 else Atoi (Query rawPage (lit "1")))
    split_ifs <;> omega
  have hs : 1 ≤ (getArticlesPagination rawPage rawPageSize).pageSize ∧
      (getArticlesPagination rawPage rawPageSize).pageSize ≤ 50 := by
    show 1 ≤ (if Atoi (Query rawPageSize (lit "20")) < 1 ∨ Atoi (Query rawPageSize (lit "20")) > 50
        then 20 else Atoi (Query rawPageSize (lit "20"))) ∧
      (if Atoi (Query rawPageSize (lit "20")) < 1 ∨ Atoi (Query rawPageSize (lit "20")) > 50
        then 20 else Atoi (Query rawPageSize (lit "20"))) ≤ 50
    split_ifs <;> omega
  refine ⟨rfl, rfl, rfl, hp, hs.1, hs.2, rfl, ?_⟩
  intro h
  show wrap64 _ = _
  apply wrap64_of_range _ _ h
  have h0 : 0 ≤ ((getArticlesPagination rawPage rawPageSize).page - 1)
      * (getArticlesPagination rawPage rawPageSize).pageSize :=
    Int.mul_nonneg (by omega) (by omega)
  omega

/-- C13 (the code at the failing input): for `page=9223372036854775807` (the largest `int`) and
the default page size, both handlers compute page 9223372036854775807, page size 20 and the
offset -40: the multiplication `(page - 1) * pageSize` wraps, so the offset is negative and is
not the product. -/
theorem pagination_offset_wraps :
    getArticlesPagination (lit "9223372036854775807") []
        = { page := 9223372036854775807, pageSize := 20, offset := -40 } ∧
      getBookmarksPagination (lit "9223372036854775807") []
        = { page := 9223372036854775807, pageSize := 20, offset := -40 } ∧
      (getArticlesPagination (lit "9223372036854775807") []).offset
        ≠ ((getArticlesPagination (lit "9223372036854775807") []).page - 1)
          * (getArticlesPagination (lit "9223372036854775807") []).pageSize := by
  refine ⟨by decide, by decide, by decide⟩

/-! ## C15: the trending score -/

/-- C15: the trending score `u / (h + 1)` depends on the upvotes and the creation time only; for
upvotes `u ≥ 0` and ages `0 ≤ h1 < h2` it does not grow with the age, and falls when `u > 0`;
for an age `h ≥ 0` it grows with the upvotes. -/
theorem trendingScore_monotone (u u1 u2 : Int) (h h1 h2 : ℚ) (hu : 0 ≤ u) (hh1 : 0 ≤ h1)
    (hlt : h1 < h2) (hh : 0 ≤ h) (hul : u1 < u2) :
    trendingScore u h2 ≤ trendingScore u h1 ∧
      (0 < u → trendingScore u h2 < trendingScore u h1) ∧
      trendingScore u1 h < trendingScore u2 h ∧
      (∀ (now : Time) (a b : StoredArticle), a.upvotes = b.upvotes → a.createdAt = b.createdAt →
        a.score now = b.score now) := by
  have hq : (0 : ℚ) ≤ (u : ℚ) := by exact_mod_cast hu
  have hp1 : (0 : ℚ) < h1 + 1 := by linarith
  have hp : (0 : ℚ) < h + 1 := by linarith
  unfold trendingScore
  refine ⟨?_, ?_, ?_, ?_⟩
  · apply div_le_div_of_nonneg_left (by linarith) hp1 (by linarith)
  · intro hpos
    have hq' : (0 : ℚ) < (u : ℚ) := by exact_mod_cast hpos
    apply div_lt_div_of_pos_left (by linarith) hp1 (by linarith)
  · have hlq : (u1 : ℚ) < (u2 : ℚ) := by exact_mod_cast hul
    apply div_lt_div_of_pos_right (by linarith) hp
  · intro now a b h1 h2
    unfold StoredArticle.score
    rw [h1, h2]

/-- C15 at the ages and upvotes of the specified scenario: 10 upvotes after 1 hour and after 100
hours, 10 and 50 upvotes after 100 hours. -/
theorem trendingScore_monotone_witness :
    trendingScore 10 100 ≤ trendingScore 10 1 ∧ trendingScore 10 100 < trendingScore 50 100 :=
  ⟨(trendingScore_monotone 10 10 50 100 1 100 (by decide) (by norm_num) (by norm_num)
      (by norm_num) (by decide)).1,
    (trendingScore_monotone 10 10 50 100 1 100 (by decide) (by norm_num) (by norm_num)
      (by norm_num) (by decide)).2.2.1⟩

/-! ## C18: the overlay of the user's bookmarks and votes -/

theorem keepScanned_ok {α : Type} (scanErr : Nat → Option Error) (h : ∀ i, scanErr i = none)
    (rows : List α) : ∀ i : Nat, keepScanned scanErr i rows = rows := by
  induction rows with
  | nil => intro i; rfl
  | cons row rest ih => intro i; simp [keepScanned, h i, ih]

theorem buildArticleMap_eq (l : List Article) :
    ∀ (i : Nat) (m : UUID → Option Nat) (id : UUID), (l.map (fun a => a.id)).Nodup →
      buildArticleMap l i m id =
        match firstIndex id (l.map (fun a => a.id)) with
        | some k => some (i + k)
        | none => m id := by
  induction l with
  | nil => intro i m id _; rfl
  | cons a rest ih =>
    intro i m id hnd
    rw [List.map_cons, List.nodup_cons] at hnd
    obtain ⟨hnot, hnd'⟩ := hnd
    simp only [buildArticleMap, List.map_cons, firstIndex]
    rw [ih (i + 1) _ id hnd']
    by_cases h : a.id = id
    · have hnone : firstIndex id (rest.map (fun a => a.id)) = none := by
        have hnot' : id ∉ rest.map (fun a => a.id) := h ▸ hnot
        clear ih hnd' hnot
        induction rest with
        | nil => rfl
        | cons b rest ih2 =>
          simp only [List.map_cons, List.mem_cons, not_or] at hnot'
          simp only [List.map_cons, firstIndex]
          rw [if_neg (fun e => hnot'.1 e.symm), ih2 hnot'.2]
          rfl
      simp [h, hnone]
    · have h' : ¬ id = a.id := fun e => h e.symm
      simp only [h, h', if_false]
      cases firstIndex id (rest.map (fun a => a.id)) with
      | none => rfl
      | some k => simp only [Option.map_some']; congr 1; omega

theorem modifyAt_firstIndex (f : Article → Article) (id : UUID) (cur : List Article) :
    ∀ k : Nat, (cur.map (fun a => a.id)).Nodup →
      firstIndex id (cur.map (fun a => a.id)) = some k →
      modifyAt f k cur = cur.map (fun a => if a.id = id then f a else a) := by
  induction cur with
  | nil => intro k _ h; simp [firstIndex] at h
  | cons a rest ih =>
    intro k hnd h
    rw [List.map_cons, List.nodup_cons] at hnd
    obtain ⟨hnot, hnd'⟩ := hnd
    simp only [List.map_cons, firstIndex] at h
    by_cases ha : a.id = id
    · rw [if_pos ha] at h
      have hk : k = 0 := by injection h with h; exact h.symm
      subst hk
      have hrest : rest.map (fun a => if a.id = id then f a else a) = rest := by
        have : ∀ b ∈ rest, (if b.id = id then f b else b) = b := by
          intro b hb
          have : b.id ≠ id := by
            intro e
            exact hnot (ha ▸ e ▸ List.mem_map_of_mem (fun a => a.id) hb)
          simp [this]
        rw [List.map_congr_left this, List.map_id']
      simp [modifyAt, ha, hrest]
    · rw [if_neg ha] at h
      cases hk' : firstIndex id (rest.map (fun a => a.id)) with
      | none => rw [hk'] at h; simp at h
      | some k' =>
        rw [hk'] at h
        simp only [Option.map_some', Option.some.injEq] at h
        subst h
        simp [modifyAt, ha, ih k' hnd' hk']

theorem firstIndex_none (id : UUID) (ids : List UUID) (h : firstIndex id ids = none) :
    id ∉ ids := by
  induction ids with
  | nil => simp
  | cons x rest ih =>
    simp only [firstIndex] at h
    by_cases hx : x = id
    · simp [hx] at h
    · rw [if_neg hx] at h
      have h' : firstIndex id rest = none := by
        cases hk : firstIndex id rest with
        | none => rfl
        | some k => rw [hk] at h; simp at h
      simp only [List.mem_cons, not_or]
      exact ⟨fun e => hx e.symm, ih h'⟩

/-- One assignment through `articleMap`: the article with the id, if any, is changed, wherever
it is, and no other. -/
theorem articleMap_step (f : Article → Article) (articles cur : List Article) (id : UUID)
    (hnd : (articles.map (fun a => a.id)).Nodup)
    (hids : cur.map (fun a => a.id) = articles.map (fun a => a.id)) :
    assignAt (buildArticleMap articles 0 (fun _ => none)) f id cur
      = cur.map (fun a => if a.id = id then f a else a) := by
  unfold assignAt
  rw [buildArticleMap_eq articles 0 _ id hnd, ← hids]
  cases hk : firstIndex id (cur.map (fun a => a.id)) with
  | none =>
    have hnot := firstIndex_none id _ hk
    have : ∀ b ∈ cur, (if b.id = id then f b else b) = b := by
      intro b hb
      have : b.id ≠ id := fun e => hnot (e ▸ List.mem_map_of_mem (fun a => a.id) hb)
      simp [this]
    simp only
    rw [List.map_congr_left this, List.map_id']
  | some k =>
    simp only [Nat.zero_add]
    exact modifyAt_firstIndex f id cur k (hids ▸ hnd) hk

theorem bookmarked_id (a : Article) : a.bookmarked.id = a.id := rfl

theorem voted_id (v : GoString) (a : Article) : (a.voted v).id = a.id := rfl

theorem markBookmarks_eq (articles : List Article)
    (hnd : (articles.map (fun a => a.id)).Nodup) (rows : List UUID) :
    ∀ cur : List Article, cur.map (fun a => a.id) = articles.map (fun a => a.id) →
      markBookmarks (buildArticleMap articles 0 (fun _ => none)) rows cur =
        cur.map (fun a => if a.id ∈ rows then a.bookmarked else a) := by
  induction rows with
  | nil => intro cur _; simp [markBookmarks]
  | cons r rest ih =>
    intro cur hids
    unfold markBookmarks at ih ⊢
    rw [List.foldl_cons, articleMap_step Article.bookmarked articles cur r hnd hids, ih]
    · rw [List.map_map]
      apply List.map_congr_left
      intro a _
      by_cases h1 : a.id = r
      · by_cases h2 : a.id ∈ rest
        · simp only [Function.comp, h1, if_true, bookmarked_id, List.mem_cons, true_or]
          rw [← h1, if_pos h2]
          rfl
        · simp only [Function.comp, h1, if_true, bookmarked_id, List.mem_cons, true_or]
          rw [← h1, if_neg h2]
      · by_cases h2 : a.id ∈ rest
        · simp [h1, h2]
        · simp [h1, h2]
    · rw [← hids, List.map_map]
      apply List.map_congr_left
      intro a _
      by_cases h1 : a.id = r <;> simp [h1, bookmarked_id]

theorem markVotes_eq (articles : List Article)
    (hnd : (articles.map (fun a => a.id)).Nodup) (rows : List (UUID × GoString)) :
    (∀ r ∈ rows, ∀ r' ∈ rows, r.1 = r'.1 → r.2 = r'.2) →
    ∀ cur : List Article, cur.map (fun a => a.id) = articles.map (fun a => a.id) →
      markVotes (buildArticleMap articles 0 (fun _ => none)) rows cur =
        cur.map (fun a =>
          ((rows.find? (fun r => r.1 = a.id)).map (fun r => a.voted r.2)).getD a) := by
  induction rows with
  | nil => intro _ cur _; simp [markVotes]
  | cons r rest ih =>
    intro hcons cur hids
    have hcons' : ∀ x ∈ rest, ∀ y ∈ rest, x.1 = y.1 → x.2 = y.2 :=
      fun x hx y hy => hcons x (List.mem_cons_of_mem _ hx) y (List.mem_cons_of_mem _ hy)
    unfold markVotes at ih ⊢
    rw [List.foldl_cons, articleMap_step (Article.voted r.2) articles cur r.1 hnd hids,
      ih hcons']
    · rw [List.map_map]
      apply List.map_congr_left
      intro a _
      by_cases h1 : a.id = r.1
      · have h1' : r.1 = a.id := h1.symm
        have hfind : List.find? (fun x => decide (x.1 = a.id)) (r :: rest) = some r := by
          simp [List.find?, h1']
        simp only [Function.comp, h1, if_true, voted_id]
        rw [← h1, hfind]
        cases hf : rest.find? (fun x => decide (x.1 = a.id)) with
        | none => rfl
        | some x =>
          have hx := List.mem_of_find?_eq_some hf
          have hx1 : x.1 = a.id := by simpa using List.find?_some hf
          have := hcons r (List.mem_cons_self _ _) x (List.mem_cons_of_mem _ hx)
            (h1'.trans hx1.symm)
          simp only [Option.map_some', Option.getD_some]
          rw [← this]
          rfl
      · have h1' : ¬ r.1 = a.id := fun e => h1 e.symm
        have hfind : List.find? (fun x => decide (x.1 = a.id)) (r :: rest)
            = List.find? (fun x => decide (x.1 = a.id)) rest := by
          simp [List.find?, h1']
        simp only [Function.comp, h1, if_false]
        rw [hfind]
    · rw [← hids, List.map_map]
      apply List.map_congr_left
      intro a _
      by_cases h1 : a.id = r.1 <;> simp [h1, voted_id]

theorem mem_bookmarkedIDs (store : Store) (userID : UUID) (ids : List UUID) (id : UUID)
    (hid : id ∈ ids) :
    id ∈ bookmarkedIDs store userID ids ↔
      store.bookmarks.any (fun b => b.userID = userID ∧ b.articleID = id) = true := by
  unfold bookmarkedIDs
  simp only [List.mem_map, List.mem_filter, List.any_eq_true, decide_eq_true_eq]
  constructor
  · rintro ⟨b, ⟨hb, h1, _⟩, rfl⟩
    exact ⟨b, hb, h1, rfl⟩
  · rintro ⟨b, hb, h1, h2⟩
    exact ⟨b, ⟨hb, h1, h2 ▸ hid⟩, h2⟩

theorem find_voteRows (store : Store) (userID : UUID) (ids : List UUID) (id : UUID)
    (hid : id ∈ ids) :
    ((voteRows store userID ids).find? (fun r => r.1 = id)).map (fun r => r.2) =
      (store.votes.find? (fun v => v.userID = userID ∧ v.articleID = id)).map
        (fun v => v.voteType) := by
  unfold voteRows
  induction store.votes with
  | nil => rfl
  | cons v rest ih =>
    by_cases h1 : v.userID = userID
    · by_cases h2 : v.articleID = id
      · have hmem : v.articleID ∈ ids := h2 ▸ hid
        simp [List.filter, List.find?, h1, h2, hid]
      · by_cases h3 : v.articleID ∈ ids
        · simp only [List.filter, h1, h3, and_self, decide_True, List.map_cons, List.find?, h2,
            decide_False, and_false]
          exact ih
        · simp only [List.filter, h1, h3, and_false, decide_False, List.find?, h2]
          exact ih
    · simp only [List.filter, h1, false_and, decide_False, List.find?]
      exact ih

theorem annotate_fresh (store : Store) (userID : UUID) (a : Article)
    (h1 : a.isBookmarked = false) (h2 : a.userVote = none) (marked : Bool) (vote : Option GoString)
    (hm : store.bookmarks.any (fun b => b.userID = userID ∧ b.articleID = a.id) = marked)
    (hv : (store.votes.find? (fun v => v.userID = userID ∧ v.articleID = a.id)).map
      (fun v => v.voteType) = vote) :
    annotate store userID a =
      (vote.map (fun v => (if marked then a.bookmarked else a).voted v)).getD
        (if marked then a.bookmarked else a) := by
  unfold annotate
  rw [hm, hv]
  cases a with
  | mk id title url description content author publishedAt sourceID sourceName imageURL
      readingTimeMinutes upvotes downvotes createdAt updatedAt tags isBookmarked userVote =>
    simp only at h1 h2
    subst h1 h2
    cases marked <;> cases vote <;> rfl

/-- C18: for articles with pairwise distinct ids and no annotation yet, when both overlay
queries succeed and every row of them scans, and the user's votes are a map (one vote type per
article), `enrichArticlesWithUserData` returns the articles in the same order, each bookmarked
exactly when the user has a bookmark for it and voted as the user's vote for it says (no vote:
absent), every other field as it was; the empty list is returned as it is, whatever happens. -/
theorem enrichArticlesWithUserData_annotates (store : Store) (env : ListEnv)
    (articles : List Article) (userID : UUID)
    (hids : (articles.map (fun a => a.id)).Nodup)
    (hfresh : ∀ a ∈ articles, a.isBookmarked = false ∧ a.userVote = none)
    (hbookmarks : env.bookmarksErr = none) (hvotes : env.votesErr = none)
    (hbscan : ∀ i, env.bookmarkScanErr i = none) (hvscan : ∀ i, env.voteScanErr i = none)
    (hmap : ∀ v ∈ store.votes, ∀ v' ∈ store.votes, v.userID = userID → v'.userID = userID →
      v.articleID = v'.articleID → v.voteType = v'.voteType) :
    enrichArticlesWithUserData store env articles userID = articles.map (annotate store userID) ∧
      (enrichArticlesWithUserData store env articles userID).length = articles.length ∧
      (∀ env', enrichArticlesWithUserData store env' [] userID = []) := by
  have hmain : enrichArticlesWithUserData store env articles userID
      = articles.map (annotate store userID) := by
    unfold enrichArticlesWithUserData
    by_cases hlen : articles.length = 0
    · have : articles = [] := List.length_eq_zero.mp hlen
      subst this
      rfl
    rw [if_neg hlen]
    simp only [hbookmarks, hvotes, keepScanned_ok _ hbscan, keepScanned_ok _ hvscan]
    have hrows : ∀ r ∈ voteRows store userID (articles.map (fun a => a.id)),
        ∀ r' ∈ voteRows store userID (articles.map (fun a => a.id)), r.1 = r'.1 → r.2 = r'.2 := by
      intro r hr r' hr' he
      unfold voteRows at hr hr'
      simp only [List.mem_map, List.mem_filter, decide_eq_true_eq] at hr hr'
      obtain ⟨v, ⟨hv, hu, _⟩, rfl⟩ := hr
      obtain ⟨v', ⟨hv', hu', _⟩, rfl⟩ := hr'
      exact hmap v hv v' hv' hu hu' he
    rw [markBookmarks_eq articles hids _ articles rfl, markVotes_eq articles hids _ hrows]
    · rw [List.map_map]
      apply List.map_congr_left
      intro a ha
      obtain ⟨hf1, hf2⟩ := hfresh a ha
      have hid : a.id ∈ articles.map (fun a => a.id) := List.mem_map_of_mem (fun a => a.id) ha
      have hb := mem_bookmarkedIDs store userID _ a.id hid
      have hv := find_voteRows store userID _ a.id hid
      have hdec : (decide (a.id ∈ bookmarkedIDs store userID (articles.map (fun a => a.id))))
          = store.bookmarks.any (fun b => b.userID = userID ∧ b.articleID = a.id) := by
        cases h : store.bookmarks.any (fun b => b.userID = userID ∧ b.articleID = a.id) with
        | true => exact decide_eq_true (hb.mpr h)
        | false =>
          apply decide_eq_false
          intro hm
          rw [hb.mp hm] at h
          exact Bool.noConfusion h
      rw [annotate_fresh store userID a hf1 hf2 _ _ hdec.symm hv.symm]
      simp only [Function.comp]
      by_cases hmark : a.id ∈ bookmarkedIDs store userID (articles.map (fun a => a.id))
      · simp only [hmark, if_true, decide_True, bookmarked_id]
        cases (voteRows store userID (articles.map (fun a => a.id))).find?
            (fun r => decide (r.1 = a.id)) <;> rfl
      · simp only [hmark, if_false, decide_False, Bool.false_eq_true]
        cases (voteRows store userID (articles.map (fun a => a.id))).find?
            (fun r => decide (r.1 = a.id)) <;> rfl
    · rw [List.map_map]
      apply List.map_congr_left
      intro a _
      by_cases h : a.id ∈ bookmarkedIDs store userID (articles.map (fun a => a.id)) <;>
        simp [h, bookmarked_id]
  refine ⟨hmain, ?_, fun env' => rfl⟩
  rw [hmain, List.length_map]

/-- C18 at a concrete store: user 7 has bookmarked article 1 and upvoted article 2. -/
theorem enrichArticlesWithUserData_annotates_witness :
    enrichArticlesWithUserData overlayStore (calmEnv 3000)
        [scanArticle (storedArticle 1 (lit "one") 3 none 1000),
          scanArticle (storedArticle 2 (lit "two") 5 none 2000)] 7
      = [(scanArticle (storedArticle 1 (lit "one") 3 none 1000)).bookmarked,
          (scanArticle (storedArticle 2 (lit "two") 5 none 2000)).voted (lit "up")] :=
  (enrichArticlesWithUserData_annotates overlayStore (calmEnv 3000)
    [scanArticle (storedArticle 1 (lit "one") 3 none 1000),
      scanArticle (storedArticle 2 (lit "two") 5 none 2000)] 7
    (by decide) (by decide) rfl rfl (fun _ => rfl) (fun _ => rfl) (by decide)).1.trans
    (by decide)

/-! ## C19: the overlay is best effort -/

theorem voteRows_nil (store : Store) (userID : UUID) : voteRows store userID [] = [] := by
  unfold voteRows
  simp

theorem bookmarkedIDs_nil (store : Store) (userID : UUID) :
    bookmarkedIDs store userID [] = [] := by
  unfold bookmarkedIDs
  simp

theorem keepScanned_fails {α : Type} (scanErr : Nat → Option Error) (h : scanErr 0 ≠ none)
    (rows : List α) : keepScanned scanErr 0 rows = [] := by
  cases rows with
  | nil => rfl
  | cons row rest =>
    unfold keepScanned
    cases hs : scanErr 0 with
    | none => exact absurd hs h
    | some e => rfl

/-- The vote loop over all the vote rows of the user gives each article its vote. -/
theorem markVotes_withVote (store : Store) (userID : UUID) (articles : List Article)
    (hids : (articles.map (fun a => a.id)).Nodup)
    (hmap : ∀ v ∈ store.votes, ∀ v' ∈ store.votes, v.userID = userID → v'.userID = userID →
      v.articleID = v'.articleID → v.voteType = v'.voteType) :
    markVotes (buildArticleMap articles 0 (fun _ => none))
        (voteRows store userID (articles.map (fun a => a.id))) articles
      = articles.map (withVote store userID) := by
  have hrows : ∀ r ∈ voteRows store userID (articles.map (fun a => a.id)),
      ∀ r' ∈ voteRows store userID (articles.map (fun a => a.id)), r.1 = r'.1 → r.2 = r'.2 := by
    intro r hr r' hr' he
    unfold voteRows at hr hr'
    simp only [List.mem_map, List.mem_filter, decide_eq_true_eq] at hr hr'
    obtain ⟨v, ⟨hv, hu, _⟩, rfl⟩ := hr
    obtain ⟨v', ⟨hv', hu', _⟩, rfl⟩ := hr'
    exact hmap v hv v' hv' hu hu' he
  rw [markVotes_eq articles hids _ hrows articles rfl]
  apply List.map_congr_left
  intro a ha
  have hid : a.id ∈ articles.map (fun a => a.id) := List.mem_map_of_mem (fun a => a.id) ha
  have hv := find_voteRows store userID _ a.id hid
  unfold withVote
  cases hfind : (voteRows store userID (articles.map (fun a => a.id))).find?
      (fun r => decide (r.1 = a.id)) with
  | none =>
    rw [hfind] at hv
    cases hstore : store.votes.find? (fun v => v.userID = userID ∧ v.articleID = a.id) with
    | none => rfl
    | some v => rw [hstore] at hv; exact absurd hv (by simp)
  | some r =>
    rw [hfind] at hv
    cases hstore : store.votes.find? (fun v => v.userID = userID ∧ v.articleID = a.id) with
    | none => rw [hstore] at hv; exact absurd hv (by simp)
    | some v =>
      rw [hstore] at hv
      simp only [Option.map_some', Option.some.injEq] at hv
      simp only [Option.map_some', Option.getD_some, hv]

/-- The bookmark loop over all the bookmark rows of the user marks each bookmarked article. -/
theorem markBookmarks_withBookmark (store : Store) (userID : UUID) (articles : List Article)
    (hids : (articles.map (fun a => a.id)).Nodup) :
    markBookmarks (buildArticleMap articles 0 (fun _ => none))
        (bookmarkedIDs store userID (articles.map (fun a => a.id))) articles
      = articles.map (withBookmark store userID) := by
  rw [markBookmarks_eq articles hids _ articles rfl]
  apply List.map_congr_left
  intro a ha
  have hid : a.id ∈ articles.map (fun a => a.id) := List.mem_map_of_mem (fun a => a.id) ha
  have hb := mem_bookmarkedIDs store userID _ a.id hid
  unfold withBookmark
  by_cases hmem : a.id ∈ bookmarkedIDs store userID (articles.map (fun a => a.id))
  · rw [if_pos hmem, if_pos (hb.mp hmem)]
  · have hnot : ¬ (store.bookmarks.any (fun b => b.userID = userID ∧ b.articleID = a.id) = true) :=
      fun h => hmem (hb.mpr h)
    rw [if_neg hmem, if_neg hnot]

theorem modifyAt_map_comm (f g : Article → Article) (h : ∀ a, f (g a) = g (f a)) :
    ∀ (idx : Nat) (xs : List Article), (modifyAt g idx xs).map f = modifyAt g idx (xs.map f) := by
  intro idx xs
  induction xs generalizing idx with
  | nil => cases idx <;> rfl
  | cons a rest ih =>
    cases idx with
    | zero => simp [modifyAt, h]
    | succ k => simp [modifyAt, ih]

theorem modifyAt_map_absorb (f g : Article → Article) (h : ∀ a, f (g a) = f a) :
    ∀ (idx : Nat) (xs : List Article), (modifyAt g idx xs).map f = xs.map f := by
  intro idx xs
  induction xs generalizing idx with
  | nil => cases idx <;> rfl
  | cons a rest ih =>
    cases idx with
    | zero => simp [modifyAt, h]
    | succ k => simp [modifyAt, ih]

/-- The vote loop does not read or write what `f` forgets, when `f` commutes with the vote
assignment. -/
theorem markVotes_map_comm (f : Article → Article)
    (h : ∀ (v : GoString) (a : Article), f (a.voted v) = (f a).voted v)
    (m : UUID → Option Nat) (rows : List (UUID × GoString)) :
    ∀ xs : List Article, (markVotes m rows xs).map f = markVotes m rows (xs.map f) := by
  induction rows with
  | nil => intro xs; rfl
  | cons r rest ih =>
    intro xs
    unfold markVotes at ih ⊢
    rw [List.foldl_cons, List.foldl_cons, ih]
    congr 1
    unfold assignAt
    cases m r.1 with
    | none => rfl
    | some idx => exact modifyAt_map_comm f _ (h r.2) idx xs

theorem markVotes_map_absorb (f : Article → Article)
    (h : ∀ (v : GoString) (a : Article), f (a.voted v) = f a)
    (m : UUID → Option Nat) (rows : List (UUID × GoString)) :
    ∀ xs : List Article, (markVotes m rows xs).map f = xs.map f := by
  induction rows with
  | nil => intro xs; rfl
  | cons r rest ih =>
    intro xs
    unfold markVotes at ih ⊢
    rw [List.foldl_cons, ih]
    unfold assignAt
    cases m r.1 with
    | none => rfl
    | some idx => exact modifyAt_map_absorb f _ (h r.2) idx xs

theorem markBookmarks_map_absorb (f : Article → Article)
    (h : ∀ a : Article, f a.bookmarked = f a)
    (m : UUID → Option Nat) (rows : List UUID) :
    ∀ xs : List Article, (markBookmarks m rows xs).map f = xs.map f := by
  induction rows with
  | nil => intro xs; rfl
  | cons r rest ih =>
    intro xs
    unfold markBookmarks at ih ⊢
    rw [List.foldl_cons, ih]
    unfold assignAt
    cases m r with
    | none => rfl
    | some idx => exact modifyAt_map_absorb f _ h idx xs

/-- The votes `enrichArticlesWithUserData` shows do not depend on the outcome of the bookmarks
query. -/
theorem votes_despite_bookmarks (store : Store) (env : ListEnv) (articles : List Article)
    (userID : UUID) (bookmarksErr : Option Error) :
    (enrichArticlesWithUserData store { env with bookmarksErr := bookmarksErr } articles
        userID).map (fun a => a.userVote)
      = (enrichArticlesWithUserData store { env with bookmarksErr := none } articles
        userID).map (fun a => a.userVote) := by
  have hf : ∀ xs : List Article, xs.map (fun a => a.userVote)
      = (xs.map (fun a => ({ a with isBookmarked := false } : Article))).map
          (fun a => a.userVote) := by
    intro xs
    rw [List.map_map]
    rfl
  unfold enrichArticlesWithUserData
  by_cases hlen : articles.length = 0
  · rw [if_pos hlen, if_pos hlen]
  rw [if_neg hlen, if_neg hlen]
  cases bookmarksErr with
  | none => rfl
  | some e =>
    dsimp only
    cases env.votesErr with
    | some e' =>
      dsimp only
      rw [hf articles, hf (markBookmarks _ _ _),
        markBookmarks_map_absorb (fun a => ({ a with isBookmarked := false } : Article))
          (fun _ => rfl)]
    | none =>
      dsimp only
      rw [hf (markVotes _ _ articles), hf (markVotes _ _ (markBookmarks _ _ _)),
        markVotes_map_comm (fun a => ({ a with isBookmarked := false } : Article))
          (fun _ _ => rfl),
        markVotes_map_comm (fun a => ({ a with isBookmarked := false } : Article))
          (fun _ _ => rfl),
        markBookmarks_map_absorb (fun a => ({ a with isBookmarked := false } : Article))
          (fun _ => rfl)]

/-- The bookmarks `enrichArticlesWithUserData` shows do not depend on the outcome of the votes
query. -/
theorem bookmarks_despite_votes (store : Store) (env : ListEnv) (articles : List Article)
    (userID : UUID) (votesErr : Option Error) :
    (enrichArticlesWithUserData store { env with votesErr := votesErr } articles
        userID).map (fun a => a.isBookmarked)
      = (enrichArticlesWithUserData store { env with votesErr := none } articles
        userID).map (fun a => a.isBookmarked) := by
  have hf : ∀ xs : List Article, xs.map (fun a => a.isBookmarked)
      = (xs.map (fun a => ({ a with userVote := none } : Article))).map
          (fun a => a.isBookmarked) := by
    intro xs
    rw [List.map_map]
    rfl
  unfold enrichArticlesWithUserData
  by_cases hlen : articles.length = 0
  · rw [if_pos hlen, if_pos hlen]
  rw [if_neg hlen, if_neg hlen]
  cases votesErr with
  | none => rfl
  | some e =>
    dsimp only
    rw [hf (markVotes _ _ _),
      markVotes_map_absorb (fun a => ({ a with userVote := none } : Article)) (fun _ _ => rfl),
      ← hf]

/-- C19: when both overlay queries fail, `enrichArticlesWithUserData` returns its input and
`GetArticles` answers an authenticated caller exactly as it answers an anonymous one (same rows,
total count, page, page size and `has_more`). When only the bookmarks query fails and the votes
are read without failure, every article (ids distinct, one vote type per article) still gets
the user's vote for it and nothing else changes; when only the votes query fails and the
bookmarks are read without failure, every article the user has bookmarked is still marked and
nothing else changes. Lookups that fail before their first row is read, without an error from
`Pool.Query`, leave the articles unchanged as well. And in every environment the votes shown
are the same whether the bookmarks query fails or not, and the bookmarks shown are the same
whether the votes query fails or not. -/
theorem overlay_failure_keeps_listing (store : Store) (env : ListEnv) (req : Request)
    (userID : UUID) (articles : List Article)
    (hbookmarks : env.bookmarksErr ≠ none) (hvotes : env.votesErr ≠ none) :
    enrichArticlesWithUserData store env articles userID = articles ∧
    GetArticles store env { req with userID := some userID }
      = GetArticles store env { req with userID := none } ∧
    (∀ env' : ListEnv, env'.bookmarksErr ≠ none → env'.votesErr = none →
      (∀ i, env'.voteScanErr i = none) →
      (articles.map (fun a => a.id)).Nodup →
      (∀ v ∈ store.votes, ∀ v' ∈ store.votes, v.userID = userID → v'.userID = userID →
        v.articleID = v'.articleID → v.voteType = v'.voteType) →
      enrichArticlesWithUserData store env' articles userID
        = articles.map (withVote store userID)) ∧
    (∀ env' : ListEnv, env'.bookmarksErr = none → env'.votesErr ≠ none →
      (∀ i, env'.bookmarkScanErr i = none) →
      (articles.map (fun a => a.id)).Nodup →
      enrichArticlesWithUserData store env' articles userID
        = articles.map (withBookmark store userID)) ∧
    (∀ env' : ListEnv, env'.bookmarkScanErr 0 ≠ none → env'.voteScanErr 0 ≠ none →
      enrichArticlesWithUserData store env' articles userID = articles) ∧
    (∀ (env' : ListEnv) (err : Error),
      (enrichArticlesWithUserData store { env' with bookmarksErr := some err } articles
          userID).map (fun a => a.userVote)
        = (enrichArticlesWithUserData store { env' with bookmarksErr := none } articles
          userID).map (fun a => a.userVote)) ∧
    (∀ (env' : ListEnv) (err : Error),
      (enrichArticlesWithUserData store { env' with votesErr := some err } articles
          userID).map (fun a => a.isBookmarked)
        = (enrichArticlesWithUserData store { env' with votesErr := none } articles
          userID).map (fun a => a.isBookmarked)) := by
  have henrich : ∀ arts : List Article,
      enrichArticlesWithUserData store env arts userID = arts := by
    intro arts
    unfold enrichArticlesWithUserData
    cases hb : env.bookmarksErr with
    | none => exact absurd hb hbookmarks
    | some e =>
      cases hv : env.votesErr with
      | none => exact absurd hv hvotes
      | some e' => simp
  refine ⟨henrich articles, ?_, ?_, ?_, ?_,
    fun env' err => votes_despite_bookmarks store env' articles userID (some err),
    fun env' err => bookmarks_despite_votes store env' articles userID (some err)⟩
  · unfold GetArticles
    simp only [henrich]
  · intro env' hb hv hscan hids hmap
    unfold enrichArticlesWithUserData
    by_cases hlen : articles.length = 0
    · have : articles = [] := List.length_eq_zero.mp hlen
      subst this
      rfl
    rw [if_neg hlen]
    cases hb' : env'.bookmarksErr with
    | none => exact absurd hb' hb
    | some e =>
      simp only [hv, keepScanned_ok _ hscan]
      exact markVotes_withVote store userID articles hids hmap
  · intro env' hb hv hscan hids
    unfold enrichArticlesWithUserData
    by_cases hlen : articles.length = 0
    · have : articles = [] := List.length_eq_zero.mp hlen
      subst this
      rfl
    rw [if_neg hlen]
    cases hv' : env'.votesErr with
    | none => exact absurd hv' hv
    | some e =>
      simp only [hb, keepScanned_ok _ hscan]
      exact markBookmarks_withBookmark store userID articles hids
  · intro env' hb hv
    unfold enrichArticlesWithUserData
    by_cases hlen : articles.length = 0
    · rw [if_pos hlen]
    rw [if_neg hlen]
    simp only [keepScanned_fails _ hb, keepScanned_fails _ hv, markBookmarks, markVotes,
      List.foldl_nil]
    cases env'.bookmarksErr <;> cases env'.votesErr <;> rfl

/-- C19 at a concrete request: user 7, who has bookmarked article 1 and upvoted article 2, asks
for the listing while both overlay queries fail; with only the bookmarks query failing the vote
is still shown, with only the votes query failing the bookmark is still shown. -/
theorem overlay_failure_keeps_listing_witness :
    GetArticles overlayStore (noOverlayEnv 3000) { plainRequest with userID := some 7 }
        = GetArticles overlayStore (noOverlayEnv 3000) { plainRequest with userID := none } ∧
      enrichArticlesWithUserData overlayStore (noBookmarksEnv 3000)
          [scanArticle (storedArticle 1 (lit "one") 3 none 1000),
            scanArticle (storedArticle 2 (lit "two") 5 none 2000)] 7
        = [scanArticle (storedArticle 1 (lit "one") 3 none 1000),
            (scanArticle (storedArticle 2 (lit "two") 5 none 2000)).voted (lit "up")] ∧
      enrichArticlesWithUserData overlayStore (noVotesEnv 3000)
          [scanArticle (storedArticle 1 (lit "one") 3 none 1000),
            scanArticle (storedArticle 2 (lit "two") 5 none 2000)] 7
        = [(scanArticle (storedArticle 1 (lit "one") 3 none 1000)).bookmarked,
            scanArticle (storedArticle 2 (lit "two") 5 none 2000)] :=
  ⟨(overlay_failure_keeps_listing overlayStore (noOverlayEnv 3000) plainRequest 7
      [scanArticle (storedArticle 1 (lit "one") 3 none 1000),
        scanArticle (storedArticle 2 (lit "two") 5 none 2000)] (by decide) (by decide)).2.1,
    ((overlay_failure_keeps_listing overlayStore (noOverlayEnv 3000) plainRequest 7
      [scanArticle (storedArticle 1 (lit "one") 3 none 1000),
        scanArticle (storedArticle 2 (lit "two") 5 none 2000)] (by decide) (by decide)).2.2.1
      (noBookmarksEnv 3000) (by decide) rfl (fun _ => rfl) (by decide) (by decide)).trans
      (by decide),
    ((overlay_failure_keeps_listing overlayStore (noOverlayEnv 3000) plainRequest 7
      [scanArticle (storedArticle 1 (lit "one") 3 none 1000),
        scanArticle (storedArticle 2 (lit "two") 5 none 2000)] (by decide) (by decide)).2.2.2.1
      (noVotesEnv 3000) rfl (by decide) (fun _ => rfl) (by decide)).trans (by decide)⟩

/-! ## C14, C16, C17: the listing handlers at their failing inputs -/

/-- C14 (the code at the failing input): with two stored articles and `page=461168601842738791`
(page size 20), the offset `(page - 1) * 20` still fits an `int` and no row is returned, but the
product `page * 20` wraps to a negative number, so `has_more` is true although the total count 2
is not greater than `page * 20`. -/
theorem GetArticles_hasMore_wraps :
    GetArticles
        (storeOf [storedArticle 1 (lit "old") 0 none 1000, storedArticle 2 (lit "new") 0 none 2000])
        (calmEnv 3000) { plainRequest with page := lit "461168601842738791" }
      = Response.listing
          { articles := [], totalCount := 2, page := 461168601842738791, pageSize := 20,
            hasMore := true } ∧
    ¬ ((2 : Int) > 461168601842738791 * 20) := by
  constructor <;> decide

theorem tie_sorted :
    sortRows (OrderBy.before 3000 OrderBy.score)
        [(storedArticle 1 (lit "old") 0 none 1000).listed,
          (storedArticle 2 (lit "new") 0 none 2000).listed]
      = [(storedArticle 1 (lit "old") 0 none 1000).listed,
          (storedArticle 2 (lit "new") 0 none 2000).listed] := by
  have h : OrderBy.before 3000 OrderBy.score (storedArticle 1 (lit "old") 0 none 1000).listed
      (storedArticle 2 (lit "new") 0 none 2000).listed = true := by
    simp [OrderBy.before, StoredArticle.score, trendingScore, storedArticle, StoredArticle.listed]
  simp only [sortRows, insertOrdered, h, if_true]

theorem tie_selected :
    runSelect
        (storeOf [storedArticle 1 (lit "old") 0 none 1000, storedArticle 2 (lit "new") 0 none 2000])
        3000 trendingQuery [Arg.int 2]
      = .ok [(storedArticle 1 (lit "old") 0 none 1000).listed,
          (storedArticle 2 (lit "new") 0 none 2000).listed] := by
  have hm : matchingRows
      (storeOf [storedArticle 1 (lit "old") 0 none 1000, storedArticle 2 (lit "new") 0 none 2000])
      3000 false [Condition.createdWithinWeek] [Arg.int 2]
      = some [(storedArticle 1 (lit "old") 0 none 1000, none),
          (storedArticle 2 (lit "new") 0 none 2000, none)] := by decide
  have hl : intParam [Arg.int 2] 1 = some 2 := by decide
  unfold runSelect
  simp only [trendingQuery, OrderBy.inSelectList, hm, hl]
  simp [tie_sorted]

/-- C16 (the code at the failing input): two articles of the last week without upvotes have the
same score; `GetTrendingArticles` returns them in the order the store yields them, here the
older one first, because its `ORDER BY` has the score only and no `created_at DESC`. -/
theorem GetTrendingArticles_ties_unordered :
    GetTrendingArticles
        (storeOf [storedArticle 1 (lit "old") 0 none 1000, storedArticle 2 (lit "new") 0 none 2000])
        (calmEnv 3000) { plainRequest with limit := lit "2" }
      = Response.articles
          [scanArticle (storedArticle 1 (lit "old") 0 none 1000),
            scanArticle (storedArticle 2 (lit "new") 0 none 2000)] ∧
      (storedArticle 1 (lit "old") 0 none 1000).score 3000
        = (storedArticle 2 (lit "new") 0 none 2000).score 3000 ∧
      (storedArticle 1 (lit "old") 0 none 1000).createdAt
        < (storedArticle 2 (lit "new") 0 none 2000).createdAt := by
  have hlimit : (if Atoi (Query (lit "2") (lit "10")) < 1 ∨ Atoi (Query (lit "2") (lit "10")) > 50
      then 10 else Atoi (Query (lit "2") (lit "10"))) = 2 := by decide
  have hscan : scanArticles
      (storeOf [storedArticle 1 (lit "old") 0 none 1000, storedArticle 2 (lit "new") 0 none 2000])
      (calmEnv 3000)
      [(storedArticle 1 (lit "old") 0 none 1000).listed,
        (storedArticle 2 (lit "new") 0 none 2000).listed]
      = [scanArticle (storedArticle 1 (lit "old") 0 none 1000),
          scanArticle (storedArticle 2 (lit "new") 0 none 2000)] := by decide
  refine ⟨?_, ?_, by decide⟩
  · unfold GetTrendingArticles
    dsimp only [plainRequest, calmEnv]
    rw [hlimit]
    dsimp only [calmEnv] at hscan
    rw [tie_selected]
    simp only [queryRows]
    rw [hscan]
  · simp [StoredArticle.score, trendingScore, storedArticle]

/-- C17 (the code at the failing input): with `sort_by=trending` the row query of `GetArticles`
is a `SELECT DISTINCT` ordered by the score expression, which PostgreSQL rejects, and the
handler answers 500 instead of a listing. -/
theorem GetArticles_trending_rejected :
    GetArticles
        (storeOf [storedArticle 1 (lit "old") 0 none 1000, storedArticle 2 (lit "new") 0 none 2000])
        (calmEnv 3000) { plainRequest with sortBy := lit "trending" }
      = Response.failed 500 (lit "Failed to fetch articles")
          (some "for SELECT DISTINCT, ORDER BY expressions must appear in select list") := by
  decide

/-! ## C20: the filter of `GetArticles` -/

theorem likeMatch_cons (fold : Nat → Nat) (c : Nat) (pattern text : GoString) :
    likeMatch fold (c :: pattern) text =
      if c = 37 then text.tails.any (fun rest => likeMatch fold pattern rest)
      else if c = 95 then
        match text with
        | [] => false
        | _ :: rest => likeMatch fold pattern rest
      else if c = 92 then
        match pattern with
        | [] => false
        | e :: pattern' =>
          match text with
          | [] => false
          | x :: rest => decide (fold e = fold x) && likeMatch fold pattern' rest
      else
        match text with
        | [] => false
        | x :: rest => decide (fold c = fold x) && likeMatch fold pattern rest := by
  rw [likeMatch.eq_def]
  rfl

theorem likeMatch_percent (fold : Nat → Nat) (pattern text : GoString) :
    likeMatch fold (37 :: pattern) text = true ↔
      ∃ rest, rest <:+ text ∧ likeMatch fold pattern rest = true := by
  rw [likeMatch_cons]
  simp only [if_true, List.any_eq_true, List.mem_tails]

theorem likeMatch_plain_cons (fold : Nat → Nat) (c : Nat) (pattern : GoString) (x : Nat)
    (rest : GoString) (h : c ≠ 37 ∧ c ≠ 95 ∧ c ≠ 92) :
    likeMatch fold (c :: pattern) (x :: rest) =
      (decide (fold c = fold x) && likeMatch fold pattern rest) := by
  rw [likeMatch_cons]
  simp only [h.1, h.2.1, h.2.2, if_false]

theorem likeMatch_plain_nil (fold : Nat → Nat) (c : Nat) (pattern : GoString)
    (h : c ≠ 37 ∧ c ≠ 95 ∧ c ≠ 92) : likeMatch fold (c :: pattern) [] = false := by
  rw [likeMatch_cons]
  simp only [h.1, h.2.1, h.2.2, if_false]

theorem likeMatch_plain_percent (fold : Nat → Nat) (term : GoString)
    (h : ∀ c ∈ term, c ≠ 37 ∧ c ≠ 95 ∧ c ≠ 92) :
    ∀ text : GoString,
      likeMatch fold (term ++ [37]) text = true ↔ term.map fold <+: text.map fold := by
  induction term with
  | nil =>
    intro text
    simp only [List.nil_append, List.map_nil, List.nil_prefix, iff_true]
    rw [likeMatch_percent]
    exact ⟨[], List.nil_suffix, rfl⟩
  | cons c term ih =>
    intro text
    have hc := h c (List.mem_cons_self _ _)
    have ih' := ih (fun x hx => h x (List.mem_cons_of_mem _ hx))
    cases text with
    | nil =>
      rw [List.cons_append, likeMatch_plain_nil fold c _ hc]
      simp
    | cons x rest =>
      rw [List.cons_append, likeMatch_plain_cons fold c _ x rest hc]
      simp only [Bool.and_eq_true, decide_eq_true_eq, List.map_cons, List.cons_prefix_cons]
      rw [ih' rest]

/-- Between two `%`, a term without `%`, `_` and backslash matches the texts that contain it. -/
theorem likeMatch_contains (fold : Nat → Nat) (term text : GoString)
    (h : ∀ c ∈ term, c ≠ 37 ∧ c ≠ 95 ∧ c ≠ 92) :
    likeMatch fold (lit "%" ++ term ++ lit "%") text = containsFold fold term text := by
  have hl : lit "%" = [37] := by decide
  have hiff : likeMatch fold ([37] ++ term ++ [37]) text = true ↔
      term.map fold <:+: text.map fold := by
    rw [List.append_assoc, List.singleton_append, likeMatch_percent]
    constructor
    · rintro ⟨rest, hsuf, hm⟩
      have hp := (likeMatch_plain_percent fold term h rest).mp hm
      obtain ⟨pre, hpre⟩ := hsuf
      obtain ⟨post, hpost⟩ := hp
      refine ⟨pre.map fold, post, ?_⟩
      rw [← hpre, List.map_append, ← hpost]
      simp
    · rintro ⟨pre, post, heq⟩
      refine ⟨text.drop pre.length, List.drop_suffix _ _, ?_⟩
      apply (likeMatch_plain_percent fold term h _).mpr
      refine ⟨post, ?_⟩
      rw [List.map_drop, ← heq]
      simp
  rw [hl]
  unfold containsFold
  cases hm : likeMatch fold ([37] ++ term ++ [37]) text with
  | true => exact (decide_eq_true (hiff.mp hm)).symm
  | false =>
    symm
    apply decide_eq_false
    intro hin
    rw [hiff.mpr hin] at hm
    exact Bool.noConfusion hm

theorem textParam_at (pre : List Arg) (s : GoString) (rest : List Arg) :
    textParam (pre ++ Arg.text s :: rest) (pre.length + 1) = some s := by
  have h : param (pre ++ Arg.text s :: rest) (pre.length + 1) = some (Arg.text s) := by
    unfold param
    rw [if_neg (Nat.succ_ne_zero _), Nat.add_sub_cancel,
      List.getElem?_append_right (Nat.le_refl _), Nat.sub_self]
    simp
  unfold textParam
  rw [h]

theorem slug_placeholders (tags : List GoString) :
    ∀ (pre rest : List Arg),
      (List.range' (pre.length + 1) tags.length).all
          (fun n => (textParam (pre ++ tags.map Arg.text ++ rest) n).isSome) = true ∧
        (List.range' (pre.length + 1) tags.length).filterMap
          (textParam (pre ++ tags.map Arg.text ++ rest)) = tags := by
  induction tags with
  | nil => intro pre rest; simp
  | cons t ts ih =>
    intro pre rest
    have hargs : pre ++ List.map Arg.text (t :: ts) ++ rest
        = (pre ++ [Arg.text t]) ++ ts.map Arg.text ++ rest := by simp
    have hhead : textParam (pre ++ List.map Arg.text (t :: ts) ++ rest) (pre.length + 1)
        = some t := by
      have := textParam_at pre t (ts.map Arg.text ++ rest)
      simpa using this
    obtain ⟨ih1, ih2⟩ := ih (pre ++ [Arg.text t]) rest
    rw [List.length_append, List.length_singleton, ← hargs] at ih1 ih2
    simp only [List.length_cons, List.range'_succ, List.all_cons, List.filterMap_cons, hhead,
      Option.isSome_some, Bool.true_and]
    exact ⟨ih1, by rw [ih2]⟩

/-- The conditions `GetArticles` assembles for a tag list and a search term bind to the tag
slugs and to the pattern `%term%`, with the arguments of the count query and with those of the
row query. -/
theorem bind_assembled (tags : List GoString) (pattern : GoString) (rest : List Arg) :
    bindConditions (tags.map Arg.text ++ [Arg.text pattern] ++ rest)
        [Condition.slugIn (List.range' 1 tags.length),
          Condition.titleOrDescriptionILike (1 + tags.length) (1 + tags.length)]
      = some [Predicate.slugIn tags, Predicate.ilike pattern pattern] := by
  obtain ⟨h1, h2⟩ := slug_placeholders tags [] ([Arg.text pattern] ++ rest)
  simp only [List.nil_append, List.length_nil, Nat.zero_add] at h1 h2
  have h3 : textParam (tags.map Arg.text ++ [Arg.text pattern] ++ rest) (1 + tags.length)
      = some pattern := by
    have := textParam_at (tags.map Arg.text) pattern rest
    simpa [Nat.add_comm] using this
  have hassoc : tags.map Arg.text ++ [Arg.text pattern] ++ rest
      = tags.map Arg.text ++ ([Arg.text pattern] ++ rest) := by simp
  simp only [bindConditions, Condition.bind, h3]
  rw [hassoc, h1, h2]
  rfl

theorem assembled_filter (tags : List GoString) (search sortBy : GoString) (pageSize offset : Int)
    (htags : tags ≠ []) (hsearch : search ≠ []) :
    (assembleQueries tags search sortBy pageSize offset).baseQuery.joinTags = true ∧
    (assembleQueries tags search sortBy pageSize offset).countQuery.joinTags = true ∧
    (assembleQueries tags search sortBy pageSize offset).baseQuery.conditions
      = [Condition.slugIn (List.range' 1 tags.length),
          Condition.titleOrDescriptionILike (1 + tags.length) (1 + tags.length)] ∧
    (assembleQueries tags search sortBy pageSize offset).countQuery.conditions
      = [Condition.slugIn (List.range' 1 tags.length),
          Condition.titleOrDescriptionILike (1 + tags.length) (1 + tags.length)] ∧
    (assembleQueries tags search sortBy pageSize offset).args
      = tags.map Arg.text ++ [Arg.text (lit "%" ++ search ++ lit "%")]
          ++ [Arg.int pageSize, Arg.int offset] := by
  have hlen : tags.length > 0 := List.length_pos.mpr htags
  unfold assembleQueries
  simp [hlen, hsearch]

theorem listed_id (a : StoredArticle) : a.listed.id = a.id := rfl

/-- Rows that are exactly the selected articles of a table with distinct ids give, without
duplicates, each selected article once. -/
theorem distinct_selected (articles : List StoredArticle) (sel : StoredArticle → Bool)
    (hids : (articles.map (fun a => a.id)).Nodup) (xs : List StoredArticle)
    (hxs : ∀ a, a ∈ xs ↔ a ∈ articles ∧ sel a = true) :
    List.Perm (xs.map (fun a => a.id)).dedup ((articles.filter sel).map (fun a => a.id)) ∧
      List.Perm (xs.map (fun a => a.listed)).dedup
        ((articles.filter sel).map (fun a => a.listed)) := by
  have hnd : ((articles.filter sel).map (fun a => a.id)).Nodup :=
    hids.sublist ((List.filter_sublist articles).map _)
  have hnd2 : ((articles.filter sel).map (fun a => a.listed)).Nodup := by
    apply List.Nodup.of_map (fun a => a.id)
    rw [List.map_map]
    exact hnd
  constructor
  · rw [List.perm_ext_iff_of_nodup (List.nodup_dedup _) hnd]
    intro id
    simp only [List.mem_dedup, List.mem_map, List.mem_filter, hxs]
  · rw [List.perm_ext_iff_of_nodup (List.nodup_dedup _) hnd2]
    intro b
    simp only [List.mem_dedup, List.mem_map, List.mem_filter, hxs]

theorem holds_ilike (fold : Nat → Nat) (now : Time) (a : StoredArticle) (t : Option Tag)
    (search : GoString) (hplain : ∀ c ∈ search, c ≠ 37 ∧ c ≠ 95 ∧ c ≠ 92) :
    Predicate.holds fold now a t
        (Predicate.ilike (lit "%" ++ search ++ lit "%") (lit "%" ++ search ++ lit "%"))
      = (containsFold fold search a.title ||
          (match a.description with
            | some d => containsFold fold search d
            | none => false)) := by
  show (likeMatch fold (lit "%" ++ search ++ lit "%") a.title ||
      (match a.description with
        | some d => likeMatch fold (lit "%" ++ search ++ lit "%") d
        | none => false)) = _
  rw [likeMatch_contains fold search a.title hplain]
  cases a.description with
  | none => rfl
  | some d =>
    show (_ || likeMatch fold (lit "%" ++ search ++ lit "%") d) = _
    rw [likeMatch_contains fold search d hplain]

/-- The rows of the joined tables that pass the tag condition and the search condition are rows
of exactly the articles the specification selects. -/
theorem mem_filtered_rows (store : Store) (now : Time) (tags : List GoString) (search : GoString)
    (hplain : ∀ c ∈ search, c ≠ 37 ∧ c ≠ 95 ∧ c ≠ 92) (a : StoredArticle) :
    a ∈ ((fromRows store true).filter (fun row =>
          [Predicate.slugIn tags,
            Predicate.ilike (lit "%" ++ search ++ lit "%") (lit "%" ++ search ++ lit "%")].all
            (fun p => p.holds store.foldCase now row.1 row.2))).map (fun row => row.1)
      ↔ a ∈ store.articles ∧ specSelects store tags search a = true := by
  simp only [List.all_cons, List.all_nil, Bool.and_true, holds_ilike _ _ _ _ _ hplain]
  unfold specSelects taggedWith fromRows
  simp only [if_true, List.mem_map, List.mem_filter, List.mem_flatMap, Bool.and_eq_true,
    List.any_eq_true, decide_eq_true_eq]
  constructor
  · rintro ⟨⟨b, t⟩, ⟨⟨b2, hb2, link, ⟨hlink, hla⟩, t2, ⟨ht2, hid⟩, heq⟩, hslug, hlike⟩, rfl⟩
    cases heq
    simp only [Predicate.holds, decide_eq_true_eq] at hslug
    exact ⟨hb2, ⟨link, hlink, hla, t2, ht2, hid, hslug⟩, hlike⟩
  · rintro ⟨ha, ⟨link, hlink, hla, t, ht, hid, hslug⟩, hlike⟩
    refine ⟨(a, some t), ⟨⟨a, ha, link, ⟨hlink, hla⟩, t, ⟨ht, hid⟩, rfl⟩, ?_, hlike⟩, rfl⟩
    simp only [Predicate.holds, decide_eq_true_eq]
    exact hslug

theorem intParam_at (pre : List Arg) (k : Int) (rest : List Arg) :
    intParam (pre ++ Arg.int k :: rest) (pre.length + 1) = some k := by
  have h : param (pre ++ Arg.int k :: rest) (pre.length + 1) = some (Arg.int k) := by
    unfold param
    rw [if_neg (Nat.succ_ne_zero _), Nat.add_sub_cancel,
      List.getElem?_append_right (Nat.le_refl _), Nat.sub_self]
    simp
  unfold intParam
  rw [h]

theorem insertOrdered_perm (before : StoredArticle → StoredArticle → Bool) (a : StoredArticle) :
    ∀ l : List StoredArticle, List.Perm (insertOrdered before a l) (a :: l) := by
  intro l
  induction l with
  | nil => exact List.Perm.refl _
  | cons b rest ih =>
    unfold insertOrdered
    split
    · exact List.Perm.refl _
    · exact ((List.Perm.cons b ih).trans (List.Perm.swap a b rest))

theorem sortRows_perm (before : StoredArticle → StoredArticle → Bool) :
    ∀ l : List StoredArticle, List.Perm (sortRows before l) l := by
  intro l
  induction l with
  | nil => exact List.Perm.refl _
  | cons a rest ih =>
    unfold sortRows
    exact (insertOrdered_perm before a _).trans (List.Perm.cons a ih)

theorem assembled_page (tags : List GoString) (search sortBy : GoString) (pageSize offset : Int)
    (htags : tags ≠ []) (hsearch : search ≠ []) :
    (assembleQueries tags search sortBy pageSize offset).baseQuery.distinct = true ∧
    (assembleQueries tags search sortBy pageSize offset).baseQuery.limit = tags.length + 1 + 1 ∧
    (assembleQueries tags search sortBy pageSize offset).baseQuery.offset
      = some (tags.length + 1 + 1 + 1) := by
  have hlen : tags.length > 0 := List.length_pos.mpr htags
  unfold assembleQueries
  simp [hlen, hsearch, Nat.add_comm]

theorem assembled_params (tags : List GoString) (pattern : GoString) (pageSize offset : Int) :
    intParam (tags.map Arg.text ++ [Arg.text pattern] ++ [Arg.int pageSize, Arg.int offset])
        (tags.length + 1 + 1) = some pageSize ∧
      intParam (tags.map Arg.text ++ [Arg.text pattern] ++ [Arg.int pageSize, Arg.int offset])
        (tags.length + 1 + 1 + 1) = some offset := by
  constructor
  · have := intParam_at (tags.map Arg.text ++ [Arg.text pattern]) pageSize [Arg.int offset]
    simpa using this
  · have := intParam_at (tags.map Arg.text ++ [Arg.text pattern] ++ [Arg.int pageSize]) offset []
    simpa using this

/-- The search of `GetArticles` takes the term for an `ILIKE` pattern: on the store with one
article titled `"abc"` and tagged `go`, the request `tags=go&search=_` lists and counts that
article, whose title and description do not contain `"_"`. -/
theorem GetArticles_search_wildcard :
    (match GetArticles taggedStore (calmEnv 3000)
        { plainRequest with tags := lit "go", search := lit "_" } with
      | Response.listing r => (r.articles.map (fun a => a.title), r.totalCount)
      | _ => ([], 0)) = ([lit "abc"], 1) ∧
      taggedStore.articles.filter (specSelects taggedStore [lit "go"] (lit "_")) = [] := by
  constructor <;> decide

/-- Claim C20, amended: for every non-empty tag slug list and every non-empty search term without
`%`, `_` and backslash, on a store whose article ids are distinct, the count query and the row
query of `GetArticles` carry the same filter, both select rows of exactly the articles that are
associated with one of the tag slugs and whose title or description contains the term
case-insensitively, each such article is selected once after `DISTINCT` and counted once, and
with a sort other than `trending` and non-negative `LIMIT` and `OFFSET` the row query returns a
page of an ordering of those articles. -/
theorem GetArticles_filter_selects (store : Store) (now : Time) (tags : List GoString)
    (search sortBy : GoString) (pageSize offset : Int)
    (hids : (store.articles.map (fun a => a.id)).Nodup) (htags : tags ≠ [])
    (hsearch : search ≠ []) (hplain : ∀ c ∈ search, c ≠ 37 ∧ c ≠ 95 ∧ c ≠ 92) :
    (assembleQueries tags search sortBy pageSize offset).countQuery.joinTags
        = (assembleQueries tags search sortBy pageSize offset).baseQuery.joinTags ∧
      (assembleQueries tags search sortBy pageSize offset).countQuery.conditions
        = (assembleQueries tags search sortBy pageSize offset).baseQuery.conditions ∧
      ∃ rows : List (StoredArticle × Option Tag),
        matchingRows store now (assembleQueries tags search sortBy pageSize offset).baseQuery.joinTags
            (assembleQueries tags search sortBy pageSize offset).baseQuery.conditions
            (assembleQueries tags search sortBy pageSize offset).args = some rows ∧
          matchingRows store now
            (assembleQueries tags search sortBy pageSize offset).countQuery.joinTags
            (assembleQueries tags search sortBy pageSize offset).countQuery.conditions
            ((assembleQueries tags search sortBy pageSize offset).args.take
              ((assembleQueries tags search sortBy pageSize offset).args.length - 2))
            = some rows ∧
          (∀ a, a ∈ rows.map (fun row => row.1)
            ↔ a ∈ store.articles ∧ specSelects store tags search a = true) ∧
          List.Perm (rows.map (fun row => row.1.listed)).dedup
            ((store.articles.filter (specSelects store tags search)).map (fun a => a.listed)) ∧
          runCount store now (assembleQueries tags search sortBy pageSize offset).countQuery
              ((assembleQueries tags search sortBy pageSize offset).args.take
                ((assembleQueries tags search sortBy pageSize offset).args.length - 2))
            = .ok ((store.articles.filter (specSelects store tags search)).length : Int) ∧
          (sortBy ≠ lit "trending" → 0 ≤ pageSize → 0 ≤ offset →
            runSelect store now (assembleQueries tags search sortBy pageSize offset).baseQuery
                (assembleQueries tags search sortBy pageSize offset).args
              = .ok (((sortRows
                  ((assembleQueries tags search sortBy pageSize offset).baseQuery.orderBy.before now)
                  (rows.map (fun row => row.1.listed)).dedup).drop offset.toNat).take
                    pageSize.toNat)) := by
  obtain ⟨hj1, hj2, hc1, hc2, hargs⟩ := assembled_filter tags search sortBy pageSize offset
    htags hsearch
  obtain ⟨hdistinct, hlimit, hoffset⟩ := assembled_page tags search sortBy pageSize offset
    htags hsearch
  have htake : (assembleQueries tags search sortBy pageSize offset).args.take
      ((assembleQueries tags search sortBy pageSize offset).args.length - 2)
      = tags.map Arg.text ++ [Arg.text (lit "%" ++ search ++ lit "%")] ++ [] := by
    rw [hargs, List.length_append, List.append_nil]
    show List.take ((tags.map Arg.text ++ [Arg.text (lit "%" ++ search ++ lit "%")]).length + 2 - 2)
      _ = _
    rw [Nat.add_sub_cancel, List.take_left]
  have hbindRows := bind_assembled tags (lit "%" ++ search ++ lit "%")
    [Arg.int pageSize, Arg.int offset]
  have hbindCount := bind_assembled tags (lit "%" ++ search ++ lit "%") []
  have hmem := mem_filtered_rows store now tags search hplain
  have hrows : matchingRows store now
      (assembleQueries tags search sortBy pageSize offset).baseQuery.joinTags
      (assembleQueries tags search sortBy pageSize offset).baseQuery.conditions
      (assembleQueries tags search sortBy pageSize offset).args
      = some ((fromRows store true).filter (fun row =>
          [Predicate.slugIn tags,
            Predicate.ilike (lit "%" ++ search ++ lit "%") (lit "%" ++ search ++ lit "%")].all
            (fun p => p.holds store.foldCase now row.1 row.2))) := by
    rw [hj1, hc1, hargs]
    unfold matchingRows
    rw [hbindRows]
    rfl
  have hcount : matchingRows store now
      (assembleQueries tags search sortBy pageSize offset).countQuery.joinTags
      (assembleQueries tags search sortBy pageSize offset).countQuery.conditions
      ((assembleQueries tags search sortBy pageSize offset).args.take
        ((assembleQueries tags search sortBy pageSize offset).args.length - 2))
      = some ((fromRows store true).filter (fun row =>
          [Predicate.slugIn tags,
            Predicate.ilike (lit "%" ++ search ++ lit "%") (lit "%" ++ search ++ lit "%")].all
            (fun p => p.holds store.foldCase now row.1 row.2))) := by
    rw [hj2, hc2, htake]
    unfold matchingRows
    rw [hbindCount]
    rfl
  have hsel := distinct_selected store.articles (specSelects store tags search) hids
    (((fromRows store true).filter (fun row =>
          [Predicate.slugIn tags,
            Predicate.ilike (lit "%" ++ search ++ lit "%") (lit "%" ++ search ++ lit "%")].all
            (fun p => p.holds store.foldCase now row.1 row.2))).map (fun row => row.1)) hmem
  rw [List.map_map, List.map_map] at hsel
  refine ⟨by rw [hj1, hj2], by rw [hc1, hc2], _, hrows, hcount, hmem, hsel.2, ?_, ?_⟩
  · unfold runCount
    rw [hcount]
    have hlen := hsel.1.length_eq
    rw [List.length_map] at hlen
    show Except.ok _ = _
    exact congrArg (fun n : Nat => (Except.ok (n : Int) : Except Error Int)) hlen
  · intro hsort hsize hoff
    obtain ⟨hp1, hp2⟩ := assembled_params tags (lit "%" ++ search ++ lit "%") pageSize offset
    have horder : (assembleQueries tags search sortBy pageSize offset).baseQuery.orderBy.inSelectList
        = true := by
      unfold assembleQueries
      by_cases hpop : sortBy = lit "popular"
      · simp [hpop, OrderBy.inSelectList]
      · simp [hpop, hsort, OrderBy.inSelectList]
    unfold runSelect
    rw [hrows, hlimit, hoffset, hdistinct, horder, hargs]
    simp only [hp1, hp2]
    simp [Int.not_lt.mpr hsize, Int.not_lt.mpr hoff]

/-- C20 at a concrete store: the article titled `"abc"` and tagged `go` is counted once for
`tags=go&search=b`. -/
theorem GetArticles_filter_selects_witness :
    ∃ rows : List (StoredArticle × Option Tag),
      matchingRows taggedStore 3000 true
          (assembleQueries [lit "go"] (lit "b") [] 20 0).baseQuery.conditions
          (assembleQueries [lit "go"] (lit "b") [] 20 0).args = some rows ∧
        List.Perm (rows.map (fun row => row.1.listed)).dedup
          [(storedArticle 1 (lit "abc") 0 none 1000).listed] ∧
        runCount taggedStore 3000 (assembleQueries [lit "go"] (lit "b") [] 20 0).countQuery
            ((assembleQueries [lit "go"] (lit "b") [] 20 0).args.take
              ((assembleQueries [lit "go"] (lit "b") [] 20 0).args.length - 2))
          = .ok 1 :=
  match GetArticles_filter_selects taggedStore 3000 [lit "go"] (lit "b") [] 20 0
      (by decide) (by decide) (by decide) (by decide) with
  | ⟨_, _, rows, hrows, _, _, hperm, hcount, _⟩ => ⟨rows, hrows, hperm, hcount⟩

/-! ## C21: the deadline of the invocation -/

theorem iterate_nil (fetch : Nat → FetchEnv) (r : Run) (h : r.pending = []) :
    r.iterate fetch = r := by
  unfold Run.iterate
  rw [h]

theorem iterate_cons (fetch : Nat → FetchEnv) (r : Run) (src : Source) (rest : List Source)
    (h : r.pending = src :: rest) :
    r.iterate fetch =
      { pending := rest, position := r.position + 1, deadlinePassed := r.deadlinePassed,
        world :=
          match (FetchSource
              (if r.deadlinePassed then (fetch r.position).pastDeadline else fetch r.position)
              src.id src.name src.url src.faviconURL r.world).2 with
          | some err =>
            (FetchSource
              (if r.deadlinePassed then (fetch r.position).pastDeadline else fetch r.position)
              src.id src.name src.url src.faviconURL r.world).1.emit
                (Event.logFetchError src.name err)
          | none =>
            (FetchSource
              (if r.deadlinePassed then (fetch r.position).pastDeadline else fetch r.position)
              src.id src.name src.url src.faviconURL r.world).1 } := by
  unfold Run.iterate
  rw [h]

/-- An iteration of the fetch loop starts the feed fetch of the next pending source, whether or
not the deadline has passed. -/
theorem iterate_parsed (fetch : Nat → FetchEnv) (r : Run) (src : Source)
    (rest : List Source) (h : r.pending = src :: rest) :
    (r.iterate fetch).world.parsed = r.world.parsed ++ [src.url] ∧
      (r.iterate fetch).pending = rest ∧
      (r.iterate fetch).deadlinePassed = r.deadlinePassed := by
  rw [iterate_cons fetch r src rest h]
  refine ⟨?_, rfl, rfl⟩
  dsimp only
  cases hout : (FetchSource
      (if r.deadlinePassed then (fetch r.position).pastDeadline else fetch r.position)
      src.id src.name src.url src.faviconURL r.world).2 with
  | some err => simp [parsed_emit, FetchSource_parsed]
  | none => simp [FetchSource_parsed]

/-- Before the deadline the iterations of the run are the fetch loop of `FetchAllSources`. -/
theorem steps_iterate (fetch : Nat → FetchEnv) (pending : List Source) :
    ∀ (position : Nat) (w : World),
      (Run.steps fetch (List.replicate pending.length RunStep.iterate)
          { pending := pending, position := position, deadlinePassed := false, world := w }).world
        = fetchLoop fetch position pending w := by
  induction pending with
  | nil => intro position w; rfl
  | cons src rest ih =>
    intro position w
    rw [List.length_cons, List.replicate_succ]
    show (Run.steps fetch _ (Run.iterate fetch _)).world = _
    rw [iterate_cons fetch _ src rest rfl]
    unfold fetchLoop
    cases hout : (FetchSource (fetch position) src.id src.name src.url src.faviconURL w).2 with
    | some err =>
      simp only [Bool.false_eq_true, if_false, hout]
      exact ih _ _
    | none =>
      simp only [Bool.false_eq_true, if_false, hout]
      exact ih _ _

/-- A run of `FetchAllSources` whose listing query succeeds and whose deadline never passes is
the run of as many iterations as there are listed sources. -/
theorem FetchAllSources_eq_steps (env : AllEnv) (w : World) (h : env.queryErr = none) :
    (FetchAllSources env w).1
      = (Run.steps env.fetch
          (List.replicate (Run.start env w).pending.length RunStep.iterate)
          (Run.start env w)).world := by
  unfold FetchAllSources Run.start
  rw [h]
  exact (steps_iterate env.fetch _ 0 _).symm

/-- With every existence check failing, the entry loop only issues the checks. -/
theorem processItems_checks_fail (env : FetchEnv) (sourceID : UUID) (sourceName : GoString)
    (h : ∀ i, (env.existsErr i).isSome = true) (items : List Item) :
    ∀ (i : Nat) (w : World),
      processItems env sourceID sourceName i items w
        = { w with trace := w.trace ++ items.map (fun item => Event.existsQuery item.link) } := by
  induction items with
  | nil => intro i w; simp [processItems]
  | cons item rest ih =>
    intro i w
    have hstep : processItem env sourceID sourceName i item w
        = w.emit (Event.existsQuery item.link) := by
      unfold processItem
      cases hi : env.existsErr i with
      | none =>
        have := h i
        rw [hi] at this
        exact absurd this (by decide)
      | some err => rfl
    show processItems env sourceID sourceName (i + 1) rest _ = _
    rw [hstep, ih]
    simp [World.emit]

/-- After the deadline `FetchSource` still fetches the feed, then issues the existence check of
every entry and the update of the source, all of which fail, and returns the error of the
context. -/
theorem FetchSource_pastDeadline (env : FetchEnv) (sourceID : UUID)
    (sourceName sourceURL : GoString) (faviconURL : Option GoString) (w : World)
    (items : List Item) (h : env.feed = .ok items) :
    FetchSource env.pastDeadline sourceID sourceName sourceURL faviconURL w
      = ({ w with trace := w.trace ++ [Event.parseURL sourceURL]
            ++ items.map (fun item => Event.existsQuery item.link)
            ++ [Event.updateExec sourceID] }, some deadlineExceeded) := by
  have hfeed : env.pastDeadline.feed = .ok items := h
  have hupdate : env.pastDeadline.updateErr = some deadlineExceeded := rfl
  unfold FetchSource
  rw [hfeed]
  simp only [hupdate]
  rw [processItems_checks_fail env.pastDeadline sourceID sourceName (fun _ => rfl)]
  simp [World.emit]

/-- An iteration after the deadline: the feed of the next pending source is fetched, and the
failure of its storage calls is logged. -/
theorem iterate_pastDeadline (fetch : Nat → FetchEnv) (r : Run) (src : Source)
    (rest : List Source) (items : List Item) (hpending : r.pending = src :: rest)
    (hpassed : r.deadlinePassed = true) (hfeed : (fetch r.position).feed = .ok items) :
    (r.iterate fetch).world.trace
      = r.world.trace ++ [Event.parseURL src.url]
          ++ items.map (fun item => Event.existsQuery item.link)
          ++ [Event.updateExec src.id, Event.logFetchError src.name deadlineExceeded] := by
  rw [iterate_cons fetch r src rest hpending, hpassed]
  simp only [if_true]
  rw [FetchSource_pastDeadline (fetch r.position) src.id src.name src.url src.faviconURL r.world
    items hfeed]
  simp [World.emit]

/-- C21 (the code at the failing input): with two active sources and a deadline that passes
after the first source has been fetched, the run still starts the feed fetch of the second
source: the state after the first iteration and the deadline has the deadline passed and the
second source pending, and the next iteration calls `ParseURL` on its URL; only the storage
calls of that iteration fail. The step of the specification would leave the state unchanged. -/
theorem FetchAllSources_fetches_after_deadline :
    (Run.start calmAllEnv twoSourcesWorld).pending.map (fun src => src.url)
        = [lit "http://one", lit "http://two"] ∧
      (Run.steps calmAllEnv.fetch [RunStep.iterate, RunStep.expire]
          (Run.start calmAllEnv twoSourcesWorld)).deadlinePassed = true ∧
      (Run.steps calmAllEnv.fetch [RunStep.iterate, RunStep.expire]
          (Run.start calmAllEnv twoSourcesWorld)).pending.map (fun src => src.url)
        = [lit "http://two"] ∧
      (Run.steps calmAllEnv.fetch [RunStep.iterate, RunStep.expire]
          (Run.start calmAllEnv twoSourcesWorld)).world.parsed = [lit "http://one"] ∧
      ((Run.steps calmAllEnv.fetch [RunStep.iterate, RunStep.expire]
          (Run.start calmAllEnv twoSourcesWorld)).iterate calmAllEnv.fetch).world.trace
        = (Run.steps calmAllEnv.fetch [RunStep.iterate, RunStep.expire]
            (Run.start calmAllEnv twoSourcesWorld)).world.trace
          ++ [Event.parseURL (lit "http://two"), Event.existsQuery (lit "a"),
              Event.updateExec 2, Event.logFetchError (lit "two") deadlineExceeded] ∧
      (Run.steps calmAllEnv.fetch [RunStep.iterate, RunStep.expire]
          (Run.start calmAllEnv twoSourcesWorld)).specIterate calmAllEnv.fetch
        = Run.steps calmAllEnv.fetch [RunStep.iterate, RunStep.expire]
            (Run.start calmAllEnv twoSourcesWorld) := by
  have hpassed : (Run.steps calmAllEnv.fetch [RunStep.iterate, RunStep.expire]
      (Run.start calmAllEnv twoSourcesWorld)).deadlinePassed = true := by decide
  refine ⟨by decide, hpassed, by decide, by decide, ?_, ?_⟩
  · exact iterate_pastDeadline calmAllEnv.fetch _
      { id := 2, name := lit "two", url := lit "http://two", faviconURL := none } []
      [entry (lit "a") (lit "text") []] (by decide) hpassed rfl
  · unfold Run.specIterate
    rw [if_pos hpassed]

/-! ## C22: the placeholders of the queries of `GetArticles` -/

/-- The queries `GetArticles` assembles, spelled out. -/
theorem assembleQueries_eq (tags : List GoString) (search sortBy : GoString)
    (pageSize offset : Int) :
    (assembleQueries tags search sortBy pageSize offset).args
        = tags.map Arg.text
          ++ (if search ≠ [] then [Arg.text (lit "%" ++ search ++ lit "%")] else [])
          ++ [Arg.int pageSize, Arg.int offset] ∧
      (assembleQueries tags search sortBy pageSize offset).baseQuery.conditions
        = (if tags.length > 0 then [Condition.slugIn (List.range' 1 tags.length)] else [])
          ++ (if search ≠ [] then
              [Condition.titleOrDescriptionILike (tags.length + 1) (tags.length + 1)] else []) ∧
      (assembleQueries tags search sortBy pageSize offset).baseQuery.limit
        = tags.length + (if search ≠ [] then 1 else 0) + 1 ∧
      (assembleQueries tags search sortBy pageSize offset).baseQuery.offset
        = some (tags.length + (if search ≠ [] then 1 else 0) + 2) ∧
      (assembleQueries tags search sortBy pageSize offset).countQuery.conditions
        = (assembleQueries tags search sortBy pageSize offset).baseQuery.conditions ∧
      (assembleQueries tags search sortBy pageSize offset).countQuery.joinTags
        = (assembleQueries tags search sortBy pageSize offset).baseQuery.joinTags := by
  unfold assembleQueries
  by_cases htags : tags = []
  · subst htags
    by_cases hsearch : search = []
    · subst hsearch
      simp
    · simp [hsearch]
  · have hlen : tags.length > 0 := List.length_pos.mpr htags
    by_cases hsearch : search = []
    · subst hsearch
      simp [hlen, Nat.add_comm]
      omega
    · simp [hlen, hsearch, Nat.add_comm]
      omega

/-- C22: for every tag list (of `n` slugs, `n` possibly 0) and every search term, the row query
`GetArticles` assembles mentions exactly the placeholders `$1..$m`, `m` the number of its
arguments; the tag condition (present when `n > 0`) lists `$1..$n` and tag `i` is argument `i`;
the search condition (present when the term is non-empty) uses `$(n+1)`, bound to the pattern;
`LIMIT` is `$(m-1)`, bound to the page size, and `OFFSET` is `$m`, bound to the offset; the count
query has the same join and the same conditions, its placeholders are exactly `$1..$(m-2)`, and
its arguments are the arguments of the row query without the last two. -/
theorem assembleQueries_placeholders (tags : List GoString) (search sortBy : GoString)
    (pageSize offset : Int) :
    (∀ k, k ∈ (assembleQueries tags search sortBy pageSize offset).baseQuery.placeholders
        ↔ 1 ≤ k ∧ k ≤ (assembleQueries tags search sortBy pageSize offset).args.length) ∧
      (assembleQueries tags search sortBy pageSize offset).baseQuery.conditions
        = (if tags.length > 0 then [Condition.slugIn (List.range' 1 tags.length)] else [])
          ++ (if search ≠ [] then
              [Condition.titleOrDescriptionILike (tags.length + 1) (tags.length + 1)] else []) ∧
      (∀ i, ∀ h : i < tags.length,
        param (assembleQueries tags search sortBy pageSize offset).args (i + 1)
          = some (Arg.text (tags.get ⟨i, h⟩))) ∧
      (search ≠ [] →
        param (assembleQueries tags search sortBy pageSize offset).args (tags.length + 1)
          = some (Arg.text (lit "%" ++ search ++ lit "%"))) ∧
      (assembleQueries tags search sortBy pageSize offset).baseQuery.limit + 1
        = (assembleQueries tags search sortBy pageSize offset).args.length ∧
      (assembleQueries tags search sortBy pageSize offset).baseQuery.offset
        = some (assembleQueries tags search sortBy pageSize offset).args.length ∧
      param (assembleQueries tags search sortBy pageSize offset).args
          (assembleQueries tags search sortBy pageSize offset).baseQuery.limit
        = some (Arg.int pageSize) ∧
      param (assembleQueries tags search sortBy pageSize offset).args
          (assembleQueries tags search sortBy pageSize offset).args.length
        = some (Arg.int offset) ∧
      (assembleQueries tags search sortBy pageSize offset).countQuery.joinTags
        = (assembleQueries tags search sortBy pageSize offset).baseQuery.joinTags ∧
      (assembleQueries tags search sortBy pageSize offset).countQuery.conditions
        = (assembleQueries tags search sortBy pageSize offset).baseQuery.conditions ∧
      (∀ k, k ∈ (assembleQueries tags search sortBy pageSize offset).countQuery.placeholders
        ↔ 1 ≤ k ∧ k ≤ (assembleQueries tags search sortBy pageSize offset).args.length - 2) ∧
      (assembleQueries tags search sortBy pageSize offset).args.take
          ((assembleQueries tags search sortBy pageSize offset).args.length - 2)
          ++ [Arg.int pageSize, Arg.int offset]
        = (assembleQueries tags search sortBy pageSize offset).args ∧
      (assembleQueries tags search sortBy pageSize offset).args.take
          ((assembleQueries tags search sortBy pageSize offset).args.length - 2)
        = tags.map Arg.text
          ++ (if search ≠ [] then [Arg.text (lit "%" ++ search ++ lit "%")] else []) := by
  obtain ⟨hargs, hconds, hlimit, hoffset, hcc, hcj⟩ :=
    assembleQueries_eq tags search sortBy pageSize offset
  have hlen : (assembleQueries tags search sortBy pageSize offset).args.length
      = tags.length + (if search ≠ [] then 1 else 0) + 2 := by
    rw [hargs]
    by_cases hsearch : search = [] <;> simp [hsearch]
  have htake : (assembleQueries tags search sortBy pageSize offset).args.take
      ((assembleQueries tags search sortBy pageSize offset).args.length - 2)
      = tags.map Arg.text
        ++ (if search ≠ [] then [Arg.text (lit "%" ++ search ++ lit "%")] else []) := by
    rw [hlen, Nat.add_sub_cancel, hargs]
    have hl : (tags.map Arg.text
        ++ (if search ≠ [] then [Arg.text (lit "%" ++ search ++ lit "%")] else [])).length
        = tags.length + (if search ≠ [] then 1 else 0) := by
      by_cases hsearch : search = [] <;> simp [hsearch]
    rw [← hl, List.take_left]
  have hfilter : ∀ k, k ∈ (assembleQueries tags search sortBy pageSize offset).countQuery.placeholders
      ↔ 1 ≤ k ∧ k ≤ tags.length + (if search ≠ [] then 1 else 0) := by
    intro k
    unfold CountArticles.placeholders
    rw [hcc, hconds]
    by_cases htags : tags.length > 0 <;> by_cases hsearch : search = [] <;>
      simp [htags, hsearch, Condition.placeholders, List.mem_range'_1] <;> omega
  have hparam : ∀ (pre : List Arg) (a : Arg) (rest : List Arg),
      param (pre ++ a :: rest) (pre.length + 1) = some a := by
    intro pre a rest
    unfold param
    rw [if_neg (Nat.succ_ne_zero _), Nat.add_sub_cancel,
      List.getElem?_append_right (Nat.le_refl _), Nat.sub_self]
    simp
  refine ⟨?_, hconds, ?_, ?_, ?_, ?_, ?_, ?_, hcj, hcc, ?_, ?_, htake⟩
  · intro k
    have hk := hfilter k
    unfold CountArticles.placeholders at hk
    rw [hcc] at hk
    unfold SelectArticles.placeholders
    rw [hlimit, hoffset, hlen]
    simp only [List.mem_append, hk, List.mem_singleton]
    omega
  · intro i h
    unfold param
    rw [if_neg (Nat.succ_ne_zero _), Nat.add_sub_cancel, hargs, List.append_assoc,
      List.getElem?_append_left (by rw [List.length_map]; exact h)]
    simp [List.getElem?_eq_getElem h]
  · intro hsearch
    rw [hargs, if_pos hsearch, List.append_assoc, List.singleton_append]
    have := hparam (tags.map Arg.text) (Arg.text (lit "%" ++ search ++ lit "%"))
      [Arg.int pageSize, Arg.int offset]
    rwa [List.length_map] at this
  · rw [hlimit, hlen]
  · rw [hoffset, hlen]
  · rw [hlimit]
    have := hparam (tags.map Arg.text
        ++ (if search ≠ [] then [Arg.text (lit "%" ++ search ++ lit "%")] else []))
      (Arg.int pageSize) [Arg.int offset]
    rw [hargs]
    by_cases hsearch : search = [] <;> simpa [hsearch] using this
  · rw [hlen]
    have := hparam (tags.map Arg.text
        ++ (if search ≠ [] then [Arg.text (lit "%" ++ search ++ lit "%")] else [])
        ++ [Arg.int pageSize]) (Arg.int offset) []
    rw [hargs]
    by_cases hsearch : search = [] <;> simpa [hsearch] using this
  · intro k
    rw [hfilter k, hlen, Nat.add_sub_cancel]
  · rw [htake, hargs]

/-! ## C23: the products of the pagination -/

/-- As long as `page * page_size` is below `2^63`, the offset and the product of the pagination
are the mathematical products, and they are not negative. -/
theorem pagination_exact (rawPage rawPageSize : GoString)
    (h : (getArticlesPagination rawPage rawPageSize).page
      * (getArticlesPagination rawPage rawPageSize).pageSize < 9223372036854775808) :
    (getArticlesPagination rawPage rawPageSize).offset
        = ((getArticlesPagination rawPage rawPageSize).page - 1)
          * (getArticlesPagination rawPage rawPageSize).pageSize ∧
      0 ≤ (getArticlesPagination rawPage rawPageSize).offset ∧
      (getArticlesPagination rawPage rawPageSize).product
        = (getArticlesPagination rawPage rawPageSize).page
          * (getArticlesPagination rawPage rawPageSize).pageSize ∧
      0 ≤ (getArticlesPagination rawPage rawPageSize).product := by
  obtain ⟨_, _, _, hp, hs1, _, _, hoff⟩ := pagination_clamped rawPage rawPageSize
  have hprod : 0 ≤ (getArticlesPagination rawPage rawPageSize).page
      * (getArticlesPagination rawPage rawPageSize).pageSize :=
    Int.mul_nonneg (by omega) (by omega)
  have hle : ((getArticlesPagination rawPage rawPageSize).page - 1)
      * (getArticlesPagination rawPage rawPageSize).pageSize
      ≤ (getArticlesPagination rawPage rawPageSize).page
        * (getArticlesPagination rawPage rawPageSize).pageSize :=
    Int.mul_le_mul_of_nonneg_right (by omega) (by omega)
  have h0 : 0 ≤ ((getArticlesPagination rawPage rawPageSize).page - 1)
      * (getArticlesPagination rawPage rawPageSize).pageSize :=
    Int.mul_nonneg (by omega) (by omega)
  have hoff := hoff (by omega)
  have hw : (getArticlesPagination rawPage rawPageSize).product
      = (getArticlesPagination rawPage rawPageSize).page
        * (getArticlesPagination rawPage rawPageSize).pageSize :=
    wrap64_of_range _ (by omega) h
  refine ⟨hoff, by rw [hoff]; exact h0, hw, by rw [hw]; exact hprod⟩

/-- C23 (the code at the failing inputs): for `page=9223372036854775807&page_size=50` both
handlers compute the offset -100 and the product -50; `GetArticles` passes the offset to the
store, which aborts the statement when it executes it, and since the handler never reads
`rows.Err()` it answers with no rows and `has_more` true, computed from the wrapped product.
For `page=184467440737095517&page_size=50` the offset 9223372036854775800 is exact but the
product `page * pageSize` wraps to -9223372036854775766 at both call sites, and `GetArticles`
reports `has_more` from it: true, with 2 articles in all. -/
theorem pagination_products_wrap :
    getArticlesPagination (lit "9223372036854775807") (lit "50")
        = { page := 9223372036854775807, pageSize := 50, offset := -100 } ∧
      getBookmarksPagination (lit "9223372036854775807") (lit "50")
        = { page := 9223372036854775807, pageSize := 50, offset := -100 } ∧
      (getArticlesPagination (lit "9223372036854775807") (lit "50")).product = -50 ∧
      (getBookmarksPagination (lit "9223372036854775807") (lit "50")).product = -50 ∧
      runSelect
          (storeOf [storedArticle 1 (lit "old") 0 none 1000, storedArticle 2 (lit "new") 0 none 2000])
          3000 (assembleQueries [] [] (lit "newest") 50 (-100)).baseQuery
          (assembleQueries [] [] (lit "newest") 50 (-100)).args
        = .error (QueryError.aborted "OFFSET must not be negative") ∧
      GetArticles
          (storeOf [storedArticle 1 (lit "old") 0 none 1000, storedArticle 2 (lit "new") 0 none 2000])
          (calmEnv 3000)
          { plainRequest with page := lit "9223372036854775807", pageSize := lit "50" }
        = Response.listing
            { articles := [], totalCount := 2, page := 9223372036854775807, pageSize := 50,
              hasMore := true } ∧
      getArticlesPagination (lit "184467440737095517") (lit "50")
        = { page := 184467440737095517, pageSize := 50, offset := 9223372036854775800 } ∧
      (getArticlesPagination (lit "184467440737095517") (lit "50")).product
        = -9223372036854775766 ∧
      (getBookmarksPagination (lit "184467440737095517") (lit "50")).product
        = -9223372036854775766 ∧
      (184467440737095517 : Int) * 50 = 9223372036854775850 ∧
      GetArticles
          (storeOf [storedArticle 1 (lit "old") 0 none 1000, storedArticle 2 (lit "new") 0 none 2000])
          (calmEnv 3000)
          { plainRequest with page := lit "184467440737095517", pageSize := lit "50" }
        = Response.listing
            { articles := [], totalCount := 2, page := 184467440737095517, pageSize := 50,
              hasMore := true } := by
  refine ⟨by decide, by decide, by decide, by decide, by rfl, by decide, by decide,
    by decide, by decide, by decide, by decide⟩

/-! ## C24: `stripHTML` is idempotent -/

theorem noAdjacentSpaces_append (w l : List Nat) (hw : ∀ r ∈ w, isSpace r = false)
    (hl : noAdjacentSpaces l = true) : noAdjacentSpaces (w ++ l) = true := by
  induction w with
  | nil => exact hl
  | cons a w ih =>
    have ha : isSpace a = false := hw a (List.mem_cons_self _ _)
    have ih := ih (fun r hr => hw r (List.mem_cons_of_mem _ hr))
    cases hwl : w ++ l with
    | nil => rw [List.cons_append, hwl]; rfl
    | cons b rest =>
      rw [List.cons_append, hwl]
      rw [hwl] at ih
      simp only [noAdjacentSpaces, ha, Bool.false_and, Bool.not_false, Bool.true_and]
      exact ih

theorem noAdjacentSpaces_cons (a : Nat) (l : List Nat) (hhead : ∀ b ∈ l.head?, isSpace b = false)
    (hl : noAdjacentSpaces l = true) : noAdjacentSpaces (a :: l) = true := by
  cases l with
  | nil => rfl
  | cons b rest =>
    have hb : isSpace b = false := hhead b (by simp)
    simp only [noAdjacentSpaces, hb, Bool.and_false, Bool.not_false, Bool.true_and]
    exact hl

/-- Words without white space joined by single spaces have no two adjacent white-space runes. -/
theorem Join_noAdjacentSpaces (ws : List (List Nat))
    (h : ∀ w ∈ ws, w ≠ [] ∧ ∀ r ∈ w, isSpace r = false) :
    noAdjacentSpaces (Join ws [32]) = true := by
  induction ws with
  | nil => rfl
  | cons w ws ih =>
    have hw := h w (List.mem_cons_self _ _)
    have hrest : ∀ v ∈ ws, v ≠ [] ∧ ∀ r ∈ v, isSpace r = false :=
      fun v hv => h v (List.mem_cons_of_mem _ hv)
    cases ws with
    | nil =>
      show noAdjacentSpaces w = true
      have := noAdjacentSpaces_append w [] hw.2 rfl
      rwa [List.append_nil] at this
    | cons v rest =>
      show noAdjacentSpaces (w ++ [32] ++ Join (v :: rest) [32]) = true
      rw [List.append_assoc, List.singleton_append]
      exact noAdjacentSpaces_append w _ hw.2
        (noAdjacentSpaces_cons 32 _ (Join_tight (v :: rest) hrest).1 (ih hrest))

/-- The runes of the output of `stripHTML`: the words of the kept text joined by single
spaces. -/
theorem rangeRunes_stripHTML (s : GoString) :
    rangeRunes (stripHTML s) = Join (words (keepText false (rangeRunes s))) [32] := by
  rw [stripHTML_eq, rangeRunes_encodeAll _ (Join_words_valid _ (keepText_valid s false))]

theorem words_keepText_tight (s : GoString) :
    ∀ w ∈ words (keepText false (rangeRunes s)), w ≠ [] ∧ ∀ r ∈ w, isSpace r = false :=
  fun w hw => ⟨(words_mem _ w hw).1, fun r hr => ((words_mem _ w hw).2 r hr).2⟩

theorem stripHTML_runes_plain (s : GoString) :
    ∀ r ∈ rangeRunes (stripHTML s), r ≠ 60 ∧ r ≠ 62 := by
  intro r hr
  rw [rangeRunes_stripHTML] at hr
  rcases Join_mem [32] _ r hr with h | ⟨w, hw, hrw⟩
  · rw [List.mem_singleton] at h
    subst h
    decide
  · exact (keepText_mem _ false r ((words_mem _ w hw).2 r hrw).1).2

theorem stripHTML_runes_space (s : GoString) :
    ∀ r ∈ rangeRunes (stripHTML s), isSpace r = true → r = 32 := by
  intro r hr hsp
  rw [rangeRunes_stripHTML] at hr
  rcases Join_mem [32] _ r hr with h | ⟨w, hw, hrw⟩
  · exact List.mem_singleton.mp h
  · rw [((words_mem _ w hw).2 r hrw).2] at hsp
    exact absurd hsp (by decide)

/-- A byte below 0x80 in the encoding of a rune is that rune. -/
theorem encodeRune_ascii_mem (r b : Nat) (hb : b ∈ encodeRune r) (h : b < 0x80) : b = r := by
  unfold encodeRune at hb
  split_ifs at hb <;> simp only [List.mem_cons, List.mem_singleton, List.not_mem_nil, or_false] at hb
    <;> omega

theorem encodeAll_ascii_mem (rs : List Nat) (b : Nat) (hb : b ∈ encodeAll rs) (h : b < 0x80) :
    b ∈ rs := by
  unfold encodeAll at hb
  obtain ⟨l, hl, hbl⟩ := List.mem_flatten.mp hb
  obtain ⟨r, hr, rfl⟩ := List.mem_map.mp hl
  exact (encodeRune_ascii_mem r b hbl h) ▸ hr

/-- C24: `stripHTML` is idempotent, and its output has no `<` and no `>` (as bytes and as
runes), does not start and does not end with white space, and has no white space but single
spaces (U+0020, never two in a row). -/
theorem stripHTML_idempotent (s : GoString) :
    stripHTML (stripHTML s) = stripHTML s ∧
      60 ∉ stripHTML s ∧ 62 ∉ stripHTML s ∧
      60 ∉ rangeRunes (stripHTML s) ∧ 62 ∉ rangeRunes (stripHTML s) ∧
      (∀ a ∈ (rangeRunes (stripHTML s)).head?, isSpace a = false) ∧
      (∀ b ∈ (rangeRunes (stripHTML s)).getLast?, isSpace b = false) ∧
      (∀ r ∈ rangeRunes (stripHTML s), isSpace r = true → r = 32) ∧
      noAdjacentSpaces (rangeRunes (stripHTML s)) = true := by
  have htight := Join_tight _ (words_keepText_tight s)
  have hplain := stripHTML_runes_plain s
  have hspace := stripHTML_runes_space s
  have hadj : noAdjacentSpaces (rangeRunes (stripHTML s)) = true := by
    rw [rangeRunes_stripHTML]
    exact Join_noAdjacentSpaces _ (words_keepText_tight s)
  have hhead : ∀ a ∈ (rangeRunes (stripHTML s)).head?, isSpace a = false := by
    rw [rangeRunes_stripHTML]
    exact htight.1
  have hlast : ∀ b ∈ (rangeRunes (stripHTML s)).getLast?, isSpace b = false := by
    rw [rangeRunes_stripHTML]
    exact htight.2.1
  have h60 : 60 ∉ rangeRunes (stripHTML s) := fun h => (hplain 60 h).1 rfl
  have h62 : 62 ∉ rangeRunes (stripHTML s) := fun h => (hplain 62 h).2 rfl
  have hbytes : ∀ b, b < 0x80 → b ∈ stripHTML s → b ∈ rangeRunes (stripHTML s) := by
    intro b hb hmem
    rw [rangeRunes_stripHTML]
    rw [stripHTML_eq] at hmem
    exact encodeAll_ascii_mem _ b hmem hb
  refine ⟨?_, fun h => h60 (hbytes 60 (by omega) h), fun h => h62 (hbytes 62 (by omega) h),
    h60, h62, hhead, hlast, hspace, hadj⟩
  have hfix := ((Join_words_clean (rangeRunes (stripHTML s)) hspace hadj hlast).2 hhead).1
  rw [stripHTML_eq (stripHTML s), keepText_of_plain _ hplain]
  show encodeAll (Join (wordsLoop (rangeRunes (stripHTML s)) []) [32]) = _
  rw [hfix, rangeRunes_stripHTML, ← stripHTML_eq]

end Zyyp
